import Mathlib

/-!
# Pokeprofit: scrape / parse / normalise pipeline

A shallow embedding of the eBay crawler (`internal/scraper/ebay`), its retry and
rate-limit primitives (`internal/scraper/common`) and the product normaliser
(`internal/analyzer`), followed by theorems about them.

Conventions of the embedding

* Go strings are modelled by their sequence of runes (`List Char`); every text the
  code handles here is valid UTF-8, on which substring tests, replacement and
  splitting agree between bytes and runes.
* `float64` values that are prices and scores are modelled by exact rationals (`ℚ`):
  there, rounding to the nearest double and overflow to infinity are outside the
  embedding. The delays of the retryer are computed on `F64`, a model of IEEE 754
  binary64 with rounding to nearest, the infinities and NaN.
* `regexp` patterns are modelled by a backtracking matcher, which finds the
  leftmost-first match that Go's `regexp` package specifies.
-/

namespace Pokeprofit

/-! ## Standard-library string helpers (package `strings`, `unicode`) -/

/-- Runes. -/
abbrev Str := List Char

/-- Model of `unicode.IsSpace`. -/
def isSpace (c : Char) : Bool :=
  c == '\t' || c == '\n' || c == '\x0b' || c == '\x0c' || c == '\r' || c == ' ' ||
  c == '\u0085' || c == '\u00a0' || c == '\u1680' ||
  (0x2000 ≤ c.toNat && c.toNat ≤ 0x200a) ||
  c == '\u2028' || c == '\u2029' || c == '\u202f' || c == '\u205f' || c == '\u3000'

/-- Model of `strings.TrimSpace`. -/
def TrimSpace (s : Str) : Str :=
  ((s.dropWhile isSpace).reverse.dropWhile isSpace).reverse

/-- Model of `strings.HasPrefix`. -/
def HasPrefix (s pre : Str) : Bool := pre.isPrefixOf s

/-- Model of `strings.TrimPrefix`. -/
def TrimPrefix (s pre : Str) : Str :=
  if HasPrefix s pre then s.drop pre.length else s

/-- Model of `strings.TrimSuffix`. -/
def TrimSuffix (s suf : Str) : Str :=
  if suf.isSuffixOf s then s.take (s.length - suf.length) else s

/-- Model of `strings.Contains`. -/
def Contains : Str → Str → Bool
  | [], sub => sub.isEmpty
  | c :: cs, sub => sub.isPrefixOf (c :: cs) || Contains cs sub

/-- Worker of `ReplaceAll`: `skip` counts the runes of a replaced occurrence that are
still to be passed over. -/
def ReplaceAll.go (old new : Str) : Nat → Str → Str
  | _, [] => []
  | skip + 1, _ :: cs => ReplaceAll.go old new skip cs
  | 0, c :: cs =>
    if old.isPrefixOf (c :: cs) then new ++ ReplaceAll.go old new (old.length - 1) cs
    else c :: ReplaceAll.go old new 0 cs

/-- Model of `strings.ReplaceAll` for a non-empty `old` (all call sites pass a
constant, non-empty `old`): non-overlapping occurrences, left to right. -/
def ReplaceAll (s old new : Str) : Str := ReplaceAll.go old new 0 s

/-- Worker of `Split`: `acc` is the current piece, reversed. -/
def Split.go (sep : Str) : Nat → Str → Str → List Str
  | _, [], acc => [acc.reverse]
  | skip + 1, _ :: cs, acc => Split.go sep skip cs acc
  | 0, c :: cs, acc =>
    if sep.isPrefixOf (c :: cs) then acc.reverse :: Split.go sep (sep.length - 1) cs []
    else Split.go sep 0 cs (c :: acc)

/-- Model of `strings.Split` for a non-empty separator. -/
def Split (s sep : Str) : List Str := Split.go sep 0 s []

/-- Model of `unicode.ToLower` on ASCII and Latin-1 letters; runes outside Latin-1 are
left as they are (every rune the patterns below mention is within Latin-1). -/
def toLowerRune (c : Char) : Char :=
  if ('A' ≤ c ∧ c ≤ 'Z') ∨ (0xc0 ≤ c.toNat ∧ c.toNat ≤ 0xde ∧ c.toNat ≠ 0xd7)
  then Char.ofNat (c.toNat + 32) else c

/-- Model of `strings.ToLower`. -/
def ToLower (s : Str) : Str := s.map toLowerRune

/-- ASCII digit test (`\d` of `regexp`, and the digits `strconv` accepts). -/
def isDigit (c : Char) : Bool := '0' ≤ c && c ≤ '9'

/-- Value of an ASCII digit. -/
def digitVal (c : Char) : Nat := c.toNat - '0'.toNat

/-- Value of a string of decimal digits, most significant first. -/
def digitsVal (s : Str) : Nat := s.foldl (fun acc c => acc * 10 + digitVal c) 0

/-! ## Package `strconv` -/

/-- Model of `strconv.Atoi` with the error dropped (`n, _ := strconv.Atoi(s)`): an
optional sign followed by one or more digits; anything else yields 0. -/
def Atoi (s : Str) : Int :=
  match s with
  | '-' :: ds => if ds ≠ [] ∧ ds.all isDigit then -(digitsVal ds : Int) else 0
  | '+' :: ds => if ds ≠ [] ∧ ds.all isDigit then (digitsVal ds : Int) else 0
  | ds => if ds ≠ [] ∧ ds.all isDigit then (digitsVal ds : Int) else 0

/-- Unsigned decimal mantissa `int[.frac]` (at least one digit overall) as a rational;
`none` when the text is not of that shape. -/
def parseMantissa (s : Str) : Option ℚ :=
  let ip := s.takeWhile isDigit
  let rest := s.dropWhile isDigit
  match rest with
  | [] => if ip = [] then none else some (digitsVal ip : ℚ)
  | '.' :: fp =>
    if fp.all isDigit ∧ (ip ≠ [] ∨ fp ≠ []) then
      some (((digitsVal (ip ++ fp) : ℚ)) / (10 : ℚ) ^ fp.length)
    else none
  | _ => none

/-- Model of `strconv.ParseFloat(s, 64)` with the error dropped
(`price, _ := strconv.ParseFloat(s, 64)`) on plain decimal literals: an optional
sign, digits and an optional fraction. A text that is not such a literal yields 0,
as a syntax error does; exponents, hexadecimal literals and the words `inf`/`nan`
are not modelled. -/
def ParseFloat (s : Str) : ℚ :=
  match s with
  | '-' :: r => match parseMantissa r with
    | some q => -q
    | none => 0
  | '+' :: r => (parseMantissa r).getD 0
  | r => (parseMantissa r).getD 0

/-! ## Package `regexp`: a backtracking matcher -/

/-- Regular expressions, as far as the patterns of the parser need them. -/
inductive Re where
  | lit (s : Str)
  | cls (p : Char → Bool)
  | seq (a b : Re)
  | alt (a b : Re)
  | opt (a : Re)
  | star (a : Re)
  | group (i : Nat) (a : Re)

/-- Capture registers: the text of each group that took part in the match. -/
abbrev Caps := List (Nat × Str)

/-- Greedy iteration of a matcher `step`: first one more round (each round must
consume input), then stopping here. -/
def Re.starLoop (step : Str → Caps → List (Str × Caps)) : Nat → Str → Caps → List (Str × Caps)
  | 0, s, caps => [(s, caps)]
  | fuel + 1, s, caps =>
    ((step s caps).filter (fun r => r.1.length < s.length)).flatMap
        (fun r => Re.starLoop step fuel r.1 r.2)
      ++ [(s, caps)]

/-- All ways for `r` to match a prefix of `s`, in the order in which a backtracking
matcher tries them (so the head is the preferred match): each result is the input
left over and the captures. -/
def Re.run : Re → Str → Caps → List (Str × Caps)
  | .lit t, s, caps => if t.isPrefixOf s then [(s.drop t.length, caps)] else []
  | .cls p, s, caps =>
    match s with
    | c :: cs => if p c then [(cs, caps)] else []
    | [] => []
  | .seq a b, s, caps => (Re.run a s caps).flatMap (fun r => Re.run b r.1 r.2)
  | .alt a b, s, caps => Re.run a s caps ++ Re.run b s caps
  | .opt a, s, caps => Re.run a s caps ++ [(s, caps)]
  | .star a, s, caps => Re.starLoop (Re.run a) s.length s caps
  | .group i a, s, caps =>
    (Re.run a s caps).map
      (fun r => (r.1, (i, s.take (s.length - r.1.length)) :: r.2.filter (fun e => e.1 ≠ i)))

/-- One or more, greedy (`a+`). -/
def Re.plus (a : Re) : Re := .seq a (.star a)

/-- Text of group `i` (empty when the group took no part in the match). -/
def capture (caps : Caps) (i : Nat) : Str :=
  match caps.find? (fun e => e.1 == i) with
  | some e => e.2
  | none => []

/-- Model of `(*Regexp).FindStringSubmatch` for a pattern with `n` groups: the
leftmost match, as the list of the whole match followed by the `n` group texts; the
empty list when there is no match. -/
def FindStringSubmatch (r : Re) (n : Nat) : Str → List Str
  | [] =>
    match Re.run (.group 0 r) [] [] with
    | m :: _ => (List.range (n + 1)).map (capture m.2)
    | [] => []
  | c :: cs =>
    match Re.run (.group 0 r) (c :: cs) [] with
    | m :: _ => (List.range (n + 1)).map (capture m.2)
    | [] => FindStringSubmatch r n cs

/-- Regexp class `\d`. -/
def Re.digit : Re := .cls isDigit

/-- Regexp class `\s` (RE2: tab, newline, form feed, carriage return, space). -/
def Re.space : Re :=
  .cls (fun c => c == '\t' || c == '\n' || c == '\x0c' || c == '\r' || c == ' ')

/-! ## `internal/scraper/ebay/parser.go` -/

/-- The pattern `(\d+[.,]?\d*)\s*(?:EUR|€)` of `NewParser`. -/
def priceRegex : Re :=
  .seq (.group 1 (.seq (Re.plus Re.digit)
          (.seq (.opt (.cls (fun c => c == '.' || c == ','))) (.star Re.digit))))
    (.seq (.star Re.space) (.alt (.lit "EUR".toList) (.lit "€".toList)))

/-- Embedding of `Parser.parsePrice`. -/
def parsePrice (priceText : Str) : ℚ :=
  let priceText := TrimSpace priceText
  let priceText := ReplaceAll priceText "\u00a0".toList " ".toList
  let submatches := FindStringSubmatch priceRegex 1 priceText
  let priceText :=
    if submatches.length < 2 then
      TrimSpace (ReplaceAll (ReplaceAll priceText "€".toList []) "EUR".toList [])
    else submatches.getD 1 []
  let priceText := ReplaceAll priceText ",".toList ".".toList
  let priceText := ReplaceAll priceText " ".toList []
  let priceText :=
    if Contains priceText "à".toList then TrimSpace ((Split priceText "à".toList).getD 0 [])
    else priceText
  ParseFloat priceText

/-! ## Package `time`: wall-clock readings -/

/-- A `time.Time` as read in `time.Local`: the civil date and the nanoseconds since
midnight. The zone is taken to have a fixed offset, so that instants are ordered as
their civil readings are (daylight-saving shifts are outside the embedding). -/
structure Time where
  year : Int
  month : Int
  day : Int
  nsec : Int
  deriving DecidableEq, Repr

/-- The zero value `time.Time{}` (1 January of year 1, 00:00). -/
def Time.zero : Time := ⟨1, 1, 1, 0⟩

/-- Model of `Time.IsZero`. -/
def Time.IsZero (t : Time) : Bool := decide (t = Time.zero)

/-- Model of `t.Before(u)`: `t` is strictly earlier than `u`. -/
def Time.Before (t u : Time) : Bool :=
  decide (t.year < u.year ∨ (t.year = u.year ∧ (t.month < u.month ∨ (t.month = u.month ∧
    (t.day < u.day ∨ (t.day = u.day ∧ t.nsec < u.nsec))))))

/-- Model of `t.After(u)`. -/
def Time.After (t u : Time) : Bool := u.Before t

/-- Gregorian leap years. -/
def isLeap (y : Int) : Bool := decide (y % 4 = 0 ∧ (y % 100 ≠ 0 ∨ y % 400 = 0))

/-- Number of days of month `m` (1..12) of year `y`. -/
def daysIn (y m : Int) : Int :=
  if m = 2 then (if isLeap y then 29 else 28)
  else if m = 4 ∨ m = 6 ∨ m = 9 ∨ m = 11 then 30
  else 31

/-- Carrying an out-of-range day into the neighbouring months, as `time.Date` does
("values may be outside their usual ranges and will be normalized during the
conversion"); `m` is within 1..12. -/
def normDay : Nat → Int → Int → Int → Int × Int × Int
  | 0, y, m, d => (y, m, d)
  | fuel + 1, y, m, d =>
    if d < 1 then
      let y1 := if m = 1 then y - 1 else y
      let m1 := if m = 1 then 12 else m - 1
      normDay fuel y1 m1 (d + daysIn y1 m1)
    else if d > daysIn y m then
      let y1 := if m = 12 then y + 1 else y
      let m1 := if m = 12 then 1 else m + 1
      normDay fuel y1 m1 (d - daysIn y m)
    else (y, m, d)

/-- Model of `time.Date(year, month, day, 0, 0, 0, nsec, time.Local)`, with the month
and the day normalised; `nsec` (here the nanoseconds since midnight) is within a day
at every call site. -/
def Date (year month day nsec : Int) : Time :=
  let y := year + (month - 1) / 12
  let m := (month - 1) % 12 + 1
  let r := normDay (day.natAbs + 1) y m day
  ⟨r.1, r.2.1, r.2.2, nsec⟩

/-- Model of `t.AddDate(years, months, days)`:
`Date(year+years, month+months, day+days, ...)` on the civil fields of `t`. -/
def Time.AddDate (t : Time) (years months days : Int) : Time :=
  Date (t.year + years) (t.month + months) (t.day + days) t.nsec

/-! ## `internal/scraper/ebay/parser.go`: sold dates -/

/-- An abbreviation with an optional trailing period, `abbr\.?`. -/
def Re.dotted (abbr : String) : Re := .seq (.lit abbr.toList) (.opt (.lit ".".toList))

/-- The month alternation of `dateRegex`, in the order of the source:
`janv?\.?|févr?\.?|mars|avr\.?|mai|juin|juil\.?|août|sept\.?|oct\.?|nov\.?|déc\.?`. -/
def monthRegex : Re :=
  .alt (.seq (.lit "jan".toList) (.seq (.opt (.lit "v".toList)) (.opt (.lit ".".toList))))
  (.alt (.seq (.lit "fév".toList) (.seq (.opt (.lit "r".toList)) (.opt (.lit ".".toList))))
  (.alt (.lit "mars".toList)
  (.alt (Re.dotted "avr")
  (.alt (.lit "mai".toList)
  (.alt (.lit "juin".toList)
  (.alt (Re.dotted "juil")
  (.alt (.lit "août".toList)
  (.alt (Re.dotted "sept")
  (.alt (Re.dotted "oct")
  (.alt (Re.dotted "nov")
    (Re.dotted "déc")))))))))))

/-- The pattern `(\d{1,2})\s+(<months>)\s*(\d{4})?` of `NewParser`. -/
def dateRegex : Re :=
  .seq (.group 1 (.seq Re.digit (.opt Re.digit)))
  (.seq (Re.plus Re.space)
  (.seq (.group 2 monthRegex)
  (.seq (.star Re.space)
    (.opt (.group 3 (.seq Re.digit (.seq Re.digit (.seq Re.digit Re.digit))))))))

/-- The table `monthMap` of `parseMonth`. -/
def monthMap : List (String × Int) :=
  [("janv", 1), ("jan", 1), ("févr", 2), ("fev", 2), ("mars", 3), ("avr", 4), ("mai", 5),
   ("juin", 6), ("juil", 7), ("août", 8), ("aout", 8), ("sept", 9), ("oct", 10),
   ("nov", 11), ("déc", 12), ("dec", 12)]

/-- Embedding of `Parser.parseMonth`: the month number (`time.Month`), January when
the abbreviation is not in the table. -/
def parseMonth (monthStr : Str) : Int :=
  let monthStr := ToLower (TrimSuffix monthStr ".".toList)
  match monthMap.find? (fun e => e.1.toList == monthStr) with
  | some e => e.2
  | none => 1

/-- Embedding of `Parser.parseSoldDate`; `now` is the reading of `time.Now()` (the
two readings the function takes are modelled as one instant). -/
def parseSoldDate (now : Time) (dateText : Str) : Time :=
  let dateText := ToLower (TrimSpace dateText)
  let dateText := TrimPrefix dateText "vendu le ".toList
  let dateText := TrimPrefix dateText "sold ".toList
  let submatches := FindStringSubmatch dateRegex 3 dateText
  if submatches.length < 3 then Time.zero
  else
    let day := Atoi (submatches.getD 1 [])
    let month := parseMonth (submatches.getD 2 [])
    let year :=
      if submatches.length ≥ 4 ∧ submatches.getD 3 [] ≠ [] then Atoi (submatches.getD 3 [])
      else now.year
    let parsedDate := Date year month day 0
    if parsedDate.After now then parsedDate.AddDate (-1) 0 0 else parsedDate

/-! ## Errors, contexts and the monotonic clock -/

/-- Go `error` values, as far as the code builds and inspects them. -/
inductive Err where
  /-- An error made by `errors.New` or by `fmt.Errorf` without `%w`. -/
  | msg (text : String)
  /-- The value `context.Canceled`. -/
  | canceled
  /-- The value `context.DeadlineExceeded`. -/
  | deadlineExceeded
  /-- An error made by `fmt.Errorf("<text>: %w", inner)`. -/
  | wrap (text : String) (inner : Err)
  /-- A `*common.RetryError` with fields `Attempts` and a non-nil `Err`. -/
  | retry (attempts : Int) (inner : Err)
  /-- A `*common.RetryError` whose `Err` field is nil. -/
  | retryNil (attempts : Int)
  deriving DecidableEq, Repr

/-- A `context.Context`, seen from the monotonic clock (nanoseconds): the instant at
which its `Done()` channel is closed, if ever, and the error `Err()` reports from
then on (`context.Canceled` or `context.DeadlineExceeded`). -/
structure Context where
  doneAt : Option Int
  cause : Err

/-- Whether `<-ctx.Done()` is ready at instant `now`. -/
def Context.Done (ctx : Context) (now : Int) : Bool :=
  match ctx.doneAt with
  | some t => decide (t ≤ now)
  | none => false

/-- Model of `ctx.Err()` at instant `now`: nil until the context is done. -/
def Context.Err (ctx : Context) (now : Int) : Option Err :=
  if ctx.Done now then some ctx.cause else none

/-- The statement `select { case <-ctx.Done(): ...; case <-time.After(d): ... }` entered
at instant `now`: whether the context branch is taken, and the instant at which the
statement is left. When both channels become ready at the same instant the context
branch is taken (Go chooses either). -/
def sleepOrDone (ctx : Context) (now d : Int) : Bool × Int :=
  match ctx.doneAt with
  | some t => if t ≤ now + max d 0 then (true, max now t) else (false, now + max d 0)
  | none => (false, now + max d 0)

/-! ## `internal/scraper/common/ratelimit.go` -/

/-- The fixed-delay limiter: `lastCall` is `none` for the zero `time.Time`. The mutex
is not modelled (the calls of one session are sequential). -/
structure RateLimiter where
  delay : Int
  lastCall : Option Int

/-- Embedding of `NewRateLimiter`. -/
def NewRateLimiter (delay : Int) : RateLimiter := ⟨delay, none⟩

/-- Embedding of `RateLimiter.Wait`, entered at instant `now`: the error, the limiter
afterwards and the instant at which the call returns. -/
def RateLimiter.Wait (rl : RateLimiter) (ctx : Context) (now : Int) :
    Option Err × RateLimiter × Int :=
  match rl.lastCall with
  | none => (none, { rl with lastCall := some now }, now)
  | some last =>
    let elapsed := now - last
    if elapsed < rl.delay then
      let waitTime := rl.delay - elapsed
      match sleepOrDone ctx now waitTime with
      | (true, t) => (ctx.Err t, rl, t)
      | (false, t) => (none, { rl with lastCall := some t }, t)
    else (none, { rl with lastCall := some now }, now)

/-! ## The type `float64` -/

/-- A value of the Go type `float64` (IEEE 754 binary64): a finite number, an infinity
or a NaN. The sign of a zero is not kept: no operation embedded here tells the two
zeros apart. -/
inductive F64 where
  | fin (value : ℚ)
  | inf (negative : Bool)
  | nan
  deriving DecidableEq

/-- The power `2 ^ e` for a whole number `e` of either sign. -/
def pow2 (e : Int) : ℚ :=
  if 0 ≤ e then (((2 ^ e.toNat : ℕ) : ℤ) : ℚ) else 1 / (((2 ^ (-e).toNat : ℕ) : ℤ) : ℚ)

/-- The number of binary digits of `n`, found in at most `fuel` halvings. -/
def bitLength : Nat → Nat → Nat
  | 0, _ => 0
  | fuel + 1, n => if n = 0 then 0 else bitLength fuel (n / 2) + 1

/-- The exponent of the leading binary digit of `q > 0`: the whole part of its
logarithm in base 2. -/
def floorLog2 (q : ℚ) : Int :=
  if pow2 ((bitLength q.num.natAbs q.num.natAbs : Int) - (bitLength q.den q.den : Int)) ≤ q then
    (bitLength q.num.natAbs q.num.natAbs : Int) - (bitLength q.den q.den : Int)
  else (bitLength q.num.natAbs q.num.natAbs : Int) - (bitLength q.den q.den : Int) - 1

/-- The whole number nearest to `m`, the even one of the two when `m` lies half-way. -/
def roundHalfEven (m : ℚ) : Int :=
  if m - ⌊m⌋ < 1 / 2 then ⌊m⌋
  else if 1 / 2 < m - ⌊m⌋ then ⌊m⌋ + 1
  else if ⌊m⌋ % 2 = 0 then ⌊m⌋ else ⌊m⌋ + 1

/-- The exponent of the last binary digit a `float64` keeps of `q > 0`: 52 places below
the leading digit, and not below the last digit of the subnormal numbers. -/
def ulpExponent (q : ℚ) : Int := max (floorLog2 q - 52) (-1074)

/-- The `float64` nearest to the real number `q > 0`, the one with an even last digit
when `q` lies half-way between two (the rounding of the IEEE 754 operations of Go); a
result of `2 ^ 1024` (written `(2 ^ 256) ^ 4`) or more is an overflow to `+Inf`. -/
def roundPos (q : ℚ) : F64 :=
  if (roundHalfEven (q / pow2 (ulpExponent q)) : ℚ) * pow2 (ulpExponent q)
      < ((((2 ^ 256) ^ 4 : ℕ) : ℤ) : ℚ) then
    .fin ((roundHalfEven (q / pow2 (ulpExponent q)) : ℚ) * pow2 (ulpExponent q))
  else .inf false

/-- The opposite of a `float64`. -/
def F64.neg : F64 → F64
  | .fin q => .fin (-q)
  | .inf s => .inf (!s)
  | .nan => .nan

/-- The `float64` nearest to the real number `q`. -/
def round64 (q : ℚ) : F64 :=
  if 0 < q then roundPos q else if q < 0 then (roundPos (-q)).neg else .fin 0

/-- The conversion `float64(n)` of an integer. -/
def F64.ofInt (n : Int) : F64 := round64 (n : ℚ)

/-- The product `x * y` of two `float64`. -/
def F64.mul : F64 → F64 → F64
  | .fin a, .fin b => round64 (a * b)
  | .fin a, .inf s => if 0 < a then .inf s else if a < 0 then .inf (!s) else .nan
  | .inf s, .fin b => if 0 < b then .inf s else if b < 0 then .inf (!s) else .nan
  | .inf s, .inf t => .inf (s != t)
  | _, _ => .nan

/-- The sum `x + y` of two `float64`. -/
def F64.add : F64 → F64 → F64
  | .fin a, .fin b => round64 (a + b)
  | .fin _, .inf s => .inf s
  | .inf s, .fin _ => .inf s
  | .inf s, .inf t => if s = t then .inf s else .nan
  | _, _ => .nan

/-- The comparison `x > y` of two `float64`; it is false when either is a NaN. -/
def F64.gt : F64 → F64 → Bool
  | .fin a, .fin b => decide (b < a)
  | .fin _, .inf s => s
  | .inf s, .fin _ => !s
  | .inf s, .inf t => !s && t
  | _, _ => false

/-- What `calculateDelay` takes from the library and the implementation of Go rather
than from this repository. `Pow x n` is the `float64` that `math.Pow(x, float64(n))`
returns; the documentation of the library fixes the two values stated here
(`Pow(x, ±0) = 1` and `Pow(x, 1) = x` for any `x`). `outOfRange x` is the value of the
conversion `int64(x)` of a `float64` that an `int64` cannot hold, which the language
specification leaves to the implementation. -/
structure Runtime where
  Pow : ℚ → Nat → F64
  outOfRange : F64 → Int
  Pow_zero : ∀ x, Pow x 0 = .fin 1
  Pow_one : ∀ x, Pow x 1 = .fin x

/-- The whole part of a real number: its truncation towards zero. -/
def wholePart (x : ℚ) : Int := if 0 ≤ x then ⌊x⌋ else ⌈x⌉

/-- An integer brought into the range of an `int64`. -/
def wrapInt64 (z : Int) : Int :=
  (z + 9223372036854775808) % 18446744073709551616 - 9223372036854775808

/-- The conversion `int64(x)` of a `float64`, here `time.Duration(x)`: the fraction is
discarded, and the result for a value that an `int64` cannot hold is that of the
implementation. -/
def F64.toInt64 (rt : Runtime) : F64 → Int
  | .fin q =>
    if -9223372036854775808 ≤ wholePart q ∧ wholePart q < 9223372036854775808 then wholePart q
    else wrapInt64 (rt.outOfRange (.fin q))
  | x => wrapInt64 (rt.outOfRange x)

/-! ## `internal/scraper/common/retry.go` -/

/-- The structure `RetryConfig`; durations are nanoseconds, `BackoffFactor` is the
number a finite `float64` stands for. -/
structure RetryConfig where
  MaxRetries : Int
  InitialDelay : Int
  MaxDelay : Int
  BackoffFactor : ℚ
  Jitter : Bool
  RetryableCheck : Option (Err → Bool)

/-- The structure `Retryer`. The field `runtime` is not one of the Go structure: it is
the Go runtime the retryer runs on, kept here so that a statement about every retryer is
a statement about every runtime. -/
structure Retryer where
  config : RetryConfig
  runtime : Runtime

/-- The product `float64(r.config.InitialDelay) * math.Pow(r.config.BackoffFactor,
float64(attempt))` with which `calculateDelay` begins. -/
def Retryer.backoff (r : Retryer) (attempt : Nat) : F64 :=
  (F64.ofInt r.config.InitialDelay).mul (r.runtime.Pow r.config.BackoffFactor attempt)

/-- The value `0.75 + rand.Float64()*0.5`, where `rnd` is the number the `float64`
drawn stands for. -/
def jitterFactor (rnd : ℚ) : F64 := (F64.fin 0.75).add ((F64.fin rnd).mul (.fin 0.5))

/-- The variable `delay` of `calculateDelay` before it is compared with `MaxDelay`. -/
def Retryer.uncapped (r : Retryer) (rnd : ℚ) (attempt : Nat) : F64 :=
  if r.config.Jitter then (r.backoff attempt).mul (jitterFactor rnd) else r.backoff attempt

/-- Embedding of `Retryer.calculateDelay`; `rnd` is the value `rand.Float64()` returns
(drawn only when `Jitter` is set). -/
def Retryer.calculateDelay (r : Retryer) (rnd : ℚ) (attempt : Nat) : Int :=
  let delay := r.uncapped rnd attempt
  let delay := if delay.gt (F64.ofInt r.config.MaxDelay) then F64.ofInt r.config.MaxDelay else delay
  delay.toInt64 r.runtime

/-- A runtime whose `math.Pow` returns the `float64` nearest to the power and whose
conversion of a `float64` that an `int64` cannot hold gives the least `int64`, as on
amd64. -/
def nearestPowers : Runtime :=
  { Pow := fun x n => if n = 0 then .fin 1 else if n = 1 then .fin x else round64 (x ^ n),
    outOfRange := fun _ => -9223372036854775808,
    Pow_zero := fun _ => rfl,
    Pow_one := fun _ => rfl }

/-- The value `&RetryError{Attempts: attempts, Err: lastErr}`. -/
def RetryError (attempts : Int) (lastErr : Option Err) : Err :=
  match lastErr with
  | some e => .retry attempts e
  | none => .retryNil attempts

/-- The loop of `Retryer.Do`. The first argument is the number of iterations the
`for attempt := 0; attempt <= MaxRetries; attempt++` loop has left, that is
`MaxRetries + 1 - attempt`. The operation `fn` is run at an instant on a state and
gives its error, the instant at which it returns and the state it leaves. -/
def Retryer.DoLoop {σ : Type} (r : Retryer) (rnd : Nat → ℚ) (ctx : Context)
    (fn : Int → σ → Option Err × Int × σ) :
    Nat → Nat → Option Err → Int → σ → Option Err × Int × σ
  | 0, _, lastErr, now, st => (some (RetryError (r.config.MaxRetries + 1) lastErr), now, st)
  | left + 1, attempt, _, now, st =>
    if ctx.Done now then (ctx.Err now, now, st)
    else
      match fn now st with
      | (none, now, st) => (none, now, st)
      | (some err, now, st) =>
        if (match r.config.RetryableCheck with
            | some check => !check err
            | none => false) then (some err, now, st)
        else if (attempt : Int) = r.config.MaxRetries then
          (some (RetryError (r.config.MaxRetries + 1) (some err)), now, st)
        else
          match sleepOrDone ctx now (r.calculateDelay (rnd attempt) attempt) with
          | (true, now) => (ctx.Err now, now, st)
          | (false, now) => Retryer.DoLoop r rnd ctx fn left (attempt + 1) (some err) now st

/-- Embedding of `Retryer.Do`, entered at instant `now` on state `st`; `rnd attempt`
is the value of `rand.Float64()` drawn for the delay after attempt `attempt`. -/
def Retryer.Do {σ : Type} (r : Retryer) (rnd : Nat → ℚ) (ctx : Context)
    (fn : Int → σ → Option Err × Int × σ) (now : Int) (st : σ) : Option Err × Int × σ :=
  Retryer.DoLoop r rnd ctx fn (r.config.MaxRetries + 1).toNat 0 none now st

/-! ## `internal/scraper/ebay/types.go` -/

/-- The structure `RawSale`. -/
structure RawSale where
  Platform : String
  Title : String
  Price : ℚ
  Currency : String
  SoldAt : Time
  URL : String
  Metadata : List (String × String)
  deriving DecidableEq, Repr

/-- The structure `ScrapeOptions`. -/
structure ScrapeOptions where
  Query : String
  Category : String
  MaxPages : Int
  Since : Time
  deriving DecidableEq, Repr

/-- The structure `ScrapeResult`; `Duration` is in nanoseconds. -/
structure ScrapeResult where
  Sales : List RawSale
  PagesScraped : Int
  Duration : Int
  Errors : List Err
  deriving DecidableEq, Repr

/-- Embedding of `NewScrapeResult`. -/
def NewScrapeResult : ScrapeResult := ⟨[], 0, 0, []⟩

/-- Embedding of `ScrapeResult.AddSale`. -/
def ScrapeResult.AddSale (r : ScrapeResult) (sale : RawSale) : ScrapeResult :=
  { r with Sales := r.Sales ++ [sale] }

/-- Embedding of `ScrapeResult.AddError`. -/
def ScrapeResult.AddError (r : ScrapeResult) (err : Err) : ScrapeResult :=
  { r with Errors := r.Errors ++ [err] }

/-- Embedding of `ScrapeResult.SaleCount`. -/
def ScrapeResult.SaleCount (r : ScrapeResult) : Int := r.Sales.length

/-- Embedding of `ScrapeResult.HasErrors`. -/
def ScrapeResult.HasErrors (r : ScrapeResult) : Bool := decide (r.Errors.length > 0)

/-- The constant `DefaultMaxPages`. -/
def DefaultMaxPages : Int := 10

/-! ## `internal/scraper/ebay/scraper.go` -/

/-- What the collector does during one `c.Visit(pageURL)`: the callbacks it runs. -/
inductive Callback where
  /-- The handler `c.OnError` is run with this error. -/
  | onError (err : Err)
  /-- The handler `c.OnResponse` is run on a response with this status code. -/
  | onResponse (statusCode : Int)
  /-- The handler `c.OnHTML("body", ...)` is run on a document for which
  `parser.ParseSearchResults` returns these sales (its error is always nil). -/
  | onHTML (sales : List RawSale)

/-- One call of `c.Visit(pageURL)` as the outside world decides it: the callbacks
run, in order, the error returned and the time taken (nanoseconds). -/
structure VisitOutcome where
  callbacks : List Callback
  err : Option Err
  elapsed : Nat

/-- The world around one crawl session. `net page k` is the outcome of the request
number `k` (counted from 0 within the session) when it asks for page `page` (the
URL is a function of the page number, the query and the category being fixed);
`rnd page attempt` is the jitter drawn after attempt `attempt` at page `page`;
`wallNow` is the wall-clock reading of `time.Now()` at the start. -/
structure Env where
  net : Nat → Nat → VisitOutcome
  rnd : Nat → Nat → ℚ
  wallNow : Time

/-- The scraper, as far as a session uses it. -/
structure EbayScraper where
  rateLimiter : RateLimiter
  retryer : Retryer

/-- The part of a session the callbacks and `c.Visit` act on: the result under
construction and the pages requested so far, oldest first (its length numbers the
next request). -/
structure Session where
  result : ScrapeResult
  visited : List Nat

/-- The three handlers registered by `ScrapeWithContext`, run on the result. -/
def handle (since : Time) (result : ScrapeResult) : Callback → ScrapeResult
  | .onError err => result.AddError (.wrap "request failed" err)
  | .onResponse statusCode =>
    if statusCode ≠ 200 then
      result.AddError (.msg ("unexpected status code: " ++ toString statusCode))
    else result
  | .onHTML sales =>
    sales.foldl (fun r sale => if !sale.SoldAt.Before since then r.AddSale sale else r) result

/-- The closure `func() error { return c.Visit(pageURL) }` for page `page`. -/
def visit (env : Env) (since : Time) (page : Nat) (now : Int) (st : Session) :
    Option Err × Int × Session :=
  let o := env.net page st.visited.length
  (o.err, now + o.elapsed,
    { result := o.callbacks.foldl (handle since) st.result, visited := st.visited ++ [page] })

/-- The state of the page loop of `ScrapeWithContext`. -/
structure Crawl where
  now : Int
  rateLimiter : RateLimiter
  session : Session

/-- The statement `result.AddError(fmt.Errorf("failed to scrape page %d: %w", page, err))`. -/
def recordFailure (page : Nat) (err : Err) (session : Session) : Session :=
  { session with
    result := session.result.AddError (.wrap ("failed to scrape page " ++ toString page) err) }

/-- The statement `result.PagesScraped = page`. -/
def recordPage (page : Nat) (session : Session) : Session :=
  { session with result := { session.result with PagesScraped := page } }

/-- The loop `for page := 1; page <= opts.MaxPages; page++` of `ScrapeWithContext`,
from page `page` on; the first argument is the number of iterations left
(`MaxPages + 1 - page`). The result is `scrapeErr` and the state at the loop exit. -/
def scrapeLoop (env : Env) (retryer : Retryer) (ctx : Context) (since : Time) :
    Nat → Nat → Crawl → Option Err × Crawl
  | 0, _, st => (none, st)
  | left + 1, page, st =>
    if ctx.Done st.now then (ctx.Err st.now, st)
    else
      match st.rateLimiter.Wait ctx st.now with
      | (some err, rl, now) => (some err, { st with now := now, rateLimiter := rl })
      | (none, rl, now) =>
        match retryer.Do (env.rnd page) ctx (visit env since page) now st.session with
        | (some err, now, session) =>
          scrapeLoop env retryer ctx since left (page + 1)
            { now := now, rateLimiter := rl, session := recordFailure page err session }
        | (none, now, session) =>
          if (recordPage page session).result.SaleCount = 0 ∧ page > 1 then
            (none, { now := now, rateLimiter := rl, session := recordPage page session })
          else
            scrapeLoop env retryer ctx since left (page + 1)
              { now := now, rateLimiter := rl, session := recordPage page session }

/-- What a call of `ScrapeWithContext` leaves: the two values returned, and, of the
world, the pages requested in order, the instant of the return and the limiter. -/
structure ScrapeOutput where
  result : Option ScrapeResult
  err : Option Err
  visited : List Nat
  now : Int
  rateLimiter : RateLimiter

/-- The page budget after the default is applied. -/
def effectiveMaxPages (opts : ScrapeOptions) : Int :=
  if opts.MaxPages ≤ 0 then DefaultMaxPages else opts.MaxPages

/-- The cut-off after the default (30 days before now) is applied. -/
def effectiveSince (env : Env) (opts : ScrapeOptions) : Time :=
  if opts.Since.IsZero then env.wallNow.AddDate 0 0 (-30) else opts.Since

/-- Embedding of `EbayScraper.ScrapeWithContext`, called at instant `now`. -/
def ScrapeWithContext (env : Env) (s : EbayScraper) (ctx : Context) (opts : ScrapeOptions)
    (now : Int) : ScrapeOutput :=
  if opts.Query = "" then
    { result := none, err := some (.msg "query is required"), visited := [], now := now,
      rateLimiter := s.rateLimiter }
  else
    let maxPages := effectiveMaxPages opts
    let since := effectiveSince env opts
    let startTime := now
    let out := scrapeLoop env s.retryer ctx since maxPages.toNat 1
      { now := now, rateLimiter := s.rateLimiter,
        session := { result := NewScrapeResult, visited := [] } }
    let st := out.2
    { result := some { st.session.result with Duration := st.now - startTime },
      err := out.1, visited := st.session.visited, now := st.now,
      rateLimiter := st.rateLimiter }

/-! ### Vocabulary for the statements about a session -/

/-- Sales handed to the `OnHTML` handler during one visit (what the parser returned for
the documents of that visit), in order. -/
def parsedSales (o : VisitOutcome) : List RawSale :=
  o.callbacks.flatMap (fun cb =>
    match cb with
    | .onHTML sales => sales
    | _ => [])

/-- Sales parsed over a whole log of requests (`visited` lists the page asked for by
request 0, 1, ...), in the order of the requests. -/
def delivered (env : Env) (visited : List Nat) : List RawSale :=
  visited.enum.flatMap (fun kp => parsedSales (env.net kp.2 kp.1))

/-- The date test of the `OnHTML` handler: the sale is not before the cut-off. -/
def keep (since : Time) (sale : RawSale) : Bool := !sale.SoldAt.Before since

/-- The sales of a session are the date-filtered sales parsed over its requests. -/
def SalesInv (env : Env) (since : Time) (st : Session) : Prop :=
  st.result.Sales = (delivered env st.visited).filter (keep since)

/-- What the requests for page `page` do to a session that starts as `st0`: requests
and errors are only added, every new request is for `page`, and the description of the
sales and the order of the requests are maintained. -/
def PageStep (env : Env) (since : Time) (page : Nat) (st0 st : Session) : Prop :=
  st0.visited <+: st.visited ∧ st0.result.Errors <+: st.result.Errors ∧
  (∀ x ∈ st.visited, x ∈ st0.visited ∨ x = page) ∧
  (SalesInv env since st0 → SalesInv env since st) ∧
  ((∀ x ∈ st0.visited, x ≤ page) → st0.visited.Pairwise (fun a b => a ≤ b) →
    st.visited.Pairwise (fun a b => a ≤ b))

/-! ### Sample sessions -/

/-- A sale sold on 10 June 2024. -/
def sampleSale : RawSale :=
  { Platform := "ebay", Title := "Display 151", Price := 150, Currency := "EUR",
    SoldAt := ⟨2024, 6, 10, 0⟩, URL := "https://www.ebay.fr/itm/1", Metadata := [] }

/-- A visit that succeeds after 5 ns with status 200 and a document holding `sales`. -/
def pageOk (sales : List RawSale) : VisitOutcome :=
  { callbacks := [.onResponse 200, .onHTML sales], err := none, elapsed := 5 }

/-- A visit that fails after 5 ns. -/
def pageDown : VisitOutcome :=
  { callbacks := [.onError (.msg "connection refused")],
    err := some (.msg "connection refused"), elapsed := 5 }

/-- A scraper with a fresh limiter (100 ns) and a retryer without jitter (delays of
2000 ns doubling up to 30000 ns). -/
def sampleScraper (maxRetries : Int) : EbayScraper :=
  { rateLimiter := NewRateLimiter 100,
    retryer := ⟨{ MaxRetries := maxRetries, InitialDelay := 2000, MaxDelay := 30000,
                  BackoffFactor := 2, Jitter := false, RetryableCheck := none },
                nearestPowers⟩ }

/-- The context `context.Background()`: never done. -/
def background : Context := { doneAt := none, cause := .canceled }

/-- A context whose deadline is the instant `t`. -/
def deadline (t : Int) : Context := { doneAt := some t, cause := .deadlineExceeded }

/-- Options with a query, a page budget and the cut-off 1 June 2024. -/
def sampleOptions (maxPages : Int) : ScrapeOptions :=
  { Query := "pokemon 151", Category := "", MaxPages := maxPages, Since := ⟨2024, 6, 1, 0⟩ }

/-- A world in which page 1 holds one sale and every other page holds none. -/
def onlyFirstPageHasSales : Env :=
  { net := fun page _ => if page = 1 then pageOk [sampleSale] else pageOk [],
    rnd := fun _ _ => 0, wallNow := ⟨2024, 6, 15, 0⟩ }

/-- A world in which every request for page 1 fails and every other page holds one
sale. -/
def firstPageDown : Env :=
  { net := fun page _ => if page = 1 then pageDown else pageOk [sampleSale],
    rnd := fun _ _ => 0, wallNow := ⟨2024, 6, 15, 0⟩ }

/-! ### Sold-date fragments -/

/-- A sold-date text: an optional lead-in, the digits of the day, a blank and a month
abbreviation. -/
def soldFragment (pre : String) (dd : Str) (abbr : String) : Str :=
  pre.toList ++ (dd ++ ' ' :: abbr.toList)

/-- Month abbreviations that the date pattern accepts and `monthMap` holds (with the
trailing period the pattern allows), each with the month it names. -/
def monthAbbrevs : List (String × Int) :=
  [("janv.", 1), ("janv", 1), ("jan.", 1), ("jan", 1), ("févr.", 2), ("févr", 2), ("mars", 3),
   ("avr.", 4), ("avr", 4), ("mai", 5), ("juin", 6), ("juil.", 7), ("juil", 7), ("août", 8),
   ("sept.", 9), ("sept", 9), ("oct.", 10), ("oct", 10), ("nov.", 11), ("nov", 11),
   ("déc.", 12), ("déc", 12)]

/-! ## `internal/analyzer/normalizer.go` -/

/-- The structure `ProductPattern`; `Category` is a `models.ProductCategory` (a
string), `MSRP` a `float64`. -/
structure ProductPattern where
  SetKeywords : List String
  TypeKeywords : List String
  ExcludeKeywords : List String
  NormalizedName : String
  SetName : String
  SetCode : String
  Category : String
  MSRP : ℚ

/-- Number of keywords of a list that occur in the normalised title: the counting
loops of `calculatePatternScore`. -/
def keywordMatches (normalized : Str) (keywords : List String) : Nat :=
  keywords.foldl
    (fun n keyword => if Contains normalized (ToLower keyword.toList) then n + 1 else n) 0

/-- Embedding of `Normalizer.calculatePatternScore`. -/
def calculatePatternScore (normalized : Str) (pattern : ProductPattern) : ℚ :=
  let setMatches := keywordMatches normalized pattern.SetKeywords
  let typeMatches := keywordMatches normalized pattern.TypeKeywords
  if pattern.ExcludeKeywords.any (fun keyword => Contains normalized (ToLower keyword.toList))
  then 0
  else if setMatches = 0 ∨ typeMatches = 0 then 0
  else
    let setScore : ℚ := (setMatches : ℚ) / (pattern.SetKeywords.length : ℚ)
    let typeScore : ℚ := (typeMatches : ℚ) / (pattern.TypeKeywords.length : ℚ)
    (setScore * 0.4 + typeScore * 0.6) * 0.9

/-- The sixth entry of the curated table: the Elite Trainer Box of the 151 set. -/
def etb151Pattern : ProductPattern :=
  { SetKeywords := ["151"], TypeKeywords := ["etb", "elite trainer", "coffret dresseur"],
    ExcludeKeywords := [], NormalizedName := "ETB Écarlate et Violet 151",
    SetName := "Écarlate et Violet 151", SetCode := "sv-151", Category := "etb",
    MSRP := 54.99 }

/-- The curated table `n.patterns` set up by `initializePatterns`. -/
def defaultPatterns : List ProductPattern :=
  [ { SetKeywords := ["151"], TypeKeywords := ["display", "boite 36", "36 boosters"],
      ExcludeKeywords := [], NormalizedName := "Display Écarlate et Violet 151",
      SetName := "Écarlate et Violet 151", SetCode := "sv-151", Category := "display",
      MSRP := 159.99 },
    { SetKeywords := ["paldea", "paldean", "destinées"],
      TypeKeywords := ["display", "boite 36", "36 boosters"],
      ExcludeKeywords := [], NormalizedName := "Display Destinées de Paldea",
      SetName := "Destinées de Paldea", SetCode := "sv-paldean-fates", Category := "display",
      MSRP := 159.99 },
    { SetKeywords := ["prismatique", "prismatic"],
      TypeKeywords := ["display", "boite 36", "36 boosters"],
      ExcludeKeywords := [], NormalizedName := "Display Évolutions Prismatiques",
      SetName := "Évolutions Prismatiques", SetCode := "sv-prismatic-evo",
      Category := "display", MSRP := 159.99 },
    { SetKeywords := ["crépuscule", "twilight", "masque"],
      TypeKeywords := ["display", "boite 36", "36 boosters"],
      ExcludeKeywords := [], NormalizedName := "Display Masques du Crépuscule",
      SetName := "Masques du Crépuscule", SetCode := "sv-twilight", Category := "display",
      MSRP := 159.99 },
    { SetKeywords := ["temporelles", "temporal"],
      TypeKeywords := ["display", "boite 36", "36 boosters"],
      ExcludeKeywords := [], NormalizedName := "Display Forces Temporelles",
      SetName := "Forces Temporelles", SetCode := "sv-temporal", Category := "display",
      MSRP := 159.99 },
    etb151Pattern,
    { SetKeywords := ["paldea", "paldean", "destinées"],
      TypeKeywords := ["etb", "elite trainer", "coffret dresseur"],
      ExcludeKeywords := [], NormalizedName := "ETB Destinées de Paldea",
      SetName := "Destinées de Paldea", SetCode := "sv-paldean-fates", Category := "etb",
      MSRP := 54.99 },
    { SetKeywords := ["prismatique", "prismatic"],
      TypeKeywords := ["etb", "elite trainer", "coffret dresseur"],
      ExcludeKeywords := [], NormalizedName := "ETB Évolutions Prismatiques",
      SetName := "Évolutions Prismatiques", SetCode := "sv-prismatic-evo", Category := "etb",
      MSRP := 54.99 },
    { SetKeywords := ["dracaufeu", "charizard"], TypeKeywords := ["ultra premium", "upc"],
      ExcludeKeywords := [], NormalizedName := "Coffret Dracaufeu Ultra Premium",
      SetName := "Écarlate et Violet", SetCode := "sv-charizard-upc",
      Category := "collection", MSRP := 119.99 },
    { SetKeywords := ["mew", "151"], TypeKeywords := ["ultra premium", "upc"],
      ExcludeKeywords := [], NormalizedName := "Coffret Mew Ultra Premium",
      SetName := "Écarlate et Violet 151", SetCode := "sv-151-upc", Category := "collection",
      MSRP := 119.99 } ]

/-! ### `normalizer.go`: text preparation and matching -/

/-- Regexp class `\s`, as a test. -/
def isReSpace (c : Char) : Bool :=
  c == '\t' || c == '\n' || c == '\x0c' || c == '\r' || c == ' '

/-- Concatenation of a list of patterns. -/
def Re.cat : List Re → Re
  | [] => .lit []
  | [r] => r
  | r :: rs => .seq r (Re.cat rs)

/-- Alternation of a list of patterns, in order. -/
def Re.alts : List Re → Re
  | [] => .cls (fun _ => false)
  | [r] => r
  | r :: rs => .alt r (Re.alts rs)

/-- One rune matched under the flag `(?i)`; the pattern rune `x` is lower case. Folding
is modelled by `toLowerRune` (the two runes outside Latin-1 that fold to ASCII letters,
the Kelvin sign and the long s, are not modelled). -/
def Re.ciRune (x : Char) : Re := .cls (fun c => toLowerRune c == x)

/-- A literal matched under the flag `(?i)`. -/
def Re.ci (s : String) : Re := Re.cat (s.toList.map Re.ciRune)

/-- The class `[eé]` under the flag `(?i)`. -/
def Re.eAcute : Re := .cls (fun c => toLowerRune c == 'e' || toLowerRune c == 'é')

/-- The wildcard `.` (any rune but a newline). -/
def Re.dot : Re := .cls (fun c => c != '\n')

/-- Model of `(*Regexp).MatchString`: the pattern matches somewhere in the text. -/
def MatchString (r : Re) : Str → Bool
  | [] => !(Re.run r [] []).isEmpty
  | c :: cs => !(Re.run r (c :: cs) []).isEmpty || MatchString r cs

/-- Worker of `ReplaceAllString`: `skip` counts the runes of a replaced match that are
still to be passed over. -/
def ReplaceAllString.go (r : Re) (repl : Str) : Nat → Str → Str
  | _, [] => []
  | skip + 1, _ :: cs => ReplaceAllString.go r repl skip cs
  | 0, c :: cs =>
    match Re.run r (c :: cs) [] with
    | m :: _ =>
      if m.1.length < (c :: cs).length then
        repl ++ ReplaceAllString.go r repl ((c :: cs).length - m.1.length - 1) cs
      else c :: ReplaceAllString.go r repl 0 cs
    | [] => c :: ReplaceAllString.go r repl 0 cs

/-- Model of `(*Regexp).ReplaceAllString` for a pattern that never matches the empty
text (both patterns of `normalizeText` are such): leftmost matches, left to right. -/
def ReplaceAllString (r : Re) (src repl : Str) : Str := ReplaceAllString.go r repl 0 src

/-- The pattern `[^a-z0-9\s]` of `normalizeText`. -/
def notAlnumOrSpace : Re :=
  .cls (fun c => !((decide ('a' ≤ c) && decide (c ≤ 'z')) || isDigit c || isReSpace c))

/-- UTF-8 encoding of one rune, as byte values. -/
def utf8Rune (c : Char) : List Nat :=
  let n := c.toNat
  if n < 0x80 then [n]
  else if n < 0x800 then [0xc0 + n / 64, 0x80 + n % 64]
  else if n < 0x10000 then [0xe0 + n / 4096, 0x80 + n / 64 % 64, 0x80 + n % 64]
  else [0xf0 + n / 262144, 0x80 + n / 4096 % 64, 0x80 + n / 64 % 64, 0x80 + n % 64]

/-- The bytes of a Go string given by its runes. Canonical names are kept as bytes,
because `generateNormalizedName` cuts a title at a byte offset. -/
def utf8 (s : Str) : List Nat := s.flatMap utf8Rune

/-- The structure `NormalizedProduct`; `NormalizedName` is kept as UTF-8 bytes, `MSRP`
(a `*decimal.Decimal`) as an optional rational. -/
structure NormalizedProduct where
  NormalizedName : List Nat
  Category : String
  SetName : String
  SetCode : String
  MSRP : Option ℚ
  Confidence : ℚ
  deriving DecidableEq, Repr

/-- The zero value `NormalizedProduct{}`. -/
def NormalizedProduct.empty : NormalizedProduct :=
  { NormalizedName := [], Category := "", SetName := "", SetCode := "", MSRP := none,
    Confidence := 0 }

/-- The structure `Normalizer`. The two maps are kept as their lists of entries; the
transformer (`transform.Chain(norm.NFD, runes.Remove(runes.In(unicode.Mn)), norm.NFC)`
of `golang.org/x/text`) is a function on texts. -/
structure Normalizer where
  patterns : List ProductPattern
  setPatterns : List (String × Re)
  typePatterns : List (String × List String)
  excludeWords : List String
  transformer : Str → Str

/-- The order in which one call of `genericMatch` sees the entries of the two maps
(Go leaves the order of `range` over a map unspecified). -/
structure MapOrder where
  types : List (String × List String)
  sets : List (String × Re)

/-- Modelled from the library documentation: the transformer on Latin-1 text, which
removes the diacritics of the Latin-1 letters that have a canonical decomposition and
drops combining marks (U+0300 to U+036F); the Unicode tables of `golang.org/x/text`
are not part of the repository, and other runes are left as they are. -/
def stripMarksLatin1 (s : Str) : Str :=
  (s.map (fun c =>
    let n := c.toNat
    if 0xc0 ≤ n ∧ n ≤ 0xc5 then 'A' else if n = 0xc7 then 'C'
    else if 0xc8 ≤ n ∧ n ≤ 0xcb then 'E' else if 0xcc ≤ n ∧ n ≤ 0xcf then 'I'
    else if n = 0xd1 then 'N' else if 0xd2 ≤ n ∧ n ≤ 0xd6 then 'O'
    else if 0xd9 ≤ n ∧ n ≤ 0xdc then 'U' else if n = 0xdd then 'Y'
    else if 0xe0 ≤ n ∧ n ≤ 0xe5 then 'a' else if n = 0xe7 then 'c'
    else if 0xe8 ≤ n ∧ n ≤ 0xeb then 'e' else if 0xec ≤ n ∧ n ≤ 0xef then 'i'
    else if n = 0xf1 then 'n' else if 0xf2 ≤ n ∧ n ≤ 0xf6 then 'o'
    else if 0xf9 ≤ n ∧ n ≤ 0xfc then 'u' else if n = 0xfd ∨ n = 0xff then 'y'
    else c)).filter (fun c => !(decide (0x300 ≤ c.toNat) && decide (c.toNat ≤ 0x36f)))

/-- The map `n.setPatterns` of `initializePatterns`, in the order of the source text. -/
def defaultSetPatterns : List (String × Re) :=
  [ ("sv-151", .group 1 (Re.alts [Re.ci "151",
      Re.cat [Re.ci "ecarlate", .star Re.dot, Re.ci "violet", .star Re.dot, Re.ci "151"],
      Re.cat [Re.ci "scarlet", .star Re.dot, Re.ci "violet", .star Re.dot, Re.ci "151"]])),
    ("sv-paldean-fates", .group 1 (Re.alts [Re.ci "paldea", Re.ci "paldean",
      Re.cat [Re.ci "destin", Re.eAcute, Re.ci "e", .opt (Re.ci "s"), .star Re.space,
        Re.ci "de", .star Re.space, Re.ci "paldea"],
      Re.cat [Re.ci "paldean", .star Re.space, Re.ci "fates"]])),
    ("sv-prismatic-evo", .group 1 (Re.alts [
      Re.cat [Re.eAcute, Re.ci "volution", .opt (Re.ci "s"), .star Re.space,
        Re.ci "prismatique", .opt (Re.ci "s")],
      Re.cat [Re.ci "prismatic", .star Re.space, Re.ci "evolution", .opt (Re.ci "s")]])),
    ("sv-twilight", .group 1 (Re.alts [
      Re.cat [Re.ci "masque", .opt (Re.ci "s"), .star Re.space, Re.ci "du", .star Re.space,
        Re.ci "cr", Re.eAcute, Re.ci "puscule"],
      Re.cat [Re.ci "twilight", .star Re.space, Re.ci "masquerad", .opt (Re.ci "e")]])),
    ("sv-temporal", .group 1 (Re.alts [
      Re.cat [Re.ci "force", .opt (Re.ci "s"), .star Re.space, Re.ci "temporelle",
        .opt (Re.ci "s")],
      Re.cat [Re.ci "temporal", .star Re.space, Re.ci "force", .opt (Re.ci "s")]])),
    ("sv-obsidian", .group 1 (Re.alts [
      Re.cat [Re.ci "flamme", .opt (Re.ci "s"), .star Re.space, Re.ci "obsidienne",
        .opt (Re.ci "s")],
      Re.cat [Re.ci "obsidian", .star Re.space, Re.ci "flame", .opt (Re.ci "s")]])),
    ("sv-paradox", .group 1 (Re.alts [
      Re.cat [Re.ci "faille", .star Re.space, Re.ci "paradox", .opt (Re.ci "e")],
      Re.cat [Re.ci "paradox", .star Re.space, Re.ci "rift"]])),
    ("sv-base", .group 1 (Re.alts [
      Re.cat [Re.eAcute, Re.ci "carlate", .star Re.dot, Re.ci "violet"],
      Re.cat [Re.ci "scarlet", .star Re.dot, Re.ci "violet"]])) ]

/-- The map `n.typePatterns` of `initializePatterns`, in the order of the source text. -/
def defaultTypePatterns : List (String × List String) :=
  [ ("display", ["display", "boite 36", "boîte 36", "box 36", "booster box", "36 boosters",
      "36 packs", "coffret 36"]),
    ("etb", ["etb", "elite trainer", "coffret dresseur", "trainer box",
      "coffret d'entrainement", "coffret entrainement"]),
    ("collection", ["coffret", "collection", "premium collection", "ultra premium", "upc",
      "special collection", "coffret premium"]),
    ("bundle", ["bundle", "pack 6", "6 boosters", "pack boosters"]),
    ("tin", ["tin", "pokebox", "poke box", "metal box", "boite metal"]),
    ("booster", ["booster", "pack", "pochette", "sachet"]),
    ("single", ["carte", "card", "holo", "reverse", "full art", "alt art", "secret rare",
      "illustration rare", "special art"]) ]

/-- The list `n.excludeWords` of `initializePatterns`. -/
def defaultExcludeWords : List String :=
  ["lot de", "bundle lot", "fake", "proxy", "custom", "yugioh", "yu-gi-oh", "magic", "mtg",
   "one piece", "digimon", "dragon ball", "weiss schwarz"]

/-- Embedding of `NewNormalizer`, with the transformer modelled on Latin-1. -/
def NewNormalizer : Normalizer :=
  { patterns := defaultPatterns, setPatterns := defaultSetPatterns,
    typePatterns := defaultTypePatterns, excludeWords := defaultExcludeWords,
    transformer := stripMarksLatin1 }

/-- The maps of a normalizer traversed in the order of their entries. -/
def Normalizer.tableOrder (n : Normalizer) : MapOrder :=
  { types := n.typePatterns, sets := n.setPatterns }

/-- Embedding of `Normalizer.AddPattern`. -/
def Normalizer.AddPattern (n : Normalizer) (pattern : ProductPattern) : Normalizer :=
  { n with patterns := n.patterns ++ [pattern] }

/-- Embedding of `Normalizer.normalizeText`. -/
def Normalizer.normalizeText (n : Normalizer) (text : Str) : Str :=
  let text := ToLower text
  let result := n.transformer text
  let result := ReplaceAllString notAlnumOrSpace result " ".toList
  let result := ReplaceAllString (Re.plus Re.space) result " ".toList
  TrimSpace result

/-- Embedding of `Normalizer.containsExcluded`. -/
def Normalizer.containsExcluded (n : Normalizer) (text : Str) : Bool :=
  n.excludeWords.any (fun word => Contains text word.toList)

/-- The product `matchKnownPattern` builds for a pattern with score `score`. -/
def patternProduct (pattern : ProductPattern) (score : ℚ) : NormalizedProduct :=
  { NormalizedName := utf8 pattern.NormalizedName.toList, Category := pattern.Category,
    SetName := pattern.SetName, SetCode := pattern.SetCode, MSRP := some pattern.MSRP,
    Confidence := score }

/-- Embedding of `Normalizer.matchKnownPattern`: the loop over `n.patterns` keeps the
best match so far and its score. -/
def Normalizer.matchKnownPattern (n : Normalizer) (normalized : Str) : NormalizedProduct × ℚ :=
  n.patterns.foldl
    (fun best pattern =>
      let score := calculatePatternScore normalized pattern
      if score > best.2 then (patternProduct pattern score, score) else best)
    (NormalizedProduct.empty, 0)

/-- The category loop of `genericMatch` over the entries of `typePatterns` in the order
given; the state is the category and the confidence of the product. -/
def genericCategory (normalized : Str) :
    List (String × List String) → String × ℚ → String × ℚ
  | [], st => st
  | (category, keywords) :: rest, st =>
    let st1 : String × ℚ :=
      if keywords.any (fun keyword => Contains normalized (ToLower keyword.toList)) then
        (category, 0.5)
      else st
    if st1.1 ≠ "" then st1 else genericCategory normalized rest st1

/-- The set loop of `genericMatch`: the code of the first detector, in the order given,
that matches. -/
def genericSet (normalized : Str) (sets : List (String × Re)) : Option String :=
  (sets.find? (fun e => MatchString e.2 normalized)).map (fun e => e.1)

/-- The map `setNames` of `generateNormalizedName`. -/
def setNames : List (String × String) :=
  [("sv-151", "Écarlate et Violet 151"), ("sv-paldean-fates", "Destinées de Paldea"),
   ("sv-prismatic-evo", "Évolutions Prismatiques"), ("sv-twilight", "Masques du Crépuscule"),
   ("sv-temporal", "Forces Temporelles"), ("sv-obsidian", "Flammes Obsidiennes"),
   ("sv-paradox", "Faille Paradoxe"), ("sv-base", "Écarlate et Violet")]

/-- The map `categoryPrefixes` of `generateNormalizedName`. -/
def categoryPrefixes : List (String × String) :=
  [("display", "Display"), ("etb", "ETB"), ("collection", "Coffret"), ("bundle", "Bundle"),
   ("tin", "Tin"), ("booster", "Booster"), ("single", "Carte")]

/-- Lookup in a Go map with string values: the empty string when the key is absent. -/
def mapGet (m : List (String × String)) (key : String) : String :=
  match m.find? (fun e => e.1 == key) with
  | some e => e.2
  | none => ""

/-- Embedding of `Normalizer.generateNormalizedName`, on bytes: `len(originalTitle)`
and `originalTitle[:50]` count bytes. -/
def generateNormalizedName (category setCode : String) (originalTitle : Str) : List Nat :=
  if setCode = "" then
    if (utf8 originalTitle).length > 50 then (utf8 originalTitle).take 50 ++ utf8 "...".toList
    else utf8 originalTitle
  else
    let setName := if mapGet setNames setCode = "" then setCode else mapGet setNames setCode
    let pre := if mapGet categoryPrefixes category = "" then "Produit"
      else mapGet categoryPrefixes category
    utf8 (pre ++ " " ++ setName).toList

/-- Embedding of `Normalizer.genericMatch`; `order` is the order in which this call
sees the entries of the two maps. -/
def Normalizer.genericMatch (order : MapOrder) (normalized originalTitle : Str) :
    NormalizedProduct × ℚ :=
  let st := genericCategory normalized order.types ("", 0.3)
  let category := if st.1 = "" then "single" else st.1
  let setCode := (genericSet normalized order.sets).getD ""
  let confidence := if (genericSet normalized order.sets).isSome then st.2 + 0.2 else st.2
  ({ NormalizedName := generateNormalizedName category setCode originalTitle,
     Category := category, SetName := "", SetCode := setCode, MSRP := none,
     Confidence := confidence }, confidence)

/-- Embedding of `Normalizer.Normalize`. -/
def Normalizer.Normalize (n : Normalizer) (order : MapOrder) (title : Str) :
    NormalizedProduct × ℚ :=
  let normalized := n.normalizeText title
  if n.containsExcluded normalized then (NormalizedProduct.empty, 0)
  else
    let known := n.matchKnownPattern normalized
    if known.2 > 0 then known
    else Normalizer.genericMatch order normalized title

/-- The state of the loop of `matchKnownPattern` after the patterns `pre`: either no
pattern has scored above 0 yet, or the best match is the first pattern of `pre` with
the highest score. -/
def BestOf (normalized : Str) (pre : List ProductPattern) (best : NormalizedProduct × ℚ) :
    Prop :=
  (best = (NormalizedProduct.empty, 0) ∧ ∀ q ∈ pre, calculatePatternScore normalized q ≤ 0) ∨
  (∃ (i : Nat) (p : ProductPattern), pre[i]? = some p ∧
    best = (patternProduct p (calculatePatternScore normalized p),
      calculatePatternScore normalized p) ∧
    0 < calculatePatternScore normalized p ∧
    (∀ q ∈ pre, calculatePatternScore normalized q ≤ calculatePatternScore normalized p) ∧
    (∀ (j : Nat) (q : ProductPattern), j < i → pre[j]? = some q →
      calculatePatternScore normalized q < calculatePatternScore normalized p))

/-- Some keyword of some generic type group occurs in the normalised title. -/
def Normalizer.typeKeywordHit (n : Normalizer) (normalized : Str) : Bool :=
  n.typePatterns.any (fun e =>
    e.2.any (fun keyword => Contains normalized (ToLower keyword.toList)))

/-- Some set detector matches the normalised title. -/
def Normalizer.setDetectorHit (n : Normalizer) (normalized : Str) : Bool :=
  n.setPatterns.any (fun e => MatchString e.2 normalized)

/-! ## `internal/scraper/common/retry.go`: an operation that fails a number of times -/

/-- The operation of `TestRetryerRetryOnError` with its counter: the state is
`callCount`; a call increments it, fails with `errs callCount` while
`callCount ≤ failUntil`, and returns `dur callCount` after it was entered. -/
def failingOp (failUntil : Nat) (errs : Nat → Err) (dur : Nat → Int) :
    Int → Nat → Option Err × Int × Nat :=
  fun now callCount =>
    let callCount := callCount + 1
    (if callCount ≤ failUntil then some (errs callCount) else none, now + dur callCount,
      callCount)

/-- Every error is retryable under the configuration: `RetryableCheck` is nil or
accepts it. -/
def RetryConfig.allRetryable (c : RetryConfig) : Prop :=
  match c.RetryableCheck with
  | some check => ∀ e, check e = true
  | none => True

/-- The retryer of `TestRetryerRetryOnError`: three retries, delays of 10 ms doubling up
to 100 ms, no jitter. -/
def testRetryer : Retryer :=
  ⟨{ MaxRetries := 3, InitialDelay := 10000000, MaxDelay := 100000000, BackoffFactor := 2,
     Jitter := false, RetryableCheck := none }, nearestPowers⟩

/-! ## `internal/models`: analyses, products and sales -/

/-- The conversion `string(rune(x))` of an `int`: the conversion to `rune` keeps the low
32 bits as a signed number, and a value that is not a Unicode scalar gives U+FFFD. -/
def runeString (x : Int) : String :=
  let r := (x + 2147483648) % 4294967296 - 2147483648
  if 0 ≤ r ∧ r.toNat.isValidChar then String.singleton (Char.ofNat r.toNat)
  else String.singleton (Char.ofNat 65533)

/-- The method `Error()` of the errors of the embedding. For a `*common.RetryError`
whose `Err` is nil the Go method dereferences nil; the text up to that point is
given. -/
def Err.Error : Err → String
  | .msg text => text
  | .canceled => "context canceled"
  | .deadlineExceeded => "context deadline exceeded"
  | .wrap text inner => text ++ ": " ++ inner.Error
  | .retry attempts inner =>
    "max retries exceeded after " ++ runeString (attempts + 48) ++ " attempts: " ++ inner.Error
  | .retryNil attempts => "max retries exceeded after " ++ runeString (attempts + 48) ++ " attempts: "

/-- The structure `models.Analysis`; a `uuid.UUID` is kept as a number. -/
structure Analysis where
  ID : Nat
  StartedAt : Time
  CompletedAt : Option Time
  Status : String
  ProductsCount : Int
  SalesCount : Int
  SearchQuery : Option String
  ErrorMessage : Option String
  deriving DecidableEq, Repr

/-- The constant `StatusRunning`. -/
def StatusRunning : String := "running"

/-- The constant `StatusCompleted`. -/
def StatusCompleted : String := "completed"

/-- The constant `StatusFailed`. -/
def StatusFailed : String := "failed"

/-- Embedding of `Analysis.SetSearchQuery`. -/
def Analysis.SetSearchQuery (a : Analysis) (query : String) : Analysis :=
  { a with SearchQuery := some query }

/-- Embedding of `Analysis.Complete`; `now` is the reading of `time.Now()`. -/
def Analysis.Complete (a : Analysis) (now : Time) (productsCount salesCount : Int) : Analysis :=
  { a with CompletedAt := some now, Status := StatusCompleted, ProductsCount := productsCount,
           SalesCount := salesCount }

/-- Embedding of `Analysis.Fail`; `now` is the reading of `time.Now()`. -/
def Analysis.Fail (a : Analysis) (now : Time) (err : Err) : Analysis :=
  { a with CompletedAt := some now, Status := StatusFailed, ErrorMessage := some err.Error }

/-- The structure `models.Product`; the name is kept as bytes, as in
`NormalizedProduct`. -/
structure Product where
  ID : Nat
  NormalizedName : List Nat
  Category : String
  SetName : Option String
  SetCode : Option String
  MSRPEUR : Option ℚ
  CreatedAt : Time
  UpdatedAt : Time
  deriving DecidableEq, Repr

/-- Embedding of `Product.SetSetInfo`. -/
def Product.SetSetInfo (p : Product) (name code : String) : Product :=
  { p with SetName := some name, SetCode := some code }

/-- Embedding of `Product.SetMSRP`. -/
def Product.SetMSRP (p : Product) (msrp : ℚ) : Product :=
  { p with MSRPEUR := some msrp }

/-- The structure `models.Sale`. -/
structure Sale where
  ID : Nat
  ProductID : Nat
  AnalysisID : Option Nat
  Platform : String
  Title : String
  Price : ℚ
  Currency : String
  SoldAt : Time
  URL : Option String
  ScrapedAt : Time
  deriving DecidableEq, Repr

/-- Embedding of `Sale.SetURL`. -/
def Sale.SetURL (s : Sale) (url : String) : Sale := { s with URL := some url }

/-- Embedding of `Sale.SetAnalysisID`. -/
def Sale.SetAnalysisID (s : Sale) (analysisID : Nat) : Sale :=
  { s with AnalysisID := some analysisID }

/-! ## `internal/analyzer/volume.go` -/

/-- The structure `AnalyzeOptions`. Of the callback `OnProgress` the embedding keeps
whether it is given; its calls are recorded in the log of the world. -/
structure AnalyzeOptions where
  Query : String
  Category : String
  MaxPages : Int
  OnProgress : Bool

/-- The structure `AnalysisProgress`. -/
structure AnalysisProgress where
  Phase : String
  PagesScraped : Int
  SalesFound : Int
  ProductsMatched : Int
  PercentComplete : ℚ
  Message : String
  deriving DecidableEq, Repr

/-- The zero value `AnalysisProgress{}`. -/
def AnalysisProgress.zero : AnalysisProgress :=
  { Phase := "", PagesScraped := 0, SalesFound := 0, ProductsMatched := 0,
    PercentComplete := 0, Message := "" }

/-- The structure `AnalysisResult`; `TopProducts`, which `Run` never sets, is left
out. -/
structure AnalysisResult where
  AnalysisID : Nat
  ProductsCount : Int
  SalesCount : Int
  Duration : Int
  deriving DecidableEq, Repr

/-- The structure `AnalysisStatus`. -/
structure AnalysisStatus where
  IsRunning : Bool
  AnalysisID : Nat
  StartedAt : Time
  Progress : AnalysisProgress
  deriving DecidableEq, Repr

/-- The structure `VolumeAnalyzer`: the scraper, the normalizer and the status slot.
The repositories and the logger belong to the world; the mutex is not a field, every
method below that takes it is one atomic step. -/
structure VolumeAnalyzer where
  scraper : EbayScraper
  normalizer : Normalizer
  currentStatus : Option AnalysisStatus

/-- A call that leaves the analyzer: a method of a repository, the scraper, or the
progress callback. -/
inductive Call where
  /-- The call `analysisRepo.Create(ctx, analysis)`. -/
  | analysisCreate (analysis : Analysis)
  /-- The call `analysisRepo.Update(ctx, analysis)`. -/
  | analysisUpdate (analysis : Analysis)
  /-- The call `productRepo.FindByNormalizedName(ctx, name)`. -/
  | findByNormalizedName (name : List Nat)
  /-- The call `productRepo.FindOrCreate(ctx, product)`. -/
  | findOrCreate (product : Product)
  /-- The call `saleRepo.BulkCreate(ctx, sales)`. -/
  | bulkCreate (sales : List Sale)
  /-- The call `scraper.ScrapeWithContext(ctx, opts)`. -/
  | scrape (opts : ScrapeOptions)
  /-- The call `onProgress(progress)`. -/
  | onProgress (progress : AnalysisProgress)
  deriving DecidableEq, Repr

/-- What the database answers to a repository call: the error, the product row (read
when a product method returns a nil error), the number of rows inserted (read after
`BulkCreate`), and the time the call takes. -/
structure Reply where
  err : Option Err
  product : Product
  inserted : Int
  elapsed : Int

/-- The world of an analyzer: the world of its scraper, the wall clock as a function of
the monotonic instant, the values of `uuid.New()` in the order they are drawn, the
answer of the database to a call given the calls made before it, the order in which
the `Normalize` call on raw sale `i` traverses the maps, the time a call of
`reportProgress` takes (the wait for the lock of the analyzer and, when there is one, the
run of the callback of the caller), given the calls made before it and the progress
reported, and the time the work of iteration `i` of `processSales` on the memory takes
(the `Normalize` call and the construction of the records). -/
structure AnalyzerEnv where
  crawl : Env
  wall : Int → Time
  uuid : Nat → Nat
  store : List Call → Call → Reply
  order : Nat → MapOrder
  reporting : List Call → AnalysisProgress → Nat
  compute : Nat → Nat

/-- The analyzer together with the state of the world around it: the instant on the
monotonic clock, the calls made so far, oldest first, and the number of identifiers
drawn so far. -/
structure Machine where
  va : VolumeAnalyzer
  now : Int
  calls : List Call
  uuids : Nat

/-- A repository call: it is logged, answered by the database, and takes its time. -/
def Machine.ask (env : AnalyzerEnv) (m : Machine) (c : Call) : Reply × Machine :=
  (env.store m.calls c,
    { m with calls := m.calls ++ [c], now := m.now + (env.store m.calls c).elapsed })

/-- The call `uuid.New()`. -/
def Machine.newUUID (env : AnalyzerEnv) (m : Machine) : Nat × Machine :=
  (env.uuid m.uuids, { m with uuids := m.uuids + 1 })

/-- Embedding of `models.NewAnalysis`. -/
def NewAnalysis (env : AnalyzerEnv) (m : Machine) : Analysis × Machine :=
  ({ ID := (m.newUUID env).1, StartedAt := env.wall m.now, CompletedAt := none,
     Status := StatusRunning, ProductsCount := 0, SalesCount := 0, SearchQuery := none,
     ErrorMessage := none }, (m.newUUID env).2)

/-- Embedding of `models.NewProduct`. -/
def NewProduct (env : AnalyzerEnv) (m : Machine) (normalizedName : List Nat)
    (category : String) : Product × Machine :=
  ({ ID := (m.newUUID env).1, NormalizedName := normalizedName, Category := category,
     SetName := none, SetCode := none, MSRPEUR := none, CreatedAt := env.wall m.now,
     UpdatedAt := env.wall m.now }, (m.newUUID env).2)

/-- Embedding of `models.NewSale`. -/
def NewSale (env : AnalyzerEnv) (m : Machine) (productID : Nat) (title : String) (price : ℚ)
    (soldAt : Time) : Sale × Machine :=
  ({ ID := (m.newUUID env).1, ProductID := productID, AnalysisID := none, Platform := "ebay",
     Title := title, Price := price, Currency := "EUR", SoldAt := soldAt, URL := none,
     ScrapedAt := env.wall m.now }, (m.newUUID env).2)

/-- Embedding of `VolumeAnalyzer.IsRunning`. -/
def VolumeAnalyzer.IsRunning (va : VolumeAnalyzer) : Bool :=
  match va.currentStatus with
  | some status => status.IsRunning
  | none => false

/-- Embedding of `VolumeAnalyzer.setStatus`. -/
def VolumeAnalyzer.setStatus (va : VolumeAnalyzer) (status : AnalysisStatus) : VolumeAnalyzer :=
  { va with currentStatus := some status }

/-- Embedding of `VolumeAnalyzer.clearStatus`. -/
def VolumeAnalyzer.clearStatus (va : VolumeAnalyzer) : VolumeAnalyzer :=
  { va with currentStatus := none }

/-- Embedding of `VolumeAnalyzer.updateProgress`. -/
def VolumeAnalyzer.updateProgress (va : VolumeAnalyzer) (progress : AnalysisProgress) :
    VolumeAnalyzer :=
  match va.currentStatus with
  | some status => { va with currentStatus := some { status with Progress := progress } }
  | none => va

/-- Embedding of `VolumeAnalyzer.reportProgress`: `updateProgress` takes the lock of
the analyzer and the callback runs on the goroutine of `Run`, which goes on when both
have returned. -/
def reportProgress (env : AnalyzerEnv) (onProgress : Bool) (progress : AnalysisProgress)
    (m : Machine) : Machine :=
  let m := { m with va := m.va.updateProgress progress,
                    now := m.now + env.reporting m.calls progress }
  if onProgress then { m with calls := m.calls ++ [.onProgress progress] } else m

/-- Embedding of `VolumeAnalyzer.failAnalysis`: the record marked failed is handed to
`analysisRepo.Update`, whose error is only logged. -/
def failAnalysis (env : AnalyzerEnv) (analysis : Analysis) (err : Err) (m : Machine) :
    Analysis × Machine :=
  (analysis.Fail (env.wall m.now) err,
    (m.ask env (.analysisUpdate (analysis.Fail (env.wall m.now) err))).2)

/-- The variables of the loop of `processSales`: `productMap` as the list of its
entries in insertion order, and `salesToCreate`. -/
structure SalesLoop where
  productMap : List (List Nat × Product)
  salesToCreate : List Sale
  processedCount : Int

/-- The part "find or create product" of an iteration of `processSales`: the product,
or none when the iteration is abandoned because `FindOrCreate` failed. -/
def findProduct (env : AnalyzerEnv) (normalized : NormalizedProduct) (l : SalesLoop)
    (m : Machine) : Option Product × SalesLoop × Machine :=
  match l.productMap.find? (fun e => e.1 == normalized.NormalizedName) with
  | some e => (some e.2, l, m)
  | none =>
    let found := m.ask env (.findByNormalizedName normalized.NormalizedName)
    match found.1.err with
    | none =>
      (some found.1.product,
        { l with productMap := l.productMap ++ [(normalized.NormalizedName, found.1.product)] },
        found.2)
    | some _ =>
      let fresh := NewProduct env found.2 normalized.NormalizedName normalized.Category
      let newProduct :=
        if normalized.SetName ≠ "" then fresh.1.SetSetInfo normalized.SetName normalized.SetCode
        else fresh.1
      let newProduct :=
        match normalized.MSRP with
        | some msrp => newProduct.SetMSRP msrp
        | none => newProduct
      let created := fresh.2.ask env (.findOrCreate newProduct)
      match created.1.err with
      | some _ => (none, l, created.2)
      | none =>
        (some created.1.product,
          { l with
            productMap := l.productMap ++ [(normalized.NormalizedName, created.1.product)] },
          created.2)

/-- The progress reported by `processSales` after sale `i` of `total`. -/
def savingProgress (total i : Nat) (l : SalesLoop) : AnalysisProgress :=
  { Phase := "saving", PagesScraped := 0, SalesFound := total,
    ProductsMatched := l.productMap.length,
    Message := "Processing sale " ++ toString (i + 1) ++ "/" ++ toString total,
    PercentComplete := 0.4 + ((i : ℚ) / (total : ℚ)) * 0.5 }

/-- One iteration of the loop of `processSales`, after the test of the context:
raw sale `i` of `total`. -/
def processSale (env : AnalyzerEnv) (analysisID : Nat) (onProgress : Bool) (total i : Nat)
    (rawSale : RawSale) (l : SalesLoop) (m : Machine) : SalesLoop × Machine :=
  let normalized := m.va.normalizer.Normalize (env.order i) rawSale.Title.toList
  let m := { m with now := m.now + env.compute i }
  if normalized.2 < 0.3 then (l, m)
  else
    match findProduct env normalized.1 l m with
    | (none, l, m) => (l, m)
    | (some product, l, m) =>
      let fresh := NewSale env m product.ID rawSale.Title rawSale.Price rawSale.SoldAt
      let sale := fresh.1.SetAnalysisID analysisID
      let sale := if rawSale.URL ≠ "" then sale.SetURL rawSale.URL else sale
      let l := { l with salesToCreate := l.salesToCreate ++ [sale],
                        processedCount := l.processedCount + 1 }
      if i % 50 = 0 then (l, reportProgress env onProgress (savingProgress total i l) fresh.2)
      else (l, fresh.2)

/-- The loop `for i, rawSale := range rawSales` of `processSales`, from index `i` on:
the error of the context when it stops the loop, and the variables at the exit. -/
def processLoop (env : AnalyzerEnv) (ctx : Context) (analysisID : Nat) (onProgress : Bool)
    (total : Nat) : Nat → List RawSale → SalesLoop → Machine → Option Err × SalesLoop × Machine
  | _, [], l, m => (none, l, m)
  | i, rawSale :: rest, l, m =>
    if ctx.Done m.now then (ctx.Err m.now, l, m)
    else
      processLoop env ctx analysisID onProgress total (i + 1) rest
        (processSale env analysisID onProgress total i rawSale l m).1
        (processSale env analysisID onProgress total i rawSale l m).2

/-- What `processSales` returns: the two counts and the error. -/
structure SalesOutcome where
  productsCount : Int
  salesCount : Int
  err : Option Err
  deriving DecidableEq, Repr

/-- Embedding of `VolumeAnalyzer.processSales`. -/
def processSales (env : AnalyzerEnv) (ctx : Context) (analysisID : Nat)
    (rawSales : List RawSale) (onProgress : Bool) (m : Machine) : SalesOutcome × Machine :=
  match processLoop env ctx analysisID onProgress rawSales.length 0 rawSales ⟨[], [], 0⟩ m with
  | (some err, _, m) => (⟨0, 0, some err⟩, m)
  | (none, l, m) =>
    if l.salesToCreate.length > 0 then
      match ((m.ask env (.bulkCreate l.salesToCreate)).1).err with
      | some err =>
        (⟨0, 0, some (.wrap "failed to bulk create sales" err)⟩,
          (m.ask env (.bulkCreate l.salesToCreate)).2)
      | none =>
        (⟨l.productMap.length, l.salesToCreate.length, none⟩,
          (m.ask env (.bulkCreate l.salesToCreate)).2)
    else (⟨l.productMap.length, l.salesToCreate.length, none⟩, m)

/-- What `Run` returns: the result (nil on error) and the error. -/
structure RunOutcome where
  result : Option AnalysisResult
  err : Option Err
  deriving DecidableEq, Repr

/-- The options handed to the scraper by `Run`. -/
def scrapeOptions (env : AnalyzerEnv) (opts : AnalyzeOptions) (m : Machine) : ScrapeOptions :=
  { Query := opts.Query, Category := opts.Category, MaxPages := opts.MaxPages,
    Since := (env.wall m.now).AddDate 0 0 (-30) }

/-- The call of the scraper by `Run`: it is logged, takes its time and leaves its
limiter. -/
def callScraper (env : AnalyzerEnv) (ctx : Context) (opts : AnalyzeOptions) (m : Machine) :
    ScrapeOutput × Machine :=
  let out := ScrapeWithContext env.crawl m.va.scraper ctx (scrapeOptions env opts m) m.now
  (out,
    { m with
      va := { m.va with scraper := { m.va.scraper with rateLimiter := out.rateLimiter } },
      now := out.now, calls := m.calls ++ [.scrape (scrapeOptions env opts m)] })

/-- The end of `Run` when the scraper found no sale. -/
def completeEmpty (env : AnalyzerEnv) (analysis : Analysis) (startTime : Int) (m : Machine) :
    RunOutcome × Machine :=
  let analysis := analysis.Complete (env.wall m.now) 0 0
  let m := (m.ask env (.analysisUpdate analysis)).2
  (⟨some { AnalysisID := analysis.ID, ProductsCount := 0, SalesCount := 0,
           Duration := m.now - startTime }, none⟩, m)

/-- The progress `Run` reports before it calls `processSales`. -/
def normalizingProgress (scrapeResult : ScrapeResult) : AnalysisProgress :=
  { Phase := "normalizing", PagesScraped := 0, SalesFound := scrapeResult.SaleCount,
    ProductsMatched := 0, Message := "Normalizing product names...",
    PercentComplete := 0.4 }

/-- Steps 2 and 3 of `Run`: the sales are processed and the analysis is completed or
failed. -/
def processAndComplete (env : AnalyzerEnv) (ctx : Context) (opts : AnalyzeOptions)
    (analysis : Analysis) (startTime : Int) (scrapeResult : ScrapeResult) (m : Machine) :
    RunOutcome × Machine :=
  let m := reportProgress env opts.OnProgress (normalizingProgress scrapeResult) m
  let processed := processSales env ctx analysis.ID scrapeResult.Sales opts.OnProgress m
  match processed.1.err with
  | some err =>
    (⟨none, some (.wrap "processing sales failed" err)⟩,
      (failAnalysis env analysis err processed.2).2)
  | none =>
    let m := processed.2
    let analysis := analysis.Complete (env.wall m.now) processed.1.productsCount
      processed.1.salesCount
    let m := (m.ask env (.analysisUpdate analysis)).2
    let m := reportProgress env opts.OnProgress
      { Phase := "complete", PagesScraped := scrapeResult.PagesScraped,
        SalesFound := processed.1.salesCount, ProductsMatched := processed.1.productsCount,
        Message := "Analysis complete: " ++ toString processed.1.productsCount
          ++ " products, " ++ toString processed.1.salesCount ++ " sales",
        PercentComplete := 1 } m
    (⟨some { AnalysisID := analysis.ID, ProductsCount := processed.1.productsCount,
             SalesCount := processed.1.salesCount, Duration := m.now - startTime }, none⟩, m)

/-- The progress `Run` reports before it calls the scraper. -/
def startingProgress : AnalysisProgress :=
  { Phase := "scraping", PagesScraped := 0, SalesFound := 0, ProductsMatched := 0,
    Message := "Starting eBay scrape...", PercentComplete := 0.1 }

/-- The progress `Run` reports when the scraper has returned. -/
def scrapedProgress (scrapeResult : ScrapeResult) : AnalysisProgress :=
  { Phase := "scraping", PagesScraped := scrapeResult.PagesScraped,
    SalesFound := scrapeResult.SaleCount, ProductsMatched := 0,
    Message := "Scraped " ++ toString scrapeResult.PagesScraped ++ " pages, found "
      ++ toString scrapeResult.SaleCount ++ " sales",
    PercentComplete := 0.3 }

/-- Step 1 of `Run`, on the machine `m` left by `setStatus`: the first progress report
and the call of the scraper. -/
def runScrape (env : AnalyzerEnv) (ctx : Context) (opts : AnalyzeOptions) (m : Machine) :
    ScrapeOutput × Machine :=
  callScraper env ctx opts (reportProgress env opts.OnProgress startingProgress m)

/-- The part of `Run` between `defer va.clearStatus()` and the return. A nil error of
`ScrapeWithContext` comes with a result. -/
def runGuarded (env : AnalyzerEnv) (ctx : Context) (opts : AnalyzeOptions)
    (analysis : Analysis) (m : Machine) : RunOutcome × Machine :=
  let startTime := m.now
  let scraped := runScrape env ctx opts m
  match scraped.1.err with
  | some err =>
    (⟨none, some (.wrap "scraping failed" err)⟩, (failAnalysis env analysis err scraped.2).2)
  | none =>
    let scrapeResult := scraped.1.result.getD NewScrapeResult
    let m := reportProgress env opts.OnProgress (scrapedProgress scrapeResult) scraped.2
    if scrapeResult.SaleCount = 0 then completeEmpty env analysis startTime m
    else processAndComplete env ctx opts analysis startTime scrapeResult m

/-- The defaults `Run` applies to its options. -/
def withDefaults (opts : AnalyzeOptions) : AnalyzeOptions :=
  if opts.MaxPages ≤ 0 then { opts with MaxPages := 10 } else opts

/-- The analysis record `Run` creates. -/
def newRecord (env : AnalyzerEnv) (opts : AnalyzeOptions) (m : Machine) : Analysis :=
  if opts.Query ≠ "" then (NewAnalysis env m).1.SetSearchQuery opts.Query
  else (NewAnalysis env m).1

/-- The creation of the record by `Run`: the answer of the repository and the machine
it leaves. -/
def createRecord (env : AnalyzerEnv) (opts : AnalyzeOptions) (m : Machine) : Reply × Machine :=
  (NewAnalysis env m).2.ask env (.analysisCreate (newRecord env opts m))

/-- The machine left by `setStatus` in `Run`, once the record is created. -/
def enterRun (env : AnalyzerEnv) (opts : AnalyzeOptions) (m : Machine) : Machine :=
  { (createRecord env opts m).2 with
    va := (createRecord env opts m).2.va.setStatus
      { IsRunning := true, AnalysisID := (newRecord env opts m).ID,
        StartedAt := (newRecord env opts m).StartedAt, Progress := AnalysisProgress.zero } }

/-- Embedding of `VolumeAnalyzer.Run`: the deferred `clearStatus` runs on every return
that follows `setStatus`. -/
def Run (env : AnalyzerEnv) (ctx : Context) (opts : AnalyzeOptions) (m : Machine) :
    RunOutcome × Machine :=
  if m.va.IsRunning then (⟨none, some (.msg "analysis already running")⟩, m)
  else
    match (createRecord env (withDefaults opts) m).1.err with
    | some err =>
      (⟨none, some (.wrap "failed to create analysis record" err)⟩,
        (createRecord env (withDefaults opts) m).2)
    | none =>
      let out := runGuarded env ctx (withDefaults opts) (newRecord env (withDefaults opts) m)
        (enterRun env (withDefaults opts) m)
      (out.1, { out.2 with va := out.2.va.clearStatus })

/-! ### Concurrent calls of `Run` -/

/-- Where a call of `Run` stands, between the steps that take the mutex: before the
test `va.IsRunning()`, after it, after `analysisRepo.Create`, after `setStatus` (the run
proceeds to crawl), returned, or returned with the already-running error. -/
inductive RunPc where
  | entry
  | checked
  | created
  | crawling
  | returned
  | rejected
  deriving DecidableEq, Repr

/-- Calls of `Run` on one analyzer: the status slot they share and where each call
stands. -/
structure Racing where
  currentStatus : Option AnalysisStatus
  pcs : List RunPc
  deriving DecidableEq, Repr

/-- The status a call sets: the identifier of its record stands for the call. -/
def statusOf (wall : Time) (c : Nat) : AnalysisStatus :=
  { IsRunning := true, AnalysisID := c, StartedAt := wall, Progress := AnalysisProgress.zero }

/-- The analyzer of the sample sessions with a given status slot. -/
def analyzerWith (currentStatus : Option AnalysisStatus) : VolumeAnalyzer :=
  { scraper := sampleScraper 2, normalizer := NewNormalizer, currentStatus := currentStatus }

/-- One step of call `c`: the test of `IsRunning` (one critical section), the creation
of the record (`createOk` tells whether it succeeds), `setStatus` (another critical
section), and the rest of the run up to the deferred `clearStatus`. -/
def raceStep (wall : Time) (createOk : Nat → Bool) (c : Nat) (s : Racing) : Racing :=
  match s.pcs[c]? with
  | some .entry =>
    if (analyzerWith s.currentStatus).IsRunning then { s with pcs := s.pcs.set c .rejected }
    else { s with pcs := s.pcs.set c .checked }
  | some .checked =>
    if createOk c then { s with pcs := s.pcs.set c .created }
    else { s with pcs := s.pcs.set c .returned }
  | some .created =>
    { currentStatus := ((analyzerWith s.currentStatus).setStatus (statusOf wall c)).currentStatus,
      pcs := s.pcs.set c .crawling }
  | some .crawling =>
    { currentStatus := (analyzerWith s.currentStatus).clearStatus.currentStatus,
      pcs := s.pcs.set c .returned }
  | _ => s

/-- A schedule: the calls take their steps in the order listed. -/
def race (wall : Time) (createOk : Nat → Bool) (schedule : List Nat) (s : Racing) : Racing :=
  schedule.foldl (fun s c => raceStep wall createOk c s) s

/-! ### Vocabulary for the statements about `processSales` -/

/-- The sale record `sale` was made from the raw sale `raw` for the analysis
`analysisID`. -/
def madeFrom (analysisID : Nat) (raw : RawSale) (sale : Sale) : Prop :=
  sale.Title = raw.Title ∧ sale.Price = raw.Price ∧ sale.SoldAt = raw.SoldAt ∧
  sale.AnalysisID = some analysisID ∧ sale.Platform = "ebay"

/-- The confidence with which normalizer `n` normalises raw sale `i` of a run. -/
def confidenceOf (env : AnalyzerEnv) (n : Normalizer) (i : Nat) (raw : RawSale) : ℚ :=
  (n.Normalize (env.order i) raw.Title.toList).2

/-- The sales of `batch` were made, in order, from raw sales at increasing positions
`idx` of `rawSales`, each normalised with a confidence of at least 0.3. -/
def FromQualifying (env : AnalyzerEnv) (n : Normalizer) (analysisID : Nat)
    (rawSales : List RawSale) (batch : List Sale) (idx : List Nat) : Prop :=
  idx.Pairwise (fun a b => a < b) ∧
  List.Forall₂
    (fun sale i => ∃ raw, rawSales[i]? = some raw ∧ madeFrom analysisID raw sale ∧
      0.3 ≤ confidenceOf env n i raw)
    batch idx

/-- The value of `salesToCreate` when the loop of `processSales` is left. -/
def salesBatch (env : AnalyzerEnv) (ctx : Context) (analysisID : Nat)
    (rawSales : List RawSale) (onProgress : Bool) (m : Machine) : List Sale :=
  (processLoop env ctx analysisID onProgress rawSales.length 0 rawSales ⟨[], [], 0⟩
    m).2.1.salesToCreate

/-- The records handed to `analysisRepo.Update` in a log of calls, oldest first. -/
def updatesOf (calls : List Call) : List Analysis :=
  calls.filterMap (fun c =>
    match c with
    | .analysisUpdate a => some a
    | _ => none)

/-- The batches handed to `saleRepo.BulkCreate` in a log of calls, oldest first. -/
def batchesOf (calls : List Call) : List (List Sale) :=
  calls.filterMap (fun c =>
    match c with
    | .bulkCreate sales => some sales
    | _ => none)

/-- The product lookups and creations in a log of calls. -/
def productCallsOf (calls : List Call) : List Call :=
  calls.filter (fun c =>
    match c with
    | .findByNormalizedName _ => true
    | .findOrCreate _ => true
    | _ => false)

/-- What the scraper returns to a call of `Run` started on `m` whose record is created,
and the machine it leaves. -/
def scrapedBy (env : AnalyzerEnv) (ctx : Context) (opts : AnalyzeOptions) (m : Machine) :
    ScrapeOutput × Machine :=
  runScrape env ctx (withDefaults opts) (enterRun env (withDefaults opts) m)

/-- The raw sales the scraper hands to that call of `Run`. -/
def scrapedSales (env : AnalyzerEnv) (ctx : Context) (opts : AnalyzeOptions) (m : Machine) :
    List RawSale :=
  ((scrapedBy env ctx opts m).1.result.getD NewScrapeResult).Sales

/-- The machine on which that call of `Run` enters `processSales`: the one the scraper
leaves, after the two progress reports that separate step 1 from the loop. -/
def enteringProcessSales (env : AnalyzerEnv) (ctx : Context) (opts : AnalyzeOptions)
    (m : Machine) : Machine :=
  reportProgress env (withDefaults opts).OnProgress
    (normalizingProgress ((scrapedBy env ctx opts m).1.result.getD NewScrapeResult))
    (reportProgress env (withDefaults opts).OnProgress
      (scrapedProgress ((scrapedBy env ctx opts m).1.result.getD NewScrapeResult))
      (scrapedBy env ctx opts m).2)

/-- The time iterations `i` to `i + k - 1` of the loop of `processSales` take when each
of them leaves the iteration at the test of the confidence. -/
def skipTime (env : AnalyzerEnv) : Nat → Nat → Int
  | _, 0 => 0
  | i, k + 1 => env.compute i + skipTime env (i + 1) k

/-! ### Sample runs -/

/-- A product row. -/
def sampleProduct : Product :=
  { ID := 7, NormalizedName := utf8 "Display Écarlate et Violet 151".toList,
    Category := "display", SetName := none, SetCode := none, MSRPEUR := none,
    CreatedAt := ⟨2024, 6, 1, 0⟩, UpdatedAt := ⟨2024, 6, 1, 0⟩ }

/-- The answer of a database that serves the call in 10 ns. -/
def okReply : Reply := { err := none, product := sampleProduct, inserted := 1, elapsed := 10 }

/-- The answer of a database that is down. -/
def failReply : Reply :=
  { err := some (.msg "connection lost"), product := sampleProduct, inserted := 0,
    elapsed := 10 }

/-- A world in which page 1 holds `sales` and every other page nothing, the wall clock
reads 15 June 2024, the database serves every call, and neither a progress report
nor the work of `processSales` on the memory takes measurable time. -/
def sampleWorld (sales : List RawSale) : AnalyzerEnv :=
  { crawl := { net := fun page _ => if page = 1 then pageOk sales else pageOk [],
               rnd := fun _ _ => 0, wallNow := ⟨2024, 6, 15, 0⟩ },
    wall := fun _ => ⟨2024, 6, 15, 0⟩, uuid := fun n => n + 1, store := fun _ _ => okReply,
    order := fun _ => NewNormalizer.tableOrder, reporting := fun _ _ => 0,
    compute := fun _ => 0 }

/-- The world `sampleWorld sales` with the database down. -/
def databaseDown (sales : List RawSale) : AnalyzerEnv :=
  { sampleWorld sales with store := fun _ _ => failReply }

/-- The world `sampleWorld sales` in which a progress report takes 2 ns and every
iteration of `processSales` works 1 ns on the memory. -/
def slowWorld (sales : List RawSale) : AnalyzerEnv :=
  { sampleWorld sales with reporting := fun _ _ => 2, compute := fun _ => 1 }

/-- The world `sampleWorld sales` in which `BulkCreate` fails and every other call of a
repository is served. -/
def bulkCreateDown (sales : List RawSale) : AnalyzerEnv :=
  { sampleWorld sales with
    store := fun _ c =>
      match c with
      | .bulkCreate _ => failReply
      | _ => okReply }

/-- An analyzer at rest at instant 0. -/
def idleMachine : Machine := { va := analyzerWith none, now := 0, calls := [], uuids := 0 }

/-- An analyzer whose status slot holds the running status of run 1. -/
def busyMachine : Machine :=
  { va := analyzerWith (some (statusOf ⟨2024, 6, 15, 0⟩ 1)), now := 0, calls := [],
    uuids := 1 }

/-- Options with a query, a page budget and a progress callback. -/
def sampleAnalyzeOptions (maxPages : Int) : AnalyzeOptions :=
  { Query := "pokemon 151", Category := "", MaxPages := maxPages, OnProgress := true }

/-- A sale whose title holds the exclusion keyword `fake`. -/
def fakeSale : RawSale := { sampleSale with Title := "Fake card" }

/-! ## `internal/scraper/common/retry.go`: exhaustion and cancellation -/

/-- The operation of `TestRetryerMaxRetriesExceeded` with its counter: the state is
`callCount`; a call increments it, fails with `errs callCount`, and returns
`dur callCount` after it was entered. -/
def alwaysFails (errs : Nat → Err) (dur : Nat → Int) : Int → Nat → Option Err × Int × Nat :=
  fun now callCount =>
    let callCount := callCount + 1
    (some (errs callCount), now + dur callCount, callCount)

/-- The method `Unwrap` of an error: that of `*RetryError` and that of the errors made
by `fmt.Errorf` with `%w`; none when the error has no such method or it returns nil. -/
def Err.Unwrap : Err → Option Err
  | .wrap _ inner => some inner
  | .retry _ inner => some inner
  | _ => none

/-- The field `Attempts` of an error that is a `*RetryError`. -/
def Err.Attempts : Err → Option Int
  | .retry attempts _ => some attempts
  | .retryNil attempts => some attempts
  | _ => none

/-- Embedding of `IsRetryError`: `errors.As` looks for a `*RetryError` along the chain
of `Unwrap`. -/
def IsRetryError : Err → Bool
  | .retry _ _ => true
  | .retryNil _ => true
  | .wrap _ inner => IsRetryError inner
  | _ => false

/-- The instant at which attempt `k` (from 0) of `Do` on the operation `alwaysFails` is
entered when `Do` is called at `now` and nothing cancels it: each attempt lasts
`dur`, and the sleep after attempt `k` lasts `calculateDelay k`. -/
def attemptAt (r : Retryer) (rnd : Nat → ℚ) (dur : Nat → Int) (now : Int) : Nat → Int
  | 0 => now
  | k + 1 =>
    attemptAt r rnd dur now k + dur (k + 1) + max (r.calculateDelay (rnd k) k) 0

/-- The retryer of `TestRetryerMaxRetriesExceeded`: two retries, delays of 10 ms doubling
up to 100 ms, no jitter. -/
def exhaustedRetryer : Retryer :=
  ⟨{ MaxRetries := 2, InitialDelay := 10000000, MaxDelay := 100000000, BackoffFactor := 2,
     Jitter := false, RetryableCheck := none }, nearestPowers⟩

/-- Text of a number in decimal, what `strconv.Itoa` and the verb `%d` give. -/
def Itoa (n : Int) : String := toString n

/-- The retryer of `TestRetryerContextCancellation`: ten retries, delays of 100 ms
doubling up to 1 s, no jitter. -/
def cancelledRetryer : Retryer :=
  ⟨{ MaxRetries := 10, InitialDelay := 100000000, MaxDelay := 1000000000, BackoffFactor := 2,
     Jitter := false, RetryableCheck := none }, nearestPowers⟩

/-- A retryer configured with `MaxRetries` -1 (the value is read from the environment
without validation): delays of 10 ms doubling up to 100 ms, no jitter. -/
def negativeRetryer : Retryer :=
  ⟨{ MaxRetries := -1, InitialDelay := 10000000, MaxDelay := 100000000, BackoffFactor := 2,
     Jitter := false, RetryableCheck := none }, nearestPowers⟩

/-- The error `err` passes the test of `RetryableCheck`: the check is nil or accepts
it. -/
def RetryConfig.retryable (c : RetryConfig) (err : Err) : Bool :=
  match c.RetryableCheck with
  | some check => check err
  | none => true

/-- The retryer of `TestRetryerExponentialBackoff`: three retries, delays of 20 ms
doubling up to 200 ms, no jitter. -/
def backoffRetryer : Retryer :=
  ⟨{ MaxRetries := 3, InitialDelay := 20000000, MaxDelay := 200000000, BackoffFactor := 2,
     Jitter := false, RetryableCheck := none }, nearestPowers⟩

/-- A retryer on the runtime `rt` whose delays start at `initialDelay` ns and grow by
`factor` up to 200 ms, without jitter. -/
def growingRetryer (rt : Runtime) (initialDelay : Int) (factor : ℚ) : Retryer :=
  ⟨{ MaxRetries := 3, InitialDelay := initialDelay, MaxDelay := 200000000,
     BackoffFactor := factor, Jitter := false, RetryableCheck := none }, rt⟩

/-- The number the `float64` nearest to 1.15 stands for. -/
def float115 : ℚ := ((5179139571476070 : ℤ) : ℚ) / ((4503599627370496 : ℤ) : ℚ)

/-! ## `internal/scraper/common/ratelimit.go`: sequential calls -/

/-- Sequential calls of `Wait` on one limiter, as in the loop of
`TestScraperRateLimiter`: each call is entered `gap` after the previous one returned
(the first one `gap` after `now`). For each call: its error, the instant at which it is
entered and the instant at which it returns. -/
def waitAll (ctx : Context) : List Int → RateLimiter → Int → List (Option Err × Int × Int)
  | [], _, _ => []
  | gap :: gaps, rl, now =>
    ((rl.Wait ctx (now + gap)).1, now + gap, (rl.Wait ctx (now + gap)).2.2) ::
      waitAll ctx gaps (rl.Wait ctx (now + gap)).2.1 (rl.Wait ctx (now + gap)).2.2

/-- Each call returns at least `d` after the one before it returned. -/
def Spaced (d : Int) (a b : Option Err × Int × Int) : Prop := a.2.2 + d ≤ b.2.2

/-! ## `internal/discord/ratelimit.go` -/

namespace discord

/-- The structure `userLimit`; instants are nanoseconds on the monotonic clock. -/
structure userLimit where
  lastUsed : Int
  count : Int
  window : Int
  deriving DecidableEq, Repr

/-- The structure `commandLimits`: the map `commands` as the list of its entries. -/
structure commandLimits where
  commands : List (String × userLimit)
  deriving DecidableEq, Repr

/-- The structure `RateLimitConfig`; durations are nanoseconds. -/
structure RateLimitConfig where
  AnalyzeLimit : Int
  AnalyzeWindow : Int
  ResultsLimit : Int
  ResultsWindow : Int
  FilterLimit : Int
  FilterWindow : Int
  DefaultLimit : Int
  DefaultWindow : Int
  CleanupInterval : Int
  deriving DecidableEq, Repr

/-- The structure `RateLimiter`: the map `limits` as the list of its entries. The mutex
is not a field (every method is one atomic step); the cleanup goroutine is not
started. -/
structure RateLimiter where
  limits : List (String × commandLimits)
  config : RateLimitConfig
  deriving DecidableEq, Repr

/-- Embedding of `DefaultRateLimitConfig`. -/
def DefaultRateLimitConfig : RateLimitConfig :=
  { AnalyzeLimit := 1, AnalyzeWindow := 300000000000, ResultsLimit := 5,
    ResultsWindow := 60000000000, FilterLimit := 10, FilterWindow := 60000000000,
    DefaultLimit := 10, DefaultWindow := 60000000000, CleanupInterval := 600000000000 }

/-- Embedding of `NewRateLimiter`. -/
def NewRateLimiter (cfg : RateLimitConfig) : RateLimiter := { limits := [], config := cfg }

/-- The read `m[key]` of a Go map with string keys. -/
def mapRead {α : Type} (m : List (String × α)) (key : String) : Option α :=
  (m.find? (fun e => e.1 == key)).map (fun e => e.2)

/-- The assignment `m[key] = value` of a Go map with string keys. -/
def mapWrite {α : Type} : List (String × α) → String → α → List (String × α)
  | [], key, value => [(key, value)]
  | e :: rest, key, value =>
    if e.1 == key then (key, value) :: rest else e :: mapWrite rest key value

/-- Embedding of `RateLimiter.getCommandLimits`. -/
def RateLimiter.getCommandLimits (rl : RateLimiter) (command : String) : Int × Int :=
  if command = "analyze" then (rl.config.AnalyzeLimit, rl.config.AnalyzeWindow)
  else if command = "results" then (rl.config.ResultsLimit, rl.config.ResultsWindow)
  else if command = "filter" then (rl.config.FilterLimit, rl.config.FilterWindow)
  else (rl.config.DefaultLimit, rl.config.DefaultWindow)

/-- The limiter after `userLimits.commands[command]` is set to `cmdLimit`, `userLimits`
being the entry of `userID` (created when absent). -/
def RateLimiter.record (rl : RateLimiter) (userID command : String) (cmdLimit : userLimit) :
    RateLimiter :=
  { rl with
    limits := mapWrite rl.limits userID
      ⟨mapWrite ((mapRead rl.limits userID).getD ⟨[]⟩).commands command cmdLimit⟩ }

/-- Embedding of `RateLimiter.Allow`, called at instant `now`: the answer and the
limiter afterwards. -/
def RateLimiter.Allow (rl : RateLimiter) (userID command : String) (now : Int) :
    Bool × RateLimiter :=
  match mapRead ((mapRead rl.limits userID).getD ⟨[]⟩).commands command with
  | none => (true, rl.record userID command { lastUsed := now, count := 1, window := now })
  | some cmdLimit =>
    if now - cmdLimit.window ≥ (rl.getCommandLimits command).2 then
      (true, rl.record userID command { lastUsed := now, count := 1, window := now })
    else if cmdLimit.count < (rl.getCommandLimits command).1 then
      (true, rl.record userID command
        { cmdLimit with count := cmdLimit.count + 1, lastUsed := now })
    else (false, rl)

/-- Embedding of `RateLimiter.Check`, called at instant `now`: the answer and the
limiter afterwards. -/
def RateLimiter.Check (rl : RateLimiter) (userID command : String) (now : Int) :
    Bool × RateLimiter :=
  match mapRead rl.limits userID with
  | none => (true, rl)
  | some userLimits =>
    match mapRead userLimits.commands command with
    | none => (true, rl)
    | some cmdLimit =>
      if now - cmdLimit.window ≥ (rl.getCommandLimits command).2 then (true, rl)
      else (decide (cmdLimit.count < (rl.getCommandLimits command).1), rl)

/-- The entry of the pair (`userID`, `command`) in the limiter, if any. -/
def RateLimiter.entry (rl : RateLimiter) (userID command : String) : Option userLimit :=
  (mapRead rl.limits userID).bind (fun userLimits => mapRead userLimits.commands command)

/-- A run of calls of `Allow`, each given by its user, its command and its instant: the
answers to the calls of the pair (`userID`, `command`), in order, and the limiter
after all the calls. -/
def answersTo (userID command : String) :
    List (String × String × Int) → RateLimiter → List Bool × RateLimiter
  | [], rl => ([], rl)
  | call :: rest, rl =>
    if call.1 = userID ∧ call.2.1 = command then
      ((rl.Allow call.1 call.2.1 call.2.2).1 ::
          (answersTo userID command rest (rl.Allow call.1 call.2.1 call.2.2).2).1,
        (answersTo userID command rest (rl.Allow call.1 call.2.1 call.2.2).2).2)
    else answersTo userID command rest (rl.Allow call.1 call.2.1 call.2.2).2

/-- The number of calls of the pair (`userID`, `command`) in a run. -/
def callsOf (userID command : String) (calls : List (String × String × Int)) : Nat :=
  (calls.filter (fun call => decide (call.1 = userID ∧ call.2.1 = command))).length

end discord

/-- The configuration of `TestRateLimiterBasic`: windows of 100 ms and the limits 1
(`analyze`), 3 (`results`), 5 (`filter`) and 10 (other commands). -/
def discord.testConfig : discord.RateLimitConfig :=
  { AnalyzeLimit := 1, AnalyzeWindow := 100000000, ResultsLimit := 3,
    ResultsWindow := 100000000, FilterLimit := 5, FilterWindow := 100000000,
    DefaultLimit := 10, DefaultWindow := 100000000, CleanupInterval := 3600000000000 }

/-- A run after a first call of `results` by `test_user_123` at instant 0: four more
such calls, with a call of `analyze` by the same user and a call of `results` by another
user in between. -/
def discord.sampleCalls : List (String × String × Int) :=
  [("test_user_123", "analyze", 10), ("test_user_123", "results", 20),
   ("test_user_123", "results", 30), ("test_user_456", "results", 35),
   ("test_user_123", "results", 40), ("test_user_123", "results", 50)]

/-! ## `normalizer.go`: another traversal of the maps -/

/-- The maps of a normalizer traversed in the reverse order of their entries. -/
def Normalizer.reverseOrder (n : Normalizer) : MapOrder :=
  { types := n.typePatterns.reverse, sets := n.setPatterns.reverse }

/-! ## `internal/scraper/ebay/scraper.go`: the search URL -/

/-- The constant `EbayFRBaseURL`. -/
def EbayFRBaseURL : String := "https://www.ebay.fr"

/-- The constant `EbaySearchPath`. -/
def EbaySearchPath : String := "/sch/i.html"

/-- The constant `EbayPokemonTCGCatID`. -/
def EbayPokemonTCGCatID : String := "183454"

/-- The constant `ParamKeyword`. -/
def ParamKeyword : String := "_nkw"

/-- The constant `ParamCategory`. -/
def ParamCategory : String := "_sacat"

/-- The constant `ParamCompleted`. -/
def ParamCompleted : String := "LH_Complete"

/-- The constant `ParamSold`. -/
def ParamSold : String := "LH_Sold"

/-- The constant `ParamSort`. -/
def ParamSort : String := "_sop"

/-- The constant `ParamItemsPerPage`. -/
def ParamItemsPerPage : String := "_ipg"

/-- The constant `ParamPageNumber`. -/
def ParamPageNumber : String := "_pgn"

/-- The constant `SortEndDateRecent`. -/
def SortEndDateRecent : String := "13"

/-- A `url.Values` whose keys hold one value each (only `Set` is used): the entries in
the order in which the keys were first set. -/
def Values : Type := List (String × String)

/-- The method `Set` of `url.Values`. -/
def Values.Set : Values → String → String → Values
  | [], key, value => [(key, value)]
  | e :: rest, key, value =>
    if e.1 = key then (key, value) :: rest else e :: Values.Set rest key value

/-- A hexadecimal digit in upper case. -/
def upperHex (n : Nat) : Char :=
  if n < 10 then Char.ofNat (48 + n) else Char.ofNat (55 + n)

/-- Modelled from the library documentation: `url.QueryEscape` keeps the letters, the
digits and `-`, `_`, `.`, `~`, writes a blank as `+`, and writes every other byte of
the UTF-8 text as `%` and two hexadecimal digits. -/
def QueryEscape (s : String) : List Char :=
  (utf8 s.toList).flatMap (fun b =>
    let c := Char.ofNat b
    if b < 128 ∧ (c.isAlphanum ∨ c = '-' ∨ c = '_' ∨ c = '.' ∨ c = '~') then [c]
    else if b = 32 then ['+']
    else ['%', upperHex (b / 16), upperHex (b % 16)])

/-- Modelled from the library documentation: `Values.Encode` writes the entries as
`key=value`, both escaped, sorted by key and joined by `&`. -/
def Values.Encode (v : Values) : String :=
  String.intercalate "&"
    ((List.insertionSort (fun (a b : String × String) => a.1 ≤ b.1) v).map (fun e =>
      String.mk (QueryEscape e.1) ++ "=" ++ String.mk (QueryEscape e.2)))

/-- The map `categoryMap` of `getCategoryID`. -/
def categoryMap : List (String × String) :=
  [("all", EbayPokemonTCGCatID), ("display", EbayPokemonTCGCatID),
   ("etb", EbayPokemonTCGCatID), ("collection", EbayPokemonTCGCatID),
   ("booster", EbayPokemonTCGCatID), ("bundle", EbayPokemonTCGCatID),
   ("tin", EbayPokemonTCGCatID), ("single", "183454")]

/-- Embedding of `EbayScraper.getCategoryID`. -/
def getCategoryID (category : String) : String :=
  match categoryMap.find? (fun e => e.1 == String.mk (ToLower category.toList)) with
  | some e => e.2
  | none => EbayPokemonTCGCatID

/-- The parameters `buildSearchURL` sets before the page number. -/
def searchParams (query category : String) : Values :=
  let params : Values := []
  let params := params.Set ParamKeyword query
  let params := params.Set ParamCompleted "1"
  let params := params.Set ParamSold "1"
  let params := params.Set ParamSort SortEndDateRecent
  let params := params.Set ParamItemsPerPage "100"
  if category ≠ "" then
    if getCategoryID category ≠ "" then params.Set ParamCategory (getCategoryID category)
    else params
  else params.Set ParamCategory EbayPokemonTCGCatID

/-- The parameters of the URL `buildSearchURL` returns. -/
def pageParams (query category : String) (page : Int) : Values :=
  if page > 1 then (searchParams query category).Set ParamPageNumber (toString page)
  else searchParams query category

/-- Embedding of `EbayScraper.buildSearchURL`. -/
def buildSearchURL (query category : String) (page : Int) : String :=
  EbayFRBaseURL ++ EbaySearchPath ++ "?" ++ (pageParams query category page).Encode

/-! ## `internal/repository/stats.go`: the text of the statistics query -/

/-- The structure `StatsOptions`. -/
structure StatsOptions where
  Category : String
  SortBy : String
  SortOrder : String
  MinSales : Int
  Limit : Int
  Offset : Int
  deriving DecidableEq, Repr

/-- A value bound to a numbered parameter of a query. -/
inductive Arg where
  | str (s : String)
  | int (n : Int)
  deriving DecidableEq, Repr

/-- The defaults `GetProductStats` applies to its options. -/
def StatsOptions.withDefaults (opts : StatsOptions) : StatsOptions :=
  let opts := if opts.SortBy = "" then { opts with SortBy := "sales_count" } else opts
  let opts := if opts.SortOrder = "" then { opts with SortOrder := "desc" } else opts
  if opts.Limit ≤ 0 then { opts with Limit := 10 } else opts

/-- The map `validSortColumns` of `GetProductStats`. -/
def validSortColumns : List (String × String) :=
  [("sales_count", "sales_count_30d"), ("margin_percent", "margin_percent"),
   ("avg_price", "avg_price")]

/-- The variable `sortColumn` of `GetProductStats`, for options with the defaults
applied. -/
def sortColumn (opts : StatsOptions) : String :=
  match validSortColumns.find? (fun e => e.1 == opts.SortBy) with
  | some e => e.2
  | none => "sales_count_30d"

/-- The constant text with which `GetProductStats` starts its query (a raw string:
line breaks and tabs are part of it). -/
def statsSelect : String :=
  "\n\t\tSELECT\n\t\t\tp.id AS product_id,\n\t\t\tp.normalized_name,\n\t\t\tp.category,\n\t\t\tp.set_name,\n\t\t\tp.msrp_eur,\n\t\t\tCOUNT(s.id) AS sales_count_30d,\n\t\t\tCOALESCE(AVG(s.price), 0) AS avg_price,\n\t\t\tCOALESCE(MIN(s.price), 0) AS min_price,\n\t\t\tCOALESCE(MAX(s.price), 0) AS max_price,\n\t\t\tSTDDEV(s.price) AS price_stddev,\n\t\t\tCOALESCE(AVG(s.price), 0) - COALESCE(p.msrp_eur, 0) AS margin_eur,\n\t\t\tCASE\n\t\t\t\tWHEN p.msrp_eur > 0 THEN ((COALESCE(AVG(s.price), 0) - p.msrp_eur) / p.msrp_eur * 100)\n\t\t\t\tELSE NULL\n\t\t\tEND AS margin_percent,\n\t\t\tMAX(s.sold_at) AS last_sale_at\n\t\tFROM products p\n\t\tLEFT JOIN sales s ON s.product_id = p.id\n\t\t\tAND s.sold_at > NOW() - INTERVAL '30 days'\n\t\tWHERE 1=1\n\t"

/-- The state of the construction of the query in `GetProductStats`: the text, the
bound values and the number of the next parameter. -/
structure StatsQuery where
  query : String
  args : List Arg
  argIndex : Nat
  deriving DecidableEq, Repr

/-- The category clause of `GetProductStats`. -/
def addCategory (opts : StatsOptions) (q : StatsQuery) : StatsQuery :=
  if opts.Category ≠ "" then
    { query := q.query ++ " AND p.category = $" ++ toString q.argIndex,
      args := q.args ++ [.str opts.Category], argIndex := q.argIndex + 1 }
  else q

/-- The `GROUP BY` and `HAVING` clauses of `GetProductStats`. -/
def addGrouping (opts : StatsOptions) (q : StatsQuery) : StatsQuery :=
  let q := { q with
    query := q.query ++ " GROUP BY p.id, p.normalized_name, p.category, p.set_name, p.msrp_eur" }
  if opts.MinSales > 0 then
    { query := q.query ++ " HAVING COUNT(s.id) >= $" ++ toString q.argIndex,
      args := q.args ++ [.int opts.MinSales], argIndex := q.argIndex + 1 }
  else q

/-- The `ORDER BY` clause of `GetProductStats`: `fmt.Sprintf` writes `sortColumn` and
`opts.SortOrder` into the text. -/
def addOrder (opts : StatsOptions) (q : StatsQuery) : StatsQuery :=
  if sortColumn opts = "margin_percent" then
    { q with query := q.query ++ " ORDER BY " ++ sortColumn opts ++ " " ++ opts.SortOrder
        ++ " NULLS LAST" }
  else
    { q with query := q.query ++ " ORDER BY " ++ sortColumn opts ++ " " ++ opts.SortOrder }

/-- The `LIMIT` and `OFFSET` clause of `GetProductStats`. -/
def addLimit (opts : StatsOptions) (q : StatsQuery) : StatsQuery :=
  { query := q.query ++ " LIMIT $" ++ toString q.argIndex ++ " OFFSET $"
      ++ toString (q.argIndex + 1),
    args := q.args ++ [.int opts.Limit, .int opts.Offset], argIndex := q.argIndex }

/-- The query text and the bound values that `GetProductStats` hands to `QueryRows`. -/
def statsQuery (opts : StatsOptions) : StatsQuery :=
  addLimit opts.withDefaults (addOrder opts.withDefaults (addGrouping opts.withDefaults
    (addCategory opts.withDefaults { query := statsSelect, args := [], argIndex := 1 })))

/-- The text of the `ORDER BY` clause for a column and a direction. -/
def orderClause (column direction : String) : String :=
  " ORDER BY " ++ column ++ " " ++ direction
    ++ (if column = "margin_percent" then " NULLS LAST" else "")

/-- Options that ask for a sort order holding a second statement. -/
def hostileOptions : StatsOptions :=
  { Category := "", SortBy := "avg_price", SortOrder := "desc; DROP TABLE sales; --",
    MinSales := 0, Limit := 10, Offset := 0 }

/-! # Theorems -/

/-! ### The handlers and one visit -/

theorem foldl_addSale (since : Time) (sales : List RawSale) :
    ∀ r : ScrapeResult,
      sales.foldl (fun r sale => if !sale.SoldAt.Before since then r.AddSale sale else r) r
        = { r with Sales := r.Sales ++ sales.filter (keep since) } := by
  induction sales with
  | nil => intro r; simp
  | cons a t ih =>
    intro r
    simp only [List.foldl_cons, ih]
    by_cases h : a.SoldAt.Before since <;> simp [h, keep, ScrapeResult.AddSale, List.filter_cons]

theorem handle_sales (since : Time) (r : ScrapeResult) (cb : Callback) :
    (handle since r cb).Sales = r.Sales ++ (parsedSales ⟨[cb], none, 0⟩).filter (keep since) := by
  cases cb with
  | onError e => simp [handle, parsedSales, ScrapeResult.AddError]
  | onResponse c =>
    simp only [handle, parsedSales]
    split <;> simp [ScrapeResult.AddError]
  | onHTML s =>
    simp only [handle]
    rw [foldl_addSale]
    simp [parsedSales]

theorem handle_errors (since : Time) (r : ScrapeResult) (cb : Callback) :
    r.Errors <+: (handle since r cb).Errors := by
  cases cb with
  | onError e => simp [handle, ScrapeResult.AddError]
  | onResponse c =>
    simp only [handle]
    split <;> simp [ScrapeResult.AddError]
  | onHTML s =>
    simp only [handle]
    rw [foldl_addSale]

theorem foldl_handle_sales (since : Time) (cbs : List Callback) :
    ∀ r : ScrapeResult, (cbs.foldl (handle since) r).Sales
      = r.Sales ++ (parsedSales ⟨cbs, none, 0⟩).filter (keep since) := by
  induction cbs with
  | nil => intro r; simp [parsedSales]
  | cons a t ih =>
    intro r
    simp only [List.foldl_cons, ih, handle_sales]
    simp [parsedSales, List.append_assoc]

theorem foldl_handle_errors (since : Time) (cbs : List Callback) :
    ∀ r : ScrapeResult, r.Errors <+: (cbs.foldl (handle since) r).Errors := by
  induction cbs with
  | nil => intro r; simp
  | cons a t ih =>
    intro r
    simp only [List.foldl_cons]
    exact (handle_errors since r a).trans (ih _)


theorem visit_visited (env : Env) (since : Time) (page : Nat) (now : Int) (st : Session) :
    (visit env since page now st).2.2.visited = st.visited ++ [page] := rfl

theorem visit_err (env : Env) (since : Time) (page : Nat) (now : Int) (st : Session) :
    (visit env since page now st).1 = (env.net page st.visited.length).err := rfl

theorem visit_sales (env : Env) (since : Time) (page : Nat) (now : Int) (st : Session) :
    (visit env since page now st).2.2.result.Sales
      = st.result.Sales ++ (parsedSales (env.net page st.visited.length)).filter (keep since) := by
  simp only [visit, foldl_handle_sales]
  rfl

theorem visit_errors (env : Env) (since : Time) (page : Nat) (now : Int) (st : Session) :
    st.result.Errors <+: (visit env since page now st).2.2.result.Errors := by
  simp only [visit]
  exact foldl_handle_errors since _ _

theorem delivered_append (env : Env) (visited : List Nat) (page : Nat) :
    delivered env (visited ++ [page])
      = delivered env visited ++ parsedSales (env.net page visited.length) := by
  simp [delivered, List.enum_append, List.enumFrom]

/-- Invariant-style description of `Retryer.Do`. -/
theorem DoLoop_spec {σ : Type} (r : Retryer) (rnd : Nat → ℚ) (ctx : Context)
    (fn : Int → σ → Option Err × Int × σ) (P Q : σ → Prop)
    (hP : ∀ now st, P st → P (fn now st).2.2)
    (hQ : ∀ now st, P st → (fn now st).1 = none → Q (fn now st).2.2) :
    ∀ (left attempt : Nat) (lastErr : Option Err) (now : Int) (st : σ), P st →
      P (Retryer.DoLoop r rnd ctx fn left attempt lastErr now st).2.2 ∧
      ((Retryer.DoLoop r rnd ctx fn left attempt lastErr now st).1 = none →
        Q (Retryer.DoLoop r rnd ctx fn left attempt lastErr now st).2.2) := by
  intro left
  induction left with
  | zero =>
    intro attempt lastErr now st h
    simp [Retryer.DoLoop, h]
  | succ n ih =>
    intro attempt lastErr now st h
    rw [Retryer.DoLoop]
    by_cases hd : ctx.Done now
    · simp [hd, h, Context.Err]
    · simp only [hd, if_false, Bool.false_eq_true]
      have h1 := hP now st h
      have h2 := hQ now st h
      rcases hfn : fn now st with ⟨e, now1, st1⟩
      rw [hfn] at h1 h2
      cases e with
      | none => exact ⟨h1, fun _ => h2 rfl⟩
      | some err =>
        simp only
        split
        · exact ⟨h1, fun hc => by simp at hc⟩
        · split
          · exact ⟨h1, fun hc => by simp at hc⟩
          · split
            · rename_i t heq
              refine ⟨h1, fun hc => ?_⟩
              have : ctx.Done t = true := by
                unfold sleepOrDone at heq
                cases hda : ctx.doneAt with
                | none => simp [hda] at heq
                | some d =>
                  simp only [hda] at heq
                  split at heq
                  · simp only [Prod.mk.injEq, true_and] at heq
                    subst heq
                    simp [Context.Done, hda]
                  · simp at heq
              simp [Context.Err, this] at hc
            · exact ih _ _ _ _ h1


theorem Do_never_called {σ : Type} (r : Retryer) (rnd : Nat → ℚ) (ctx : Context)
    (fn : Int → σ → Option Err × Int × σ) (now : Int) (st : σ)
    (h : r.config.MaxRetries < 0) :
    (r.Do rnd ctx fn now st).2.2 = st := by
  have h0 : (r.config.MaxRetries + 1).toNat = 0 := by omega
  simp [Retryer.Do, h0, Retryer.DoLoop]

theorem Do_calls_once {σ : Type} (r : Retryer) (rnd : Nat → ℚ) (ctx : Context)
    (fn : Int → σ → Option Err × Int × σ) (P : σ → Prop)
    (hP : ∀ now st, P (fn now st).2.2) (now : Int) (st : σ)
    (hctx : ctx.Done now = false) (h : 0 ≤ r.config.MaxRetries) :
    P (r.Do rnd ctx fn now st).2.2 := by
  obtain ⟨n, hn⟩ : ∃ n, (r.config.MaxRetries + 1).toNat = n + 1 :=
    ⟨r.config.MaxRetries.toNat, by omega⟩
  have keepP := DoLoop_spec r rnd ctx fn P (fun _ => True) (fun now st _ => hP now st)
    (fun _ _ _ _ => trivial)
  rw [Retryer.Do, hn, Retryer.DoLoop]
  simp only [hctx, if_false, Bool.false_eq_true]
  have h1 := hP now st
  rcases hfn : fn now st with ⟨e, now1, st1⟩
  rw [hfn] at h1
  cases e with
  | none => exact h1
  | some err =>
    simp only
    split
    · exact h1
    · split
      · exact h1
      · split
        · exact h1
        · exact (keepP _ _ _ _ _ h1).1

theorem Wait_never_done (rl : RateLimiter) (ctx : Context) (now : Int)
    (hctx : ctx.doneAt = none) : (rl.Wait ctx now).1 = none := by
  unfold RateLimiter.Wait
  cases rl.lastCall with
  | none => rfl
  | some last =>
    simp only
    split
    · simp [sleepOrDone, hctx]
    · rfl

theorem Done_never (ctx : Context) (now : Int) (hctx : ctx.doneAt = none) :
    ctx.Done now = false := by
  simp [Context.Done, hctx]

/-- Case analysis and induction along the page loop. -/
theorem scrapeLoop_induct (env : Env) (retryer : Retryer) (ctx : Context) (since : Time)
    (motive : Nat → Nat → Crawl → Option Err × Crawl → Prop)
    (zero : ∀ page st, motive 0 page st (none, st))
    (done : ∀ left page st, ctx.Done st.now = true →
      motive (left + 1) page st (ctx.Err st.now, st))
    (limited : ∀ left page st err rl now, ctx.Done st.now = false →
      st.rateLimiter.Wait ctx st.now = (some err, rl, now) →
      motive (left + 1) page st (some err, { st with now := now, rateLimiter := rl }))
    (failed : ∀ left page st rl now err now1 session, ctx.Done st.now = false →
      st.rateLimiter.Wait ctx st.now = (none, rl, now) →
      retryer.Do (env.rnd page) ctx (visit env since page) now st.session
        = (some err, now1, session) →
      motive left (page + 1)
        { now := now1, rateLimiter := rl, session := recordFailure page err session }
        (scrapeLoop env retryer ctx since left (page + 1)
          { now := now1, rateLimiter := rl, session := recordFailure page err session }) →
      motive (left + 1) page st
        (scrapeLoop env retryer ctx since left (page + 1)
          { now := now1, rateLimiter := rl, session := recordFailure page err session }))
    (stopped : ∀ left page st rl now now1 session, ctx.Done st.now = false →
      st.rateLimiter.Wait ctx st.now = (none, rl, now) →
      retryer.Do (env.rnd page) ctx (visit env since page) now st.session
        = (none, now1, session) →
      ((recordPage page session).result.SaleCount = 0 ∧ page > 1) →
      motive (left + 1) page st
        (none, { now := now1, rateLimiter := rl, session := recordPage page session }))
    (fetched : ∀ left page st rl now now1 session, ctx.Done st.now = false →
      st.rateLimiter.Wait ctx st.now = (none, rl, now) →
      retryer.Do (env.rnd page) ctx (visit env since page) now st.session
        = (none, now1, session) →
      ¬ ((recordPage page session).result.SaleCount = 0 ∧ page > 1) →
      motive left (page + 1)
        { now := now1, rateLimiter := rl, session := recordPage page session }
        (scrapeLoop env retryer ctx since left (page + 1)
          { now := now1, rateLimiter := rl, session := recordPage page session }) →
      motive (left + 1) page st
        (scrapeLoop env retryer ctx since left (page + 1)
          { now := now1, rateLimiter := rl, session := recordPage page session })) :
    ∀ left page st, motive left page st (scrapeLoop env retryer ctx since left page st) := by
  intro left
  induction left with
  | zero => intro page st; exact zero page st
  | succ n ih =>
    intro page st
    rw [scrapeLoop]
    by_cases hd : ctx.Done st.now
    · simp only [hd, if_true]
      exact done n page st hd
    · have hd' : ctx.Done st.now = false := by simpa using hd
      simp only [hd', if_false, Bool.false_eq_true]
      rcases hw : st.rateLimiter.Wait ctx st.now with ⟨e, rl, now⟩
      cases e with
      | some err => exact limited n page st err rl now hd' hw
      | none =>
        simp only
        rcases hdo : retryer.Do (env.rnd page) ctx (visit env since page) now st.session
          with ⟨e, now1, session⟩
        cases e with
        | some err => exact failed n page st rl now err now1 session hd' hw hdo (ih _ _)
        | none =>
          simp only
          by_cases hc : (recordPage page session).result.SaleCount = 0 ∧ page > 1
          · rw [if_pos hc]
            exact stopped n page st rl now now1 session hd' hw hdo hc
          · rw [if_neg hc]
            exact fetched n page st rl now now1 session hd' hw hdo hc (ih _ _)


theorem PageStep_refl (env : Env) (since : Time) (page : Nat) (st0 : Session) :
    PageStep env since page st0 st0 :=
  ⟨List.prefix_refl _, List.prefix_refl _, fun _ hx => Or.inl hx, id, fun _ h => h⟩

theorem PageStep_visit (env : Env) (since : Time) (page : Nat) (st0 : Session) (now : Int)
    (st : Session) (h : PageStep env since page st0 st) :
    PageStep env since page st0 (visit env since page now st).2.2 := by
  obtain ⟨h1, h2, h3, h4, h5⟩ := h
  refine ⟨?_, ?_, ?_, ?_, ?_⟩
  · rw [visit_visited]
    exact h1.trans (List.prefix_append _ _)
  · exact h2.trans (visit_errors env since page now st)
  · intro x hx
    rw [visit_visited, List.mem_append] at hx
    rcases hx with hx | hx
    · exact h3 x hx
    · right
      simpa using hx
  · intro h0
    have := h4 h0
    unfold SalesInv at this ⊢
    rw [visit_sales, visit_visited, delivered_append, List.filter_append, this]
  · intro hb hp
    rw [visit_visited, List.pairwise_append]
    refine ⟨h5 hb hp, List.pairwise_singleton _ _, ?_⟩
    intro a ha b hb'
    have hb2 : b = page := by simpa using hb'
    subst hb2
    rcases h3 a ha with h | h
    · exact hb a h
    · exact le_of_eq h

theorem Do_visit_spec (env : Env) (since : Time) (page : Nat) (retryer : Retryer)
    (rnd : Nat → ℚ) (ctx : Context) (now : Int) (st0 : Session) :
    PageStep env since page st0 (retryer.Do rnd ctx (visit env since page) now st0).2.2 ∧
    ((retryer.Do rnd ctx (visit env since page) now st0).1 = none →
      ∃ k, (retryer.Do rnd ctx (visit env since page) now st0).2.2.visited[k]? = some page ∧
        (env.net page k).err = none) := by
  apply DoLoop_spec retryer rnd ctx (visit env since page) (PageStep env since page st0)
    (fun st => ∃ k, st.visited[k]? = some page ∧ (env.net page k).err = none)
  · intro now st h
    exact PageStep_visit env since page st0 now st h
  · intro now st _ he
    refine ⟨st.visited.length, ?_, ?_⟩
    · rw [visit_visited]
      simp
    · rw [visit_err] at he
      exact he
  · exact PageStep_refl env since page st0


theorem scrapeLoop_mono (env : Env) (retryer : Retryer) (ctx : Context) (since : Time) :
    ∀ left page st,
      st.session.visited <+: (scrapeLoop env retryer ctx since left page st).2.session.visited ∧
      st.session.result.Errors
        <+: (scrapeLoop env retryer ctx since left page st).2.session.result.Errors ∧
      ∀ x ∈ (scrapeLoop env retryer ctx since left page st).2.session.visited,
        x ∈ st.session.visited ∨ (page ≤ x ∧ x < page + left) := by
  apply scrapeLoop_induct env retryer ctx since
    (fun left page st out =>
      st.session.visited <+: out.2.session.visited ∧
      st.session.result.Errors <+: out.2.session.result.Errors ∧
      ∀ x ∈ out.2.session.visited, x ∈ st.session.visited ∨ (page ≤ x ∧ x < page + left))
  · intro page st
    exact ⟨List.prefix_refl _, List.prefix_refl _, fun x hx => Or.inl hx⟩
  · intro left page st _
    exact ⟨List.prefix_refl _, List.prefix_refl _, fun x hx => Or.inl hx⟩
  · intro left page st err rl now _ _
    exact ⟨List.prefix_refl _, List.prefix_refl _, fun x hx => Or.inl hx⟩
  · intro left page st rl now err now1 session _ _ hdo ih
    have hs := (Do_visit_spec env since page retryer (env.rnd page) ctx now st.session).1
    rw [hdo] at hs
    obtain ⟨h1, h2, h3, -, -⟩ := hs
    obtain ⟨i1, i2, i3⟩ := ih
    refine ⟨h1.trans i1, ?_, ?_⟩
    · refine (h2.trans ?_).trans i2
      simp [recordFailure, ScrapeResult.AddError]
    · intro x hx
      rcases i3 x hx with h | h
      · rcases h3 x h with h | h
        · exact Or.inl h
        · right; omega
      · right; omega
  · intro left page st rl now now1 session _ _ hdo _
    have hs := (Do_visit_spec env since page retryer (env.rnd page) ctx now st.session).1
    rw [hdo] at hs
    obtain ⟨h1, h2, h3, -, -⟩ := hs
    refine ⟨h1, h2, ?_⟩
    intro x hx
    rcases h3 x hx with h | h
    · exact Or.inl h
    · right; omega
  · intro left page st rl now now1 session _ _ hdo _ ih
    have hs := (Do_visit_spec env since page retryer (env.rnd page) ctx now st.session).1
    rw [hdo] at hs
    obtain ⟨h1, h2, h3, -, -⟩ := hs
    obtain ⟨i1, i2, i3⟩ := ih
    refine ⟨h1.trans i1, h2.trans i2, ?_⟩
    intro x hx
    rcases i3 x hx with h | h
    · rcases h3 x h with h | h
      · exact Or.inl h
      · right; omega
    · right; omega

theorem scrapeLoop_sales (env : Env) (retryer : Retryer) (ctx : Context) (since : Time) :
    ∀ left page st,
      (SalesInv env since st.session →
        SalesInv env since (scrapeLoop env retryer ctx since left page st).2.session) ∧
      ((∀ x ∈ st.session.visited, x ≤ page) →
        st.session.visited.Pairwise (fun a b => a ≤ b) →
        (scrapeLoop env retryer ctx since left page st).2.session.visited.Pairwise
          (fun a b => a ≤ b)) := by
  apply scrapeLoop_induct env retryer ctx since
    (fun _ page st out =>
      (SalesInv env since st.session → SalesInv env since out.2.session) ∧
      ((∀ x ∈ st.session.visited, x ≤ page) →
        st.session.visited.Pairwise (fun a b => a ≤ b) →
        out.2.session.visited.Pairwise (fun a b => a ≤ b)))
  · intro page st
    exact ⟨id, fun _ h => h⟩
  · intro left page st _
    exact ⟨id, fun _ h => h⟩
  · intro left page st err rl now _ _
    exact ⟨id, fun _ h => h⟩
  · intro left page st rl now err now1 session _ _ hdo ih
    have hs := (Do_visit_spec env since page retryer (env.rnd page) ctx now st.session).1
    rw [hdo] at hs
    obtain ⟨-, -, h3, h4, h5⟩ := hs
    refine ⟨fun h => ih.1 (h4 h), fun hb hp => ih.2 ?_ (h5 hb hp)⟩
    intro x hx
    rcases h3 x hx with h | h
    · exact Nat.le_succ_of_le (hb x h)
    · omega
  · intro left page st rl now now1 session _ _ hdo _
    have hs := (Do_visit_spec env since page retryer (env.rnd page) ctx now st.session).1
    rw [hdo] at hs
    obtain ⟨-, -, -, h4, h5⟩ := hs
    exact ⟨fun h => h4 h, fun hb hp => h5 hb hp⟩
  · intro left page st rl now now1 session _ _ hdo _ ih
    have hs := (Do_visit_spec env since page retryer (env.rnd page) ctx now st.session).1
    rw [hdo] at hs
    obtain ⟨-, -, h3, h4, h5⟩ := hs
    refine ⟨fun h => ih.1 (h4 h), fun hb hp => ih.2 ?_ (h5 hb hp)⟩
    intro x hx
    rcases h3 x hx with h | h
    · exact Nat.le_succ_of_le (hb x h)
    · omega

theorem scrapeLoop_no_error (env : Env) (retryer : Retryer) (ctx : Context) (since : Time)
    (hctx : ctx.doneAt = none) :
    ∀ left page st, (scrapeLoop env retryer ctx since left page st).1 = none := by
  apply scrapeLoop_induct env retryer ctx since (fun _ _ _ out => out.1 = none)
  · intro page st; rfl
  · intro left page st hd
    rw [Done_never ctx st.now hctx] at hd
    cases hd
  · intro left page st err rl now _ hw
    have := Wait_never_done st.rateLimiter ctx st.now hctx
    rw [hw] at this
    cases this
  · intro left page st rl now err now1 session _ _ _ ih
    exact ih
  · intro left page st rl now now1 session _ _ _ _
    rfl
  · intro left page st rl now now1 session _ _ _ _ ih
    exact ih

theorem scrapeLoop_no_visit (env : Env) (retryer : Retryer) (ctx : Context) (since : Time)
    (hneg : retryer.config.MaxRetries < 0) :
    ∀ left page st,
      (scrapeLoop env retryer ctx since left page st).2.session.visited = st.session.visited := by
  apply scrapeLoop_induct env retryer ctx since
    (fun _ _ st out => out.2.session.visited = st.session.visited)
  · intro page st; rfl
  · intro left page st _; rfl
  · intro left page st err rl now _ _; rfl
  · intro left page st rl now err now1 session _ _ hdo ih
    have := Do_never_called retryer (env.rnd page) ctx (visit env since page) now st.session hneg
    rw [hdo] at this
    simp only at this
    rw [ih]
    simp [recordFailure, this]
  · intro left page st rl now now1 session _ _ hdo _
    have := Do_never_called retryer (env.rnd page) ctx (visit env since page) now st.session hneg
    rw [hdo] at this
    simp only at this
    simp [recordPage, this]
  · intro left page st rl now now1 session _ _ hdo _ ih
    have := Do_never_called retryer (env.rnd page) ctx (visit env since page) now st.session hneg
    rw [hdo] at this
    simp only at this
    rw [ih]
    simp [recordPage, this]

theorem scrapeLoop_visits_first (env : Env) (retryer : Retryer) (ctx : Context) (since : Time)
    (hctx : ctx.doneAt = none) (hpos : 0 ≤ retryer.config.MaxRetries) :
    ∀ left page st, left ≠ 0 →
      page ∈ (scrapeLoop env retryer ctx since left page st).2.session.visited := by
  have key : ∀ page now (st0 : Session),
      page ∈ (retryer.Do (env.rnd page) ctx (visit env since page) now st0).2.2.visited := by
    intro page now st0
    apply Do_calls_once retryer (env.rnd page) ctx (visit env since page)
      (fun s => page ∈ s.visited) _ now st0 (Done_never ctx now hctx) hpos
    intro now st
    rw [visit_visited]
    simp
  intro left page st hl
  obtain ⟨n, rfl⟩ : ∃ n, left = n + 1 := ⟨left - 1, by omega⟩
  rw [scrapeLoop]
  simp only [Done_never ctx st.now hctx, if_false, Bool.false_eq_true]
  have hw := Wait_never_done st.rateLimiter ctx st.now hctx
  rcases hw' : st.rateLimiter.Wait ctx st.now with ⟨e, rl, now⟩
  rw [hw'] at hw
  simp only at hw
  subst hw
  simp only
  have hk := key page now st.session
  rcases hdo : retryer.Do (env.rnd page) ctx (visit env since page) now st.session
    with ⟨e, now1, session⟩
  rw [hdo] at hk
  cases e with
  | some err =>
    simp only
    exact (scrapeLoop_mono env retryer ctx since n (page + 1) _).1.subset hk
  | none =>
    simp only
    split
    · exact hk
    · exact (scrapeLoop_mono env retryer ctx since n (page + 1) _).1.subset hk


theorem prefix_getElem? {α : Type} {l1 l2 : List α} (h : l1 <+: l2) {k : Nat} {a : α}
    (hk : l1[k]? = some a) : l2[k]? = some a := by
  obtain ⟨t, rfl⟩ := h
  have hlt : k < l1.length := by
    by_contra hc
    rw [List.getElem?_eq_none (by omega)] at hk
    cases hk
  rw [List.getElem?_append_left hlt]
  exact hk

theorem scrapeLoop_failed_page (env : Env) (retryer : Retryer) (ctx : Context) (since : Time)
    (hctx : ctx.doneAt = none) :
    ∀ left page st, (∀ x ∈ st.session.visited, x < page) → ∀ p, page ≤ p →
      p ∈ (scrapeLoop env retryer ctx since left page st).2.session.visited →
      (∀ k, (scrapeLoop env retryer ctx since left page st).2.session.visited[k]? = some p →
        (env.net p k).err ≠ none) →
      (∃ e, Err.wrap ("failed to scrape page " ++ toString p) e
          ∈ (scrapeLoop env retryer ctx since left page st).2.session.result.Errors) ∧
      (p + 1 < page + left →
        p + 1 ∈ (scrapeLoop env retryer ctx since left page st).2.session.visited) := by
  apply scrapeLoop_induct env retryer ctx since
    (fun left page st out =>
      (∀ x ∈ st.session.visited, x < page) → ∀ p, page ≤ p →
      p ∈ out.2.session.visited →
      (∀ k, out.2.session.visited[k]? = some p → (env.net p k).err ≠ none) →
      (∃ e, Err.wrap ("failed to scrape page " ++ toString p) e ∈ out.2.session.result.Errors) ∧
      (p + 1 < page + left → p + 1 ∈ out.2.session.visited))
  · intro page st hb p hp hin _
    have := hb p hin
    omega
  · intro left page st hd
    rw [Done_never ctx st.now hctx] at hd
    cases hd
  · intro left page st err rl now _ hw
    have := Wait_never_done st.rateLimiter ctx st.now hctx
    rw [hw] at this
    cases this
  · intro left page st rl now err now1 session _ _ hdo ih hb p hp hin hfail
    have hs := (Do_visit_spec env since page retryer (env.rnd page) ctx now st.session).1
    rw [hdo] at hs
    obtain ⟨-, -, h3, -, -⟩ := hs
    have hb1 : ∀ x ∈ (recordFailure page err session).visited, x < page + 1 := by
      intro x hx
      rcases h3 x hx with h | h
      · exact Nat.lt_succ_of_lt (hb x h)
      · omega
    have mono := scrapeLoop_mono env retryer ctx since left (page + 1)
      { now := now1, rateLimiter := rl, session := recordFailure page err session }
    rcases Nat.eq_or_lt_of_le hp with heq | hlt
    · subst heq
      refine ⟨⟨err, mono.2.1.subset ?_⟩, ?_⟩
      · simp [recordFailure, ScrapeResult.AddError]
      · intro hl
        have hpos : 0 ≤ retryer.config.MaxRetries := by
          by_contra hneg
          have hv := scrapeLoop_no_visit env retryer ctx since (by omega) left (page + 1)
            { now := now1, rateLimiter := rl, session := recordFailure page err session }
          rw [hv] at hin
          have := hb1 page hin
          have hn := Do_never_called retryer (env.rnd page) ctx (visit env since page) now
            st.session (by omega)
          rw [hdo] at hn
          simp only at hn
          have h2 : page ∈ st.session.visited := by
            rw [← hn]
            exact hin
          have := hb page h2
          omega
        exact scrapeLoop_visits_first env retryer ctx since hctx hpos left (page + 1) _
          (by omega)
    · obtain ⟨e, he⟩ := (ih hb1 p (by omega) hin hfail).1
      exact ⟨⟨e, he⟩, fun hl => (ih hb1 p (by omega) hin hfail).2 (by omega)⟩
  · intro left page st rl now now1 session _ _ hdo _ hb p hp hin hfail
    have hs := Do_visit_spec env since page retryer (env.rnd page) ctx now st.session
    rw [hdo] at hs
    obtain ⟨⟨-, -, h3, -, -⟩, hq⟩ := hs
    exfalso
    rcases h3 p hin with h | h
    · have := hb p h
      omega
    · subst h
      obtain ⟨k, hk, hnone⟩ := hq rfl
      exact hfail k hk hnone
  · intro left page st rl now now1 session _ _ hdo _ ih hb p hp hin hfail
    have hs := Do_visit_spec env since page retryer (env.rnd page) ctx now st.session
    rw [hdo] at hs
    obtain ⟨⟨-, -, h3, -, -⟩, hq⟩ := hs
    have hb1 : ∀ x ∈ (recordPage page session).visited, x < page + 1 := by
      intro x hx
      rcases h3 x hx with h | h
      · exact Nat.lt_succ_of_lt (hb x h)
      · omega
    have mono := scrapeLoop_mono env retryer ctx since left (page + 1)
      { now := now1, rateLimiter := rl, session := recordPage page session }
    rcases Nat.eq_or_lt_of_le hp with heq | hlt
    · subst heq
      exfalso
      obtain ⟨k, hk, hnone⟩ := hq rfl
      exact hfail k (prefix_getElem? mono.1 hk) hnone
    · obtain ⟨e, he⟩ := (ih hb1 p (by omega) hin hfail).1
      exact ⟨⟨e, he⟩, fun hl => (ih hb1 p (by omega) hin hfail).2 (by omega)⟩

theorem mem_delivered (env : Env) (visited : List Nat) (k q : Nat) (sale : RawSale)
    (hk : visited[k]? = some q) (hs : sale ∈ parsedSales (env.net q k)) :
    sale ∈ delivered env visited := by
  unfold delivered
  rw [List.mem_flatMap]
  refine ⟨(k, q), ?_, hs⟩
  rw [List.mk_mem_enum_iff_getElem?]
  exact hk


theorem ScrapeWithContext_eq (env : Env) (s : EbayScraper) (ctx : Context) (opts : ScrapeOptions)
    (now : Int) (hq : opts.Query ≠ "") :
    ScrapeWithContext env s ctx opts now =
      { result := some
          { (scrapeLoop env s.retryer ctx (effectiveSince env opts)
              (effectiveMaxPages opts).toNat 1
              { now := now, rateLimiter := s.rateLimiter,
                session := { result := NewScrapeResult, visited := [] } }).2.session.result with
            Duration := (scrapeLoop env s.retryer ctx (effectiveSince env opts)
              (effectiveMaxPages opts).toNat 1
              { now := now, rateLimiter := s.rateLimiter,
                session := { result := NewScrapeResult, visited := [] } }).2.now - now },
        err := (scrapeLoop env s.retryer ctx (effectiveSince env opts)
              (effectiveMaxPages opts).toNat 1
              { now := now, rateLimiter := s.rateLimiter,
                session := { result := NewScrapeResult, visited := [] } }).1,
        visited := (scrapeLoop env s.retryer ctx (effectiveSince env opts)
              (effectiveMaxPages opts).toNat 1
              { now := now, rateLimiter := s.rateLimiter,
                session := { result := NewScrapeResult, visited := [] } }).2.session.visited,
        now := (scrapeLoop env s.retryer ctx (effectiveSince env opts)
              (effectiveMaxPages opts).toNat 1
              { now := now, rateLimiter := s.rateLimiter,
                session := { result := NewScrapeResult, visited := [] } }).2.now,
        rateLimiter := (scrapeLoop env s.retryer ctx (effectiveSince env opts)
              (effectiveMaxPages opts).toNat 1
              { now := now, rateLimiter := s.rateLimiter,
                session := { result := NewScrapeResult, visited := [] } }).2.rateLimiter } := by
  simp [ScrapeWithContext, hq]

theorem effectiveMaxPages_pos (opts : ScrapeOptions) : 0 < effectiveMaxPages opts := by
  unfold effectiveMaxPages DefaultMaxPages
  split <;> omega

/-- C4: with a context that is never done, a page all of whose requests fail does not
abort the session: the call returns a nil error and a result in which the failure of
that page is recorded; the next page of the budget is requested; and every sale parsed
from a later page that passes the date filter is in the result. -/
theorem failed_page_does_not_abort (env : Env) (s : EbayScraper) (ctx : Context)
    (opts : ScrapeOptions) (now : Int) (p : Nat)
    (hq : opts.Query ≠ "") (hctx : ctx.doneAt = none)
    (hvis : p ∈ (ScrapeWithContext env s ctx opts now).visited)
    (hfail : ∀ k, (ScrapeWithContext env s ctx opts now).visited[k]? = some p →
      (env.net p k).err ≠ none) :
    (ScrapeWithContext env s ctx opts now).err = none ∧
    ∃ r, (ScrapeWithContext env s ctx opts now).result = some r ∧
      (∃ e, Err.wrap ("failed to scrape page " ++ toString p) e ∈ r.Errors) ∧
      ((p : Int) + 1 ≤ effectiveMaxPages opts →
        p + 1 ∈ (ScrapeWithContext env s ctx opts now).visited) ∧
      (∀ q k sale, p < q → (ScrapeWithContext env s ctx opts now).visited[k]? = some q →
        sale ∈ parsedSales (env.net q k) → sale.SoldAt.Before (effectiveSince env opts) = false →
        sale ∈ r.Sales) := by
  rw [ScrapeWithContext_eq env s ctx opts now hq] at hvis hfail ⊢
  simp only at hvis hfail ⊢
  have hp1 : 1 ≤ p := by
    rcases (scrapeLoop_mono env s.retryer ctx (effectiveSince env opts) _ 1 _).2.2 p hvis
      with h | h
    · simp at h
    · exact h.1
  have main := scrapeLoop_failed_page env s.retryer ctx (effectiveSince env opts) hctx
    (effectiveMaxPages opts).toNat 1
    { now := now, rateLimiter := s.rateLimiter,
      session := { result := NewScrapeResult, visited := [] } }
    (by simp) p hp1 hvis hfail
  have hsales := (scrapeLoop_sales env s.retryer ctx (effectiveSince env opts)
    (effectiveMaxPages opts).toNat 1
    { now := now, rateLimiter := s.rateLimiter,
      session := { result := NewScrapeResult, visited := [] } }).1
    (by simp [SalesInv, NewScrapeResult, delivered])
  refine ⟨scrapeLoop_no_error env s.retryer ctx _ hctx _ _ _, _, rfl, main.1, ?_, ?_⟩
  · intro hle
    apply main.2
    have := effectiveMaxPages_pos opts
    omega
  · intro q k sale _ hk hs hkeep
    show sale ∈ _
    unfold SalesInv at hsales
    simp only
    rw [hsales, List.mem_filter]
    exact ⟨mem_delivered env _ k q sale hk hs, by simp [keep, hkeep]⟩

/-- C5: the sales of the result are exactly the sales parsed over the requests of the
session, in the order of the requests, with those sold before the cut-off removed; the
requests go through the pages in increasing order; so no sale sold before the cut-off
is in the result and every parsed sale that is not before it is. -/
theorem sales_are_filtered_pages_in_order (env : Env) (s : EbayScraper) (ctx : Context)
    (opts : ScrapeOptions) (now : Int) (hq : opts.Query ≠ "") :
    ∃ r, (ScrapeWithContext env s ctx opts now).result = some r ∧
      r.Sales = (delivered env (ScrapeWithContext env s ctx opts now).visited).filter
        (keep (effectiveSince env opts)) ∧
      (ScrapeWithContext env s ctx opts now).visited.Pairwise (fun a b => a ≤ b) ∧
      (∀ sale ∈ r.Sales, sale.SoldAt.Before (effectiveSince env opts) = false) ∧
      (∀ q k sale, (ScrapeWithContext env s ctx opts now).visited[k]? = some q →
        sale ∈ parsedSales (env.net q k) → sale.SoldAt.Before (effectiveSince env opts) = false →
        sale ∈ r.Sales) := by
  rw [ScrapeWithContext_eq env s ctx opts now hq]
  simp only
  have hs := scrapeLoop_sales env s.retryer ctx (effectiveSince env opts)
    (effectiveMaxPages opts).toNat 1
    { now := now, rateLimiter := s.rateLimiter,
      session := { result := NewScrapeResult, visited := [] } }
  have hsales := hs.1 (by simp [SalesInv, NewScrapeResult, delivered])
  have hsorted := hs.2 (by simp) (by simp)
  unfold SalesInv at hsales
  refine ⟨_, rfl, hsales, hsorted, ?_, ?_⟩
  · intro sale hsale
    simp only at hsale
    rw [hsales, List.mem_filter] at hsale
    simpa [keep] using hsale.2
  · intro q k sale hk hsl hkeep
    simp only
    rw [hsales, List.mem_filter]
    exact ⟨mem_delivered env _ k q sale hk hsl, by simp [keep, hkeep]⟩

/-! ### The crawler at particular sessions -/

/-- C1: pages 1 and 2 are fetched, page 1 yields one sale and page 2 yields none, and
the budget is 3 pages; the session does not stop at page 2: page 3 is requested as
well and `PagesScraped` is 3 (the test `SaleCount() == 0` looks at the sales of the
whole session, which page 1 has made non-zero). -/
theorem early_stop_misses_empty_page :
    (onlyFirstPageHasSales.net 1 0).err = none ∧
    (parsedSales (onlyFirstPageHasSales.net 1 0)).filter (keep ⟨2024, 6, 1, 0⟩) = [sampleSale] ∧
    (onlyFirstPageHasSales.net 2 1).err = none ∧
    parsedSales (onlyFirstPageHasSales.net 2 1) = [] ∧
    (ScrapeWithContext onlyFirstPageHasSales (sampleScraper 3) background (sampleOptions 3) 0).visited
      = [1, 2, 3] ∧
    (ScrapeWithContext onlyFirstPageHasSales (sampleScraper 3) background
      (sampleOptions 3) 0).result.map (fun r => r.PagesScraped) = some 3 ∧
    (ScrapeWithContext onlyFirstPageHasSales (sampleScraper 3) background (sampleOptions 3) 0).err
      = none := by
  decide

/-- C2: page 1 fails (the retryer makes its single attempt), page 2 is fetched, the
budget is 2 pages; one page was fetched successfully, and `PagesScraped` is 2, the
number of the last page fetched. -/
theorem PagesScraped_is_last_page_number :
    (ScrapeWithContext firstPageDown (sampleScraper 0) background (sampleOptions 2) 0).visited
      = [1, 2] ∧
    (firstPageDown.net 1 0).err = some (.msg "connection refused") ∧
    (firstPageDown.net 2 1).err = none ∧
    (ScrapeWithContext firstPageDown (sampleScraper 0) background
      (sampleOptions 2) 0).result.map (fun r => r.PagesScraped) = some 2 ∧
    (ScrapeWithContext firstPageDown (sampleScraper 0) background
      (sampleOptions 2) 0).result.map (fun r => r.Errors)
      = some [.wrap "request failed" (.msg "connection refused"),
          .wrap "failed to scrape page 1" (.retry 1 (.msg "connection refused"))] := by
  decide

/-- C3: with a budget of one page and a deadline at instant 1000, the first attempt at
page 1 fails at instant 5 and the retryer, asleep for 2000 ns, is woken by the deadline
and returns the error of the context; the session records it as a failure of page 1
and returns a nil error. The same budget with two pages returns the error of the
context. A fetch that succeeds while the deadline (instant 3) passes also ends the
one-page session with a nil error. -/
theorem deadline_on_last_page_is_swallowed :
    (ScrapeWithContext firstPageDown (sampleScraper 2) (deadline 1000) (sampleOptions 1) 0).err
      = none ∧
    (ScrapeWithContext firstPageDown (sampleScraper 2) (deadline 1000)
      (sampleOptions 1) 0).result.map (fun r => r.Errors)
      = some [.wrap "request failed" (.msg "connection refused"),
          .wrap "failed to scrape page 1" .deadlineExceeded] ∧
    (ScrapeWithContext firstPageDown (sampleScraper 2) (deadline 1000) (sampleOptions 1) 0).now
      = 1000 ∧
    (ScrapeWithContext firstPageDown (sampleScraper 2) (deadline 1000) (sampleOptions 2) 0).err
      = some .deadlineExceeded ∧
    (ScrapeWithContext onlyFirstPageHasSales (sampleScraper 2) (deadline 3)
      (sampleOptions 1) 0).err = none ∧
    (ScrapeWithContext onlyFirstPageHasSales (sampleScraper 2) (deadline 3)
      (sampleOptions 1) 0).now = 5 := by
  with_unfolding_all decide

/-- C4 at a session: page 1 of 2 fails, page 2 is fetched. -/
theorem failed_page_does_not_abort_witness :
    (ScrapeWithContext firstPageDown (sampleScraper 1) background (sampleOptions 2) 0).err = none ∧
    ∃ r, (ScrapeWithContext firstPageDown (sampleScraper 1) background (sampleOptions 2) 0).result
        = some r ∧
      (∃ e, Err.wrap ("failed to scrape page " ++ toString 1) e ∈ r.Errors) ∧
      (((1 : Nat) : Int) + 1 ≤ effectiveMaxPages (sampleOptions 2) →
        1 + 1 ∈ (ScrapeWithContext firstPageDown (sampleScraper 1) background
          (sampleOptions 2) 0).visited) ∧
      (∀ q k sale, 1 < q →
        (ScrapeWithContext firstPageDown (sampleScraper 1) background
          (sampleOptions 2) 0).visited[k]? = some q →
        sale ∈ parsedSales (firstPageDown.net q k) →
        sale.SoldAt.Before (effectiveSince firstPageDown (sampleOptions 2)) = false →
        sale ∈ r.Sales) :=
  failed_page_does_not_abort firstPageDown (sampleScraper 1) background (sampleOptions 2) 0 1
    (by decide) rfl (by with_unfolding_all decide)
    (fun k _ => by simp [firstPageDown, pageDown])

/-- C5 at a session: page 1 of 2 fails, page 2 is fetched. -/
theorem sales_are_filtered_pages_in_order_witness :
    ∃ r, (ScrapeWithContext firstPageDown (sampleScraper 0) background (sampleOptions 2) 0).result
        = some r ∧
      r.Sales = (delivered firstPageDown (ScrapeWithContext firstPageDown (sampleScraper 0)
        background (sampleOptions 2) 0).visited).filter
          (keep (effectiveSince firstPageDown (sampleOptions 2))) ∧
      (ScrapeWithContext firstPageDown (sampleScraper 0) background
        (sampleOptions 2) 0).visited.Pairwise (fun a b => a ≤ b) ∧
      (∀ sale ∈ r.Sales,
        sale.SoldAt.Before (effectiveSince firstPageDown (sampleOptions 2)) = false) ∧
      (∀ q k sale, (ScrapeWithContext firstPageDown (sampleScraper 0) background
          (sampleOptions 2) 0).visited[k]? = some q →
        sale ∈ parsedSales (firstPageDown.net q k) →
        sale.SoldAt.Before (effectiveSince firstPageDown (sampleOptions 2)) = false →
        sale ∈ r.Sales) :=
  sales_are_filtered_pages_in_order firstPageDown (sampleScraper 0) background (sampleOptions 2) 0
    (by decide)

/-! ### Lemmas on the matcher -/

theorem run_seq_head (a b : Re) (s : Str) (caps : Caps) (x y : Str × Caps)
    (ha : ∃ tl, Re.run a s caps = x :: tl) (hb : ∃ tl, Re.run b x.1 x.2 = y :: tl) :
    ∃ tl, Re.run (.seq a b) s caps = y :: tl := by
  obtain ⟨ta, ha⟩ := ha
  obtain ⟨tb, hb⟩ := hb
  exact ⟨tb ++ ta.flatMap (fun r => Re.run b r.1 r.2), by simp [Re.run, ha, hb]⟩

theorem run_alt_left (a b : Re) (s : Str) (caps : Caps) (x : Str × Caps)
    (ha : ∃ tl, Re.run a s caps = x :: tl) : ∃ tl, Re.run (.alt a b) s caps = x :: tl := by
  obtain ⟨ta, ha⟩ := ha
  exact ⟨ta ++ Re.run b s caps, by simp [Re.run, ha]⟩

theorem run_alt_right (a b : Re) (s : Str) (caps : Caps) (x : Str × Caps)
    (ha : Re.run a s caps = []) (hb : ∃ tl, Re.run b s caps = x :: tl) :
    ∃ tl, Re.run (.alt a b) s caps = x :: tl := by
  obtain ⟨tb, hb⟩ := hb
  exact ⟨tb, by simp [Re.run, ha, hb]⟩

theorem run_opt_some (a : Re) (s : Str) (caps : Caps) (x : Str × Caps)
    (ha : ∃ tl, Re.run a s caps = x :: tl) : ∃ tl, Re.run (.opt a) s caps = x :: tl := by
  obtain ⟨ta, ha⟩ := ha
  exact ⟨ta ++ [(s, caps)], by simp [Re.run, ha]⟩

theorem run_group_head (i : Nat) (a : Re) (s : Str) (caps : Caps) (x : Str × Caps)
    (ha : ∃ tl, Re.run a s caps = x :: tl) :
    ∃ tl, Re.run (.group i a) s caps
      = (x.1, (i, s.take (s.length - x.1.length)) :: x.2.filter (fun e => e.1 ≠ i)) :: tl := by
  obtain ⟨ta, ha⟩ := ha
  refine ⟨ta.map (fun r =>
    (r.1, (i, s.take (s.length - r.1.length)) :: r.2.filter (fun e => e.1 ≠ i))), ?_⟩
  simp only [Re.run, ha, List.map_cons]

theorem run_cls_cons (p : Char → Bool) (c : Char) (cs : Str) (caps : Caps) (h : p c = true) :
    Re.run (.cls p) (c :: cs) caps = [(cs, caps)] := by
  simp [Re.run, h]

theorem run_cls_fail (p : Char → Bool) (s : Str) (caps : Caps)
    (h : ∀ c ∈ s.head?, p c = false) : Re.run (.cls p) s caps = [] := by
  cases s with
  | nil => simp [Re.run]
  | cons c cs =>
    have := h c (by simp)
    simp [Re.run, this]

theorem starLoop_cls (p : Char → Bool) (rest : Str) (caps : Caps)
    (hrest : ∀ c ∈ rest.head?, p c = false) :
    ∀ (ds : Str) (fuel : Nat), (∀ c ∈ ds, p c = true) → ds.length ≤ fuel →
      ∃ tl, Re.starLoop (Re.run (.cls p)) fuel (ds ++ rest) caps = (rest, caps) :: tl := by
  intro ds
  induction ds with
  | nil =>
    intro fuel _ _
    cases fuel with
    | zero => exact ⟨[], by simp [Re.starLoop]⟩
    | succ f => exact ⟨[], by simp [Re.starLoop, run_cls_fail p rest caps hrest]⟩
  | cons d ds ih =>
    intro fuel hall hlen
    cases fuel with
    | zero => simp at hlen
    | succ f =>
      have hd : p d = true := hall d (by simp)
      obtain ⟨tl, htl⟩ := ih f (fun c hc => hall c (by simp [hc])) (by simpa using hlen)
      refine ⟨tl ++ [(d :: ds ++ rest, caps)], ?_⟩
      simp only [Re.starLoop, List.cons_append, run_cls_cons p d (ds ++ rest) caps hd]
      simp [htl]

theorem run_star_cls (p : Char → Bool) (ds rest : Str) (caps : Caps)
    (hall : ∀ c ∈ ds, p c = true) (hrest : ∀ c ∈ rest.head?, p c = false) :
    ∃ tl, Re.run (.star (.cls p)) (ds ++ rest) caps = (rest, caps) :: tl := by
  rw [Re.run]
  exact starLoop_cls p rest caps hrest ds _ hall (by simp)

theorem run_lit (t s : Str) (caps : Caps) :
    Re.run (.lit t) (t ++ s) caps = [(s, caps)] := by
  simp [Re.run]


/-! ### Lemmas on the string helpers -/

theorem isDigit_cases (c : Char) (h : isDigit c = true) :
    c = '0' ∨ c = '1' ∨ c = '2' ∨ c = '3' ∨ c = '4' ∨ c = '5' ∨ c = '6' ∨ c = '7' ∨
      c = '8' ∨ c = '9' := by
  simp only [isDigit, Bool.and_eq_true, decide_eq_true_eq] at h
  obtain ⟨h1, h2⟩ := h
  have h1n : 48 ≤ c.toNat := h1
  have h2n : c.toNat ≤ 57 := h2
  have hc : c = Char.ofNat c.toNat := (Char.ofNat_toNat c).symm
  generalize c.toNat = n at h1n h2n hc
  subst hc
  interval_cases n <;> decide

/-- A digit is none of the other runes the price code looks for. -/
theorem digit_facts (c : Char) (h : isDigit c = true) :
    isSpace c = false ∧ c ≠ ',' ∧ c ≠ ' ' ∧ c ≠ '\u00a0' ∧ c ≠ 'à' ∧ c ≠ '.' ∧ c ≠ '-' ∧
      c ≠ '+' := by
  rcases isDigit_cases c h with h | h | h | h | h | h | h | h | h | h <;> subst h <;> decide

theorem ReplaceAll_single (x : Char) (new : Str) (s : Str) :
    ReplaceAll s [x] new = s.flatMap (fun c => if c = x then new else [c]) := by
  unfold ReplaceAll
  induction s with
  | nil => simp [ReplaceAll.go]
  | cons c cs ih =>
    by_cases h : c = x
    · subst h
      simp [ReplaceAll.go, List.isPrefixOf, ih]
    · have h2 : ¬ x = c := fun e => h e.symm
      simp [ReplaceAll.go, List.isPrefixOf, ih, h, h2]

theorem ReplaceAll_absent (x : Char) (new : Str) (s : Str) (h : x ∉ s) :
    ReplaceAll s [x] new = s := by
  rw [ReplaceAll_single]
  induction s with
  | nil => rfl
  | cons c cs ih =>
    have hc : ¬ c = x := fun e => h (by simp [e])
    have hcs : x ∉ cs := fun e => h (by simp [e])
    simp only [List.flatMap_cons, hc, if_false, ih hcs]
    rfl

theorem ReplaceAll_append (x : Char) (new : Str) (s t : Str) :
    ReplaceAll (s ++ t) [x] new = ReplaceAll s [x] new ++ ReplaceAll t [x] new := by
  simp [ReplaceAll_single]

theorem Contains_single (x : Char) (s : Str) : Contains s [x] = decide (x ∈ s) := by
  induction s with
  | nil => simp [Contains]
  | cons c cs ih =>
    by_cases h : x = c
    · simp [Contains, List.isPrefixOf, h]
    · simp [Contains, List.isPrefixOf, h, ih]

theorem TrimSpace_id (s : Str) (h1 : ∀ c ∈ s.head?, isSpace c = false)
    (h2 : ∀ c ∈ s.reverse.head?, isSpace c = false) : TrimSpace s = s := by
  have drop_id : ∀ l : Str, (∀ c ∈ l.head?, isSpace c = false) → l.dropWhile isSpace = l := by
    intro l hl
    cases l with
    | nil => rfl
    | cons c cs => simp [List.dropWhile, hl c (by simp)]
  unfold TrimSpace
  rw [drop_id s h1, drop_id s.reverse h2, List.reverse_reverse]

theorem takeWhile_digits (a rest : Str) (ha : ∀ c ∈ a, isDigit c = true)
    (hr : ∀ c ∈ rest.head?, isDigit c = false) :
    (a ++ rest).takeWhile isDigit = a ∧ (a ++ rest).dropWhile isDigit = rest := by
  induction a with
  | nil =>
    cases rest with
    | nil => simp
    | cons c cs => simp [List.takeWhile, List.dropWhile, hr c (by simp)]
  | cons d ds ih =>
    have hd := ha d (by simp)
    have := ih (fun c hc => ha c (by simp [hc]))
    simp [List.takeWhile, List.dropWhile, hd, this]

theorem digitsVal_append (a b : Str) :
    digitsVal (a ++ b) = digitsVal a * 10 ^ b.length + digitsVal b := by
  unfold digitsVal
  rw [List.foldl_append]
  generalize List.foldl (fun acc c => acc * 10 + digitVal c) 0 a = n
  induction b generalizing n with
  | nil => simp
  | cons c cs ih =>
    simp only [List.foldl_cons, List.length_cons]
    rw [ih, ih (0 * 10 + digitVal c)]
    ring


/-- The price pattern on `<digits>[.,]<digits><spaces><currency>`: the match starts
at the first rune and group 1 is the number. -/
theorem priceRegex_match (a b w cur : Str) (sep : Char) (ha : a ≠ [])
    (had : ∀ c ∈ a, isDigit c = true) (hbd : ∀ c ∈ b, isDigit c = true)
    (hw : ∀ c ∈ w, c = ' ') (hsep : sep = ',' ∨ sep = '.')
    (hcur : cur = "€".toList ∨ cur = "EUR".toList) :
    FindStringSubmatch priceRegex 1 (a ++ sep :: (b ++ (w ++ cur)))
      = [a ++ sep :: (b ++ (w ++ cur)), a ++ sep :: b] := by
  obtain ⟨a0, a1, rfl⟩ : ∃ a0 a1, a = a0 :: a1 := by
    cases a with
    | nil => exact absurd rfl ha
    | cons x xs => exact ⟨x, xs, rfl⟩
  have ha0 : isDigit a0 = true := had a0 (by simp)
  have ha1 : ∀ c ∈ a1, isDigit c = true := fun c hc => had c (by simp [hc])
  have hsepd : isDigit sep = false := by
    rcases hsep with h | h <;> subst h <;> decide
  have hcurd : ∀ c ∈ cur.head?, isDigit c = false ∧ Re.space.run [c] [] = [] := by
    intro c hc
    rcases hcur with h | h <;> subst h <;> simp at hc <;> subst hc <;> decide
  -- the number
  have h1 : ∃ tl, Re.run (Re.plus Re.digit) (a0 :: (a1 ++ sep :: (b ++ (w ++ cur)))) []
      = (sep :: (b ++ (w ++ cur)), []) :: tl := by
    apply run_seq_head _ _ _ _ (a1 ++ sep :: (b ++ (w ++ cur)), [])
    · exact ⟨[], run_cls_cons isDigit a0 _ [] ha0⟩
    · exact run_star_cls isDigit a1 _ [] ha1 (by simp [hsepd])
  have h2 : ∃ tl, Re.run (.opt (.cls (fun c => c == '.' || c == ',')))
      (sep :: (b ++ (w ++ cur))) [] = (b ++ (w ++ cur), []) :: tl := by
    apply run_opt_some
    refine ⟨[], run_cls_cons _ sep _ [] ?_⟩
    rcases hsep with h | h <;> subst h <;> decide
  have hwd : ∀ c ∈ (w ++ cur).head?, isDigit c = false := by
    intro c hc
    cases w with
    | nil => exact (hcurd c (by simpa using hc)).1
    | cons x xs =>
      have hx : x = ' ' := hw x (by simp)
      simp at hc
      subst hc
      subst hx
      decide
  have h3 : ∃ tl, Re.run (.star Re.digit) (b ++ (w ++ cur)) [] = (w ++ cur, []) :: tl :=
    run_star_cls isDigit b _ [] hbd hwd
  have h4 : ∃ tl, Re.run (.seq (Re.plus Re.digit)
      (.seq (.opt (.cls (fun c => c == '.' || c == ','))) (.star Re.digit)))
      (a0 :: (a1 ++ sep :: (b ++ (w ++ cur)))) [] = (w ++ cur, []) :: tl :=
    run_seq_head _ _ _ _ _ _ h1 (run_seq_head _ _ _ _ _ _ h2 h3)
  have h5 := run_group_head 1 _ _ _ _ h4
  have htake : List.take ((a0 :: (a1 ++ sep :: (b ++ (w ++ cur)))).length - (w ++ cur).length)
      (a0 :: (a1 ++ sep :: (b ++ (w ++ cur)))) = a0 :: (a1 ++ sep :: b) := by
    have e : a0 :: (a1 ++ sep :: (b ++ (w ++ cur))) = (a0 :: (a1 ++ sep :: b)) ++ (w ++ cur) := by
      simp
    rw [e, List.length_append, Nat.add_sub_cancel, List.take_left']
    rfl
  simp only [htake, List.filter_nil] at h5
  -- the blanks and the currency marker
  have h6 : ∃ tl, Re.run (.star Re.space) (w ++ cur) [(1, a0 :: (a1 ++ sep :: b))]
      = (cur, [(1, a0 :: (a1 ++ sep :: b))]) :: tl := by
    apply run_star_cls
    · intro c hc
      rw [hw c hc]
      rfl
    · intro c hc
      rcases hcur with h | h <;> subst h <;> simp at hc <;> subst hc <;> rfl
  have h7 : ∃ tl, Re.run (.alt (.lit "EUR".toList) (.lit "€".toList)) cur
      [(1, a0 :: (a1 ++ sep :: b))] = ([], [(1, a0 :: (a1 ++ sep :: b))]) :: tl := by
    rcases hcur with h | h <;> subst h
    · apply run_alt_right
      · rfl
      · exact ⟨[], rfl⟩
    · apply run_alt_left
      exact ⟨[], rfl⟩
  have h8 : ∃ tl, Re.run priceRegex (a0 :: (a1 ++ sep :: (b ++ (w ++ cur)))) []
      = ([], [(1, a0 :: (a1 ++ sep :: b))]) :: tl :=
    run_seq_head _ _ _ _ _ _ h5 (run_seq_head _ _ _ _ _ _ h6 h7)
  obtain ⟨tl, h9⟩ := run_group_head 0 _ _ _ _ h8
  show FindStringSubmatch priceRegex 1 (a0 :: (a1 ++ sep :: (b ++ (w ++ cur)))) = _
  rw [FindStringSubmatch, h9]
  simp [List.range, List.range.loop, capture, List.find?]


/-- C7: on a non-empty digit string `a`, a comma, a digit string `b`, optional blanks
(spaces or non-breaking spaces) and the currency marker `€` or `EUR`, `parsePrice`
returns the decimal value `a.b` (the statement does not need `b` to be non-empty). -/
theorem parsePrice_comma_decimal (a b w cur : Str) (ha : a ≠ [])
    (had : ∀ c ∈ a, isDigit c = true) (hbd : ∀ c ∈ b, isDigit c = true)
    (hw : ∀ c ∈ w, c = ' ' ∨ c = '\u00a0')
    (hcur : cur = "€".toList ∨ cur = "EUR".toList) :
    parsePrice (a ++ ',' :: (b ++ (w ++ cur)))
        = (digitsVal a : ℚ) + (digitsVal b : ℚ) / (10 : ℚ) ^ b.length := by
  obtain ⟨a0, a1, rfl⟩ : ∃ a0 a1, a = a0 :: a1 := by
    cases a with
    | nil => exact absurd rfl ha
    | cons x xs => exact ⟨x, xs, rfl⟩
  have ha0 := digit_facts a0 (had a0 (by simp))
  have hcur_ne : cur ≠ [] := by
    rcases hcur with h | h <;> subst h <;> decide
  -- TrimSpace leaves the text as it is
  have s1 : TrimSpace (a0 :: a1 ++ ',' :: (b ++ (w ++ cur)))
      = a0 :: a1 ++ ',' :: (b ++ (w ++ cur)) := by
    apply TrimSpace_id
    · intro c hc
      simp at hc
      subst hc
      exact ha0.1
    · intro c hc
      have e : (a0 :: a1 ++ ',' :: (b ++ (w ++ cur))).reverse
          = cur.reverse ++ (a0 :: a1 ++ ',' :: (b ++ w)).reverse := by
        simp
      rw [e] at hc
      rcases hcur with h | h <;> subst h <;> simp at hc <;> subst hc <;> decide
  -- non-breaking spaces become spaces
  have hnb : ∀ l : Str, (∀ c ∈ l, isDigit c = true) → ('\u00a0' : Char) ∉ l :=
    fun l hl hm => (digit_facts _ (hl _ hm)).2.2.2.1 rfl
  have s2 : ReplaceAll (a0 :: a1 ++ ',' :: (b ++ (w ++ cur))) ['\u00a0'] [' ']
      = a0 :: a1 ++ ',' :: (b ++ (ReplaceAll w ['\u00a0'] [' '] ++ cur)) := by
    have e : a0 :: a1 ++ ',' :: (b ++ (w ++ cur)) = (a0 :: a1) ++ ([','] ++ (b ++ (w ++ cur))) := by
      simp
    rw [e, ReplaceAll_append, ReplaceAll_append, ReplaceAll_append, ReplaceAll_append,
      ReplaceAll_absent _ _ (a0 :: a1) (hnb _ had), ReplaceAll_absent _ _ b (hnb _ hbd),
      ReplaceAll_absent _ _ [','] (by decide),
      ReplaceAll_absent _ _ cur (by rcases hcur with h | h <;> subst h <;> decide)]
    simp
  have hw2 : ∀ c ∈ ReplaceAll w ['\u00a0'] [' '], c = ' ' := by
    intro c hc
    rw [ReplaceAll_single, List.mem_flatMap] at hc
    obtain ⟨x, hx, hcx⟩ := hc
    rcases hw x hx with h | h <;> subst h <;> simpa using hcx
  have s3 := priceRegex_match (a0 :: a1) b (ReplaceAll w ['\u00a0'] [' ']) cur ',' ha had hbd
    hw2 (Or.inl rfl) hcur
  -- the decimal separator
  have hcm : ∀ l : Str, (∀ c ∈ l, isDigit c = true) → (',' : Char) ∉ l :=
    fun l hl hm => (digit_facts _ (hl _ hm)).2.1 rfl
  have s4 : ReplaceAll (a0 :: a1 ++ ',' :: b) [','] ['.'] = a0 :: a1 ++ '.' :: b := by
    have e : a0 :: a1 ++ ',' :: b = (a0 :: a1) ++ ([','] ++ b) := by simp
    rw [e, ReplaceAll_append, ReplaceAll_append, ReplaceAll_absent _ _ (a0 :: a1) (hcm _ had),
      ReplaceAll_absent _ _ b (hcm _ hbd)]
    simp [ReplaceAll_single]
  have hnum : ∀ c ∈ a0 :: a1 ++ '.' :: b, isDigit c = true ∨ c = '.' := by
    intro c hc
    simp only [List.mem_append, List.mem_cons] at hc
    rcases hc with h | h | h
    · exact Or.inl (had c (by simp [h]))
    · exact Or.inr h
    · exact Or.inl (hbd c h)
  have s5 : ReplaceAll (a0 :: a1 ++ '.' :: b) [' '] [] = a0 :: a1 ++ '.' :: b := by
    apply ReplaceAll_absent
    intro hm
    rcases hnum _ hm with h | h
    · exact (digit_facts _ h).2.2.1 rfl
    · cases h
  have s6 : Contains (a0 :: a1 ++ '.' :: b) ['à'] = false := by
    rw [Contains_single]
    simp only [decide_eq_false_iff_not]
    intro hm
    rcases hnum _ hm with h | h
    · exact (digit_facts _ h).2.2.2.2.1 rfl
    · cases h
  -- the conversion
  have s7 : ParseFloat (a0 :: a1 ++ '.' :: b)
      = ((digitsVal (a0 :: a1 ++ b) : ℕ) : ℚ) / (10 : ℚ) ^ b.length := by
    have hm : parseMantissa (a0 :: a1 ++ '.' :: b)
        = some (((digitsVal (a0 :: a1 ++ b) : ℕ) : ℚ) / (10 : ℚ) ^ b.length) := by
      have tw := takeWhile_digits (a0 :: a1) ('.' :: b) had (by simp; decide)
      unfold parseMantissa
      simp only [tw.1, tw.2]
      have hall : b.all isDigit = true := by
        rw [List.all_eq_true]
        exact hbd
      simp [hall]
    have hminus : a0 ≠ '-' := ha0.2.2.2.2.2.2.1
    have hplus : a0 ≠ '+' := ha0.2.2.2.2.2.2.2
    show ParseFloat (a0 :: (a1 ++ '.' :: b)) = _
    unfold ParseFloat
    split
    · rename_i r heq
      exact absurd (List.cons.inj heq).1 hminus
    · rename_i r heq
      exact absurd (List.cons.inj heq).1 hplus
    · rw [← List.cons_append, hm]
      rfl
  have e1 : "\u00a0".toList = ['\u00a0'] := rfl
  have e2 : " ".toList = [' '] := rfl
  have e3 : ",".toList = [','] := rfl
  have e4 : ".".toList = ['.'] := rfl
  have e5 : "à".toList = ['à'] := rfl
  simp only [parsePrice, e1, e2, e3, e4, e5, s1, s2, s3]
  simp only [List.length_cons, List.length_nil, List.getD_cons_succ, List.getD_cons_zero,
    show ¬ (0 + 1 + 1 < 2) by decide, if_false, s4, s5, s6, Bool.false_eq_true, s7]
  rw [digitsVal_append]
  have hpos : (10 : ℚ) ^ b.length ≠ 0 := by positivity
  push_cast
  field_simp

/-- C7, at the text of the specification: `"159,99 €"` gives 159.99. -/
theorem parsePrice_comma_decimal_witness : parsePrice "159,99 €".toList = 159.99 := by
  have h := parsePrice_comma_decimal "159".toList "99".toList " ".toList "€".toList
    (by decide) (by decide) (by decide) (by decide) (by decide)
  have e : "159".toList ++ ',' :: ("99".toList ++ (" ".toList ++ "€".toList))
      = "159,99 €".toList := by decide
  rw [e] at h
  rw [h]
  have d1 : digitsVal "159".toList = 159 := by decide
  have d2 : digitsVal "99".toList = 99 := by decide
  rw [d1, d2]
  norm_num

/-! ### The month abbreviations -/

theorem monthRegex_abbrevs : ∀ am ∈ monthAbbrevs,
    (∀ caps, ∃ tl, Re.run monthRegex am.1.toList caps = ([], caps) :: tl) ∧
    (∀ caps, Re.run Re.space am.1.toList caps = []) ∧
    parseMonth am.1.toList = am.2 ∧ ToLower am.1.toList = am.1.toList ∧
    (∀ c ∈ am.1.toList.reverse.head?, isSpace c = false) ∧ 1 ≤ am.2 ∧ am.2 ≤ 12 ∧
    am.1.toList ≠ [] := by
  simp only [monthAbbrevs, List.forall_mem_cons]
  refine ⟨?_, ?_, ?_, ?_, ?_, ?_, ?_, ?_, ?_, ?_, ?_, ?_, ?_, ?_, ?_, ?_, ?_, ?_, ?_, ?_, ?_, ?_, ?_⟩
  all_goals first
    | (intro am ham; cases ham)
    | exact ⟨fun caps => ⟨_, rfl⟩, fun caps => rfl, by decide, by decide, by decide, by decide,
        by decide, by decide⟩

/-! ### Calendar lemmas -/

theorem daysIn_range (y m : Int) : 28 ≤ daysIn y m ∧ daysIn y m ≤ 31 := by
  unfold daysIn
  split
  · split <;> omega
  · split <;> omega

theorem daysIn_december (y : Int) : daysIn y 12 = 31 := by
  simp [daysIn]

theorem Date_valid (y m d n : Int) (hm1 : 1 ≤ m) (hm2 : m ≤ 12) (hd1 : 1 ≤ d)
    (hd2 : d ≤ daysIn y m) : Date y m d n = ⟨y, m, d, n⟩ := by
  have e1 : y + (m - 1) / 12 = y := by omega
  have e2 : (m - 1) % 12 + 1 = m := by omega
  have h1 : ¬ d < 1 := by omega
  have h2 : ¬ d > daysIn y m := by omega
  simp only [Date, e1, e2]
  rw [normDay]
  simp [h1, h2]

theorem Date_same_year (y m d n : Int) (hm1 : 1 ≤ m) (hm2 : m ≤ 12) (hd1 : 1 ≤ d)
    (hd2 : d ≤ 31) :
    ∃ m1 d1, Date y m d n = ⟨y, m1, d1, n⟩ ∧ 1 ≤ m1 ∧ m1 ≤ 12 ∧ 1 ≤ d1 ∧ d1 ≤ 31 := by
  by_cases hv : d ≤ daysIn y m
  · exact ⟨m, d, Date_valid y m d n hm1 hm2 hd1 hv, hm1, hm2, hd1, hd2⟩
  · have hm12 : m ≠ 12 := by
      intro h
      rw [h, daysIn_december] at hv
      omega
    have r1 := daysIn_range y m
    have r2 := daysIn_range y (m + 1)
    refine ⟨m + 1, d - daysIn y m, ?_, by omega, by omega, by omega, by omega⟩
    have e1 : y + (m - 1) / 12 = y := by omega
    have e2 : (m - 1) % 12 + 1 = m := by omega
    obtain ⟨k, hk⟩ : ∃ k, d.natAbs + 1 = k + 2 := ⟨d.natAbs - 1, by omega⟩
    have h1 : ¬ d < 1 := by omega
    have h2 : d > daysIn y m := by omega
    have h3 : ¬ d - daysIn y m < 1 := by omega
    have h4 : ¬ d - daysIn y m > daysIn y (m + 1) := by omega
    simp only [Date, e1, e2, hk]
    rw [normDay]
    simp only [h1, h2, hm12, if_false, if_true]
    rw [normDay]
    simp [h3, h4]


/-! ### The date pattern on `<day> <month>` -/

theorem run_opt_none (a : Re) (s : Str) (caps : Caps) (ha : Re.run a s caps = []) :
    Re.run (.opt a) s caps = [(s, caps)] := by
  simp [Re.run, ha]

theorem toLowerRune_digit (c : Char) (h : isDigit c = true) :
    toLowerRune c = c ∧ c ≠ 'v' ∧ c ≠ 's' := by
  rcases isDigit_cases c h with h | h | h | h | h | h | h | h | h | h <;> subst h <;> decide

/-- The date pattern on one or two digits, a blank and a month abbreviation: the four
submatches. -/
theorem dateRegex_match (c1 : Char) (t : Str) (am : String × Int) (hc1 : isDigit c1 = true)
    (ht : t = [] ∨ ∃ c2, isDigit c2 = true ∧ t = [c2]) (ham : am ∈ monthAbbrevs) :
    FindStringSubmatch dateRegex 3 (c1 :: (t ++ ' ' :: am.1.toList))
      = [c1 :: (t ++ ' ' :: am.1.toList), c1 :: t, am.1.toList, []] := by
  obtain ⟨hmon, hnsp, -, -, -, -, -, -⟩ := monthRegex_abbrevs am ham
  -- group 1: the day
  have h1 : ∃ tl, Re.run (.seq Re.digit (.opt Re.digit)) (c1 :: (t ++ ' ' :: am.1.toList)) []
      = (' ' :: am.1.toList, []) :: tl := by
    apply run_seq_head _ _ _ _ (t ++ ' ' :: am.1.toList, [])
    · exact ⟨[], run_cls_cons isDigit c1 _ [] hc1⟩
    · rcases ht with h | ⟨c2, hc2, h⟩ <;> subst h
      · exact ⟨[], run_opt_none _ _ _ (run_cls_fail _ _ _ (by simp; decide))⟩
      · exact run_opt_some _ _ _ _ ⟨[], run_cls_cons isDigit c2 _ [] hc2⟩
  have h2 := run_group_head 1 _ _ _ _ h1
  have htake : List.take ((c1 :: (t ++ ' ' :: am.1.toList)).length - (' ' :: am.1.toList).length)
      (c1 :: (t ++ ' ' :: am.1.toList)) = c1 :: t := by
    have e : c1 :: (t ++ ' ' :: am.1.toList) = (c1 :: t) ++ (' ' :: am.1.toList) := by simp
    rw [e, List.length_append, Nat.add_sub_cancel, List.take_left']
    rfl
  simp only [htake, List.filter_nil] at h2
  -- the blank
  have h3 : ∃ tl, Re.run (Re.plus Re.space) (' ' :: am.1.toList) [(1, c1 :: t)]
      = (am.1.toList, [(1, c1 :: t)]) :: tl := by
    apply run_seq_head _ _ _ _ (am.1.toList, [(1, c1 :: t)])
    · exact ⟨[], rfl⟩
    · rw [Re.run]
      cases hl : am.1.toList.length with
      | zero => exact ⟨[], by simp [Re.starLoop]⟩
      | succ n =>
        refine ⟨[], ?_⟩
        rw [Re.starLoop, hnsp [(1, c1 :: t)]]
        rfl
  -- group 2: the month
  have h4 := run_group_head 2 _ _ _ _ (hmon [(1, c1 :: t)])
  have htake2 : List.take (am.1.toList.length - ([] : Str).length) am.1.toList = am.1.toList := by
    simp
  simp only [htake2] at h4
  have hf : List.filter (fun e : Nat × Str => decide (e.1 ≠ 2)) [(1, c1 :: t)] = [(1, c1 :: t)] := by
    simp
  rw [hf] at h4
  -- nothing is left for the year
  have h5 : ∃ tl, Re.run (.seq (.star Re.space)
      (.opt (.group 3 (.seq Re.digit (.seq Re.digit (.seq Re.digit Re.digit))))))
      [] [(2, am.1.toList), (1, c1 :: t)] = ([], [(2, am.1.toList), (1, c1 :: t)]) :: tl :=
    ⟨[], rfl⟩
  have h6 : ∃ tl, Re.run dateRegex (c1 :: (t ++ ' ' :: am.1.toList)) []
      = ([], [(2, am.1.toList), (1, c1 :: t)]) :: tl :=
    run_seq_head _ _ _ _ _ _ h2 (run_seq_head _ _ _ _ _ _ h3 (run_seq_head _ _ _ _ _ _ h4 h5))
  obtain ⟨tl, h7⟩ := run_group_head 0 _ _ _ _ h6
  rw [FindStringSubmatch, h7]
  simp [List.range, List.range.loop, capture, List.find?]


/-- What `parseSoldDate` makes of the text before matching. -/
theorem soldFragment_prepared (pre : String) (c1 : Char) (t : Str) (am : String × Int)
    (hpre : pre ∈ ["", "Vendu le ", "Sold "]) (hc1 : isDigit c1 = true)
    (ht : ∀ c ∈ t, isDigit c = true) (ham : am ∈ monthAbbrevs) :
    TrimPrefix (TrimPrefix (ToLower (TrimSpace (soldFragment pre (c1 :: t) am.1)))
      "vendu le ".toList) "sold ".toList = c1 :: (t ++ ' ' :: am.1.toList) := by
  obtain ⟨-, -, -, hlow, hlast, -, -, hne⟩ := monthRegex_abbrevs am ham
  have hd1 := toLowerRune_digit c1 hc1
  have hlt : ToLower t = t := by
    unfold ToLower
    conv_rhs => rw [← List.map_id t]
    apply List.map_congr_left
    intro c hc
    exact (toLowerRune_digit c (ht c hc)).1
  have s1 : TrimSpace (soldFragment pre (c1 :: t) am.1) = soldFragment pre (c1 :: t) am.1 := by
    apply TrimSpace_id
    · intro c hc
      simp only [List.mem_cons, List.mem_singleton, List.not_mem_nil, or_false] at hpre
      rcases hpre with h | h | h <;> subst h
      · simp [soldFragment] at hc
        subst hc
        exact (digit_facts c1 hc1).1
      · simp [soldFragment] at hc
        subst hc
        decide
      · simp [soldFragment] at hc
        subst hc
        decide
    · intro c hc
      have e : (soldFragment pre (c1 :: t) am.1).reverse
          = am.1.toList.reverse ++ (pre.toList ++ (c1 :: t ++ [' '])).reverse := by
        simp [soldFragment]
      rw [e] at hc
      cases hr : am.1.toList.reverse with
      | nil =>
        rw [List.reverse_eq_nil_iff] at hr
        exact absurd hr hne
      | cons x xs =>
        rw [hr] at hc hlast
        exact hlast c (by simpa using hc)
  have s2 : ToLower (soldFragment pre (c1 :: t) am.1)
      = ToLower pre.toList ++ (c1 :: (t ++ ' ' :: am.1.toList)) := by
    unfold ToLower at hlt hlow ⊢
    simp only [soldFragment, List.map_append, List.map_cons, hd1.1, hlt, hlow, List.cons_append]
    rfl
  rw [s1, s2]
  simp only [List.mem_cons, List.mem_singleton, List.not_mem_nil, or_false] at hpre
  have hv : c1 ≠ 'v' := hd1.2.1
  have hs : c1 ≠ 's' := hd1.2.2
  have hv2 : ¬ 'v' = c1 := fun e => hv e.symm
  have hs2 : ¬ 's' = c1 := fun e => hs e.symm
  rcases hpre with h | h | h <;> subst h
  · simp [TrimPrefix, HasPrefix, ToLower, List.isPrefixOf, hv2, hs2]
  · have e : ToLower "Vendu le ".toList = "vendu le ".toList := by decide
    rw [e]
    have p1 : TrimPrefix ("vendu le ".toList ++ c1 :: (t ++ ' ' :: am.1.toList)) "vendu le ".toList
        = c1 :: (t ++ ' ' :: am.1.toList) := by
      simp [TrimPrefix, HasPrefix, List.isPrefixOf]
    rw [p1]
    simp [TrimPrefix, HasPrefix, List.isPrefixOf, hs2]
  · have e : ToLower "Sold ".toList = "sold ".toList := by decide
    rw [e]
    have p1 : TrimPrefix ("sold ".toList ++ c1 :: (t ++ ' ' :: am.1.toList)) "vendu le ".toList
        = "sold ".toList ++ c1 :: (t ++ ' ' :: am.1.toList) := by
      simp [TrimPrefix, HasPrefix, List.isPrefixOf]
    rw [p1]
    simp [TrimPrefix, HasPrefix, List.isPrefixOf]

theorem Atoi_digits (c1 : Char) (t : Str) (hc1 : isDigit c1 = true)
    (ht : ∀ c ∈ t, isDigit c = true) : Atoi (c1 :: t) = (digitsVal (c1 :: t) : Int) := by
  have hf := digit_facts c1 hc1
  have hall : (c1 :: t).all isDigit = true := by
    rw [List.all_eq_true]
    intro c hc
    rcases List.mem_cons.1 hc with h | h
    · rw [h]; exact hc1
    · exact ht c h
  unfold Atoi
  split
  · rename_i r heq
    exact absurd (List.cons.inj heq).1 hf.2.2.2.2.2.2.1
  · rename_i r heq
    exact absurd (List.cons.inj heq).1 hf.2.2.2.2.2.2.2
  · simp [hall]

/-- The value of `parseSoldDate` on a fragment with day digits, a blank and a month
abbreviation, in terms of the calendar functions. -/
theorem parseSoldDate_fragment (now : Time) (pre : String) (c1 : Char) (t : Str)
    (am : String × Int) (hpre : pre ∈ ["", "Vendu le ", "Sold "]) (hc1 : isDigit c1 = true)
    (ht : t = [] ∨ ∃ c2, isDigit c2 = true ∧ t = [c2]) (ham : am ∈ monthAbbrevs) :
    parseSoldDate now (soldFragment pre (c1 :: t) am.1) =
      if (Date now.year am.2 (digitsVal (c1 :: t)) 0).After now then
        (Date now.year am.2 (digitsVal (c1 :: t)) 0).AddDate (-1) 0 0
      else Date now.year am.2 (digitsVal (c1 :: t)) 0 := by
  have ht2 : ∀ c ∈ t, isDigit c = true := by
    rcases ht with h | ⟨c2, hc2, h⟩ <;> subst h
    · simp
    · simpa using hc2
  obtain ⟨-, -, hmonth, -, -, -, -, -⟩ := monthRegex_abbrevs am ham
  unfold parseSoldDate
  simp only [soldFragment_prepared pre c1 t am hpre hc1 ht2 ham,
    dateRegex_match c1 t am hc1 ht ham]
  have hmonth2 : parseMonth am.1.data = am.2 := hmonth
  simp [Atoi_digits c1 t hc1 ht2, hmonth2]


theorem After_of_year_lt (t now : Time) (h : t.year < now.year) : t.After now = false := by
  simp only [Time.After, Time.Before, decide_eq_false_iff_not]
  omega

/-- C9 (amended): a fragment made of a day (one or two digits, 1 to 31), a blank and a
month abbreviation of the table, with no year. When the day exists in that month of the
current year and that date is not after `now`, the result is midnight of that date;
when it is after `now` and the day also exists in that month of the year before, the
result is midnight of that day and month one year earlier; and whatever the day, the
result is never after `now`. -/
theorem parseSoldDate_without_year (now : Time) (pre : String) (dd : Str) (am : String × Int)
    (hpre : pre ∈ ["", "Vendu le ", "Sold "]) (hlen : dd.length = 1 ∨ dd.length = 2)
    (hdig : ∀ c ∈ dd, isDigit c = true) (hday1 : 1 ≤ digitsVal dd) (hday2 : digitsVal dd ≤ 31)
    (ham : am ∈ monthAbbrevs) :
    ((digitsVal dd : Int) ≤ daysIn now.year am.2 →
      (Time.mk now.year am.2 (digitsVal dd) 0).After now = false →
      parseSoldDate now (soldFragment pre dd am.1) = ⟨now.year, am.2, digitsVal dd, 0⟩) ∧
    ((digitsVal dd : Int) ≤ daysIn now.year am.2 →
      (digitsVal dd : Int) ≤ daysIn (now.year - 1) am.2 →
      (Time.mk now.year am.2 (digitsVal dd) 0).After now = true →
      parseSoldDate now (soldFragment pre dd am.1) = ⟨now.year - 1, am.2, digitsVal dd, 0⟩) ∧
    (parseSoldDate now (soldFragment pre dd am.1)).After now = false := by
  obtain ⟨c1, t, rfl, ht⟩ : ∃ c1 t, dd = c1 :: t ∧ (t = [] ∨ ∃ c2, t = [c2]) := by
    match dd, hlen with
    | [c1], _ => exact ⟨c1, [], rfl, Or.inl rfl⟩
    | [c1, c2], _ => exact ⟨c1, [c2], rfl, Or.inr ⟨c2, rfl⟩⟩
    | [], h => simp at h
    | _ :: _ :: _ :: _, h => simp at h
  have hc1 : isDigit c1 = true := hdig c1 (by simp)
  have ht2 : t = [] ∨ ∃ c2, isDigit c2 = true ∧ t = [c2] := by
    rcases ht with h | ⟨c2, h⟩
    · exact Or.inl h
    · exact Or.inr ⟨c2, hdig c2 (by simp [h]), h⟩
  obtain ⟨-, -, -, -, -, hm1, hm2, -⟩ := monthRegex_abbrevs am ham
  have hd1 : (1 : Int) ≤ (digitsVal (c1 :: t) : Int) := by exact_mod_cast hday1
  have hd2 : (digitsVal (c1 :: t) : Int) ≤ 31 := by exact_mod_cast hday2
  rw [parseSoldDate_fragment now pre c1 t am hpre hc1 ht2 ham]
  refine ⟨?_, ?_, ?_⟩
  · intro hv hna
    rw [Date_valid _ _ _ _ hm1 hm2 hd1 hv, hna]
    simp
  · intro hv hv1 ha
    rw [Date_valid _ _ _ _ hm1 hm2 hd1 hv, ha]
    simp only [if_true, Time.AddDate]
    have e1 : now.year + -1 = now.year - 1 := by omega
    have e2 : am.2 + 0 = am.2 := by omega
    have e3 : (digitsVal (c1 :: t) : Int) + 0 = digitsVal (c1 :: t) := by omega
    rw [e1, e2, e3]
    exact Date_valid _ _ _ _ hm1 hm2 hd1 hv1
  · obtain ⟨m1, d1, hD, hm1a, hm1b, hd1a, hd1b⟩ :=
      Date_same_year now.year am.2 (digitsVal (c1 :: t)) 0 hm1 hm2 hd1 hd2
    rw [hD]
    split
    · simp only [Time.AddDate]
      have e1 : now.year + -1 = now.year - 1 := by omega
      have e2 : m1 + 0 = m1 := by omega
      have e3 : d1 + 0 = d1 := by omega
      rw [e1, e2, e3]
      obtain ⟨m2, d2, hD2, -, -, -, -⟩ :=
        Date_same_year (now.year - 1) m1 d1 0 hm1a hm1b hd1a hd1b
      rw [hD2]
      apply After_of_year_lt
      show now.year - 1 < now.year
      omega
    · rename_i h
      simpa using h

/-! ### The parser at particular texts -/

/-- C6: on the range text `"100 à 150 €"` the price pattern matches the number next to
the currency marker, so `parsePrice` returns the upper bound 150; the branch that
would take the part before `à` is never reached with that text. -/
theorem parsePrice_range_takes_upper_bound :
    FindStringSubmatch priceRegex 1 "100 à 150 €".toList = ["150 €".toList, "150".toList] ∧
    parsePrice "100 à 150 €".toList = 150 ∧ parsePrice "100 à 150 €".toList ≠ 100 := by
  refine ⟨by decide, by decide, ?_⟩
  have h : parsePrice "100 à 150 €".toList = 150 := by decide
  rw [h]
  norm_num

/-- C8: the pattern accepts `fév` but the table does not hold it, so `12 fév 2024` is
read as 12 January; and the forms without diacritics that the table holds (`fev`,
`aout`, `dec`) and `fevr` are not accepted by the pattern, so no date is found. -/
theorem month_abbreviations_mismatch :
    parseMonth "fév".toList = 1 ∧
    parseSoldDate ⟨2024, 6, 15, 0⟩ "Vendu le 12 fév 2024".toList = ⟨2024, 1, 12, 0⟩ ∧
    parseSoldDate ⟨2024, 6, 15, 0⟩ "Vendu le 12 fév. 2024".toList = ⟨2024, 1, 12, 0⟩ ∧
    parseSoldDate ⟨2024, 6, 15, 0⟩ "Vendu le 12 févr. 2024".toList = ⟨2024, 2, 12, 0⟩ ∧
    parseSoldDate ⟨2024, 6, 15, 0⟩ "Vendu le 12 fevr 2024".toList = Time.zero ∧
    parseSoldDate ⟨2024, 6, 15, 0⟩ "Vendu le 12 fev 2024".toList = Time.zero ∧
    parseSoldDate ⟨2024, 6, 15, 0⟩ "Vendu le 12 aout 2023".toList = Time.zero ∧
    parseSoldDate ⟨2024, 6, 15, 0⟩ "Vendu le 12 dec 2023".toList = Time.zero ∧
    parseMonth "aout".toList = 8 ∧ parseMonth "dec".toList = 12 ∧ parseMonth "fev".toList = 2 := by
  decide

/-- C9, as stated, fails on a day the month does not have: on 15 June 2024 the
fragment `31 avr.` gives 1 May 2024, which is neither 31 April 2024 nor 31 April 2023. -/
theorem parseSoldDate_day_beyond_month :
    parseSoldDate ⟨2024, 6, 15, 0⟩ "31 avr.".toList = ⟨2024, 5, 1, 0⟩ ∧
    parseSoldDate ⟨2024, 6, 15, 0⟩ "31 avr.".toList ≠ ⟨2024, 4, 31, 0⟩ ∧
    parseSoldDate ⟨2024, 6, 15, 0⟩ "31 avr.".toList ≠ ⟨2023, 4, 31, 0⟩ := by
  decide

/-- C9 (amended) at `Vendu le 12 janv.`, read on 15 June 2024: the result is midnight of
12 January 2024, which is not after that instant. -/
theorem parseSoldDate_without_year_witness :
    parseSoldDate ⟨2024, 6, 15, 0⟩ (soldFragment "Vendu le " "12".toList "janv.")
      = ⟨2024, 1, 12, 0⟩ ∧
    (parseSoldDate ⟨2024, 6, 15, 0⟩ (soldFragment "Vendu le " "12".toList "janv.")).After
      ⟨2024, 6, 15, 0⟩ = false :=
  ⟨(parseSoldDate_without_year ⟨2024, 6, 15, 0⟩ "Vendu le " "12".toList ("janv.", 1)
      (by decide) (by decide) (by decide) (by decide) (by decide) (by decide)).1
      (by decide) (by decide),
    (parseSoldDate_without_year ⟨2024, 6, 15, 0⟩ "Vendu le " "12".toList ("janv.", 1)
      (by decide) (by decide) (by decide) (by decide) (by decide) (by decide)).2.2⟩

/-! ### The pattern score -/

theorem foldl_count_le {α : Type} (p : α → Bool) (l : List α) :
    ∀ n : Nat, l.foldl (fun n k => if p k then n + 1 else n) n ≤ n + l.length := by
  induction l with
  | nil => intro n; simp
  | cons a t ih =>
    intro n
    simp only [List.foldl_cons, List.length_cons]
    split
    · have := ih (n + 1)
      omega
    · have := ih n
      omega

theorem keywordMatches_le (normalized : Str) (keywords : List String) :
    keywordMatches normalized keywords ≤ keywords.length := by
  have := foldl_count_le (fun k : String => Contains normalized (ToLower k.toList)) keywords 0
  simpa [keywordMatches] using this

theorem calculatePatternScore_value (normalized : Str) (pattern : ProductPattern)
    (hex : pattern.ExcludeKeywords.any
      (fun keyword => Contains normalized (ToLower keyword.toList)) = false)
    (hset : 0 < keywordMatches normalized pattern.SetKeywords)
    (htype : 0 < keywordMatches normalized pattern.TypeKeywords) :
    calculatePatternScore normalized pattern
      = 0.9 * (0.4 * ((keywordMatches normalized pattern.SetKeywords : ℚ)
            / (pattern.SetKeywords.length : ℚ))
          + 0.6 * ((keywordMatches normalized pattern.TypeKeywords : ℚ)
            / (pattern.TypeKeywords.length : ℚ))) := by
  unfold calculatePatternScore
  simp only [hex, Bool.false_eq_true, if_false]
  rw [if_neg (by omega)]
  ring

/-- C10 (amended): with no disqualifying keyword hit, at least one set-keyword hit and
at least one type-keyword hit, the score is the weighted sum of the two hit ratios
scaled by 0.9 (not capped at 0.9), and so never exceeds 0.9. -/
theorem calculatePatternScore_scaled (normalized : Str) (pattern : ProductPattern)
    (hex : pattern.ExcludeKeywords.any
      (fun keyword => Contains normalized (ToLower keyword.toList)) = false)
    (hset : 0 < keywordMatches normalized pattern.SetKeywords)
    (htype : 0 < keywordMatches normalized pattern.TypeKeywords) :
    calculatePatternScore normalized pattern
      = 0.9 * (0.4 * ((keywordMatches normalized pattern.SetKeywords : ℚ)
            / (pattern.SetKeywords.length : ℚ))
          + 0.6 * ((keywordMatches normalized pattern.TypeKeywords : ℚ)
            / (pattern.TypeKeywords.length : ℚ))) ∧
      calculatePatternScore normalized pattern ≤ 0.9 := by
  have hval := calculatePatternScore_value normalized pattern hex hset htype
  refine ⟨hval, ?_⟩
  rw [hval]
  have h1 := keywordMatches_le normalized pattern.SetKeywords
  have h2 := keywordMatches_le normalized pattern.TypeKeywords
  have r1 : (keywordMatches normalized pattern.SetKeywords : ℚ)
      / (pattern.SetKeywords.length : ℚ) ≤ 1 := by
    rw [div_le_one (by exact_mod_cast (by omega : 0 < pattern.SetKeywords.length))]
    exact_mod_cast h1
  have r2 : (keywordMatches normalized pattern.TypeKeywords : ℚ)
      / (pattern.TypeKeywords.length : ℚ) ≤ 1 := by
    rw [div_le_one (by exact_mod_cast (by omega : 0 < pattern.TypeKeywords.length))]
    exact_mod_cast h2
  linarith

/-- C10 (amended) at the title `pokemon 151 etb` and the 151 ETB pattern: the one set
keyword and one of the three type keywords are hit, and the score is 0.54. -/
theorem calculatePatternScore_scaled_witness :
    calculatePatternScore "pokemon 151 etb".toList etb151Pattern = 0.54 ∧
      calculatePatternScore "pokemon 151 etb".toList etb151Pattern ≤ 0.9 := by
  have h := calculatePatternScore_scaled "pokemon 151 etb".toList etb151Pattern (by decide)
    (by decide) (by decide)
  have h1 : keywordMatches "pokemon 151 etb".toList etb151Pattern.SetKeywords = 1 := by decide
  have h2 : keywordMatches "pokemon 151 etb".toList etb151Pattern.TypeKeywords = 1 := by decide
  have h3 : etb151Pattern.SetKeywords.length = 1 := rfl
  have h4 : etb151Pattern.TypeKeywords.length = 3 := rfl
  refine ⟨?_, h.2⟩
  rw [h.1, h1, h2, h3, h4]
  norm_num

/-- C10, as stated, fails: for the title `pokemon 151 etb` and the 151 ETB pattern (no
disqualifying keyword, the one set keyword hit, one of three type keywords hit) the
score is 0.54, not min(0.9, 0.4 * 1 + 0.6 * (1/3)) = 0.6. -/
theorem calculatePatternScore_is_not_capped_sum :
    etb151Pattern ∈ defaultPatterns ∧
    etb151Pattern.ExcludeKeywords.any
      (fun keyword => Contains "pokemon 151 etb".toList (ToLower keyword.toList)) = false ∧
    keywordMatches "pokemon 151 etb".toList etb151Pattern.SetKeywords = 1 ∧
    etb151Pattern.SetKeywords.length = 1 ∧
    keywordMatches "pokemon 151 etb".toList etb151Pattern.TypeKeywords = 1 ∧
    etb151Pattern.TypeKeywords.length = 3 ∧
    calculatePatternScore "pokemon 151 etb".toList etb151Pattern = 0.54 ∧
    calculatePatternScore "pokemon 151 etb".toList etb151Pattern
      ≠ min 0.9 (0.4 * ((keywordMatches "pokemon 151 etb".toList etb151Pattern.SetKeywords : ℚ)
            / (etb151Pattern.SetKeywords.length : ℚ))
          + 0.6 * ((keywordMatches "pokemon 151 etb".toList etb151Pattern.TypeKeywords : ℚ)
            / (etb151Pattern.TypeKeywords.length : ℚ))) := by
  have h1 : keywordMatches "pokemon 151 etb".toList etb151Pattern.SetKeywords = 1 := by decide
  have h2 : keywordMatches "pokemon 151 etb".toList etb151Pattern.TypeKeywords = 1 := by decide
  have h3 : etb151Pattern.SetKeywords.length = 1 := rfl
  have h4 : etb151Pattern.TypeKeywords.length = 3 := rfl
  have hv := calculatePatternScore_value "pokemon 151 etb".toList etb151Pattern (by decide)
    (by decide) (by decide)
  rw [h1, h2, h3, h4] at hv
  refine ⟨by simp [defaultPatterns], by decide, h1, h3, h2, h4, ?_, ?_⟩
  · rw [hv]; norm_num
  · rw [hv, h1, h2, h3, h4]
    norm_num

/-! ### The normalizer -/

theorem calculatePatternScore_bounds (normalized : Str) (pattern : ProductPattern) :
    0 ≤ calculatePatternScore normalized pattern ∧
      calculatePatternScore normalized pattern ≤ 0.9 := by
  unfold calculatePatternScore
  simp only
  split
  · norm_num
  · split
    · norm_num
    · rename_i h1 h2
      have hs : 0 < keywordMatches normalized pattern.SetKeywords := by omega
      have ht : 0 < keywordMatches normalized pattern.TypeKeywords := by omega
      have l1 := keywordMatches_le normalized pattern.SetKeywords
      have l2 := keywordMatches_le normalized pattern.TypeKeywords
      have r1 : (keywordMatches normalized pattern.SetKeywords : ℚ)
          / (pattern.SetKeywords.length : ℚ) ≤ 1 := by
        rw [div_le_one (by exact_mod_cast (by omega : 0 < pattern.SetKeywords.length))]
        exact_mod_cast l1
      have r2 : (keywordMatches normalized pattern.TypeKeywords : ℚ)
          / (pattern.TypeKeywords.length : ℚ) ≤ 1 := by
        rw [div_le_one (by exact_mod_cast (by omega : 0 < pattern.TypeKeywords.length))]
        exact_mod_cast l2
      have p1 : (0 : ℚ) ≤ (keywordMatches normalized pattern.SetKeywords : ℚ)
          / (pattern.SetKeywords.length : ℚ) := by positivity
      have p2 : (0 : ℚ) ≤ (keywordMatches normalized pattern.TypeKeywords : ℚ)
          / (pattern.TypeKeywords.length : ℚ) := by positivity
      constructor
      · nlinarith
      · nlinarith

theorem BestOf_step (normalized : Str) (pre : List ProductPattern)
    (best : NormalizedProduct × ℚ) (pattern : ProductPattern)
    (h : BestOf normalized pre best) :
    BestOf normalized (pre ++ [pattern])
      (if calculatePatternScore normalized pattern > best.2 then
        (patternProduct pattern (calculatePatternScore normalized pattern),
          calculatePatternScore normalized pattern)
      else best) := by
  have getOld : ∀ (j : Nat) (q : ProductPattern), pre[j]? = some q → (pre ++ [pattern])[j]? = some q := by
    intro j q hj
    have hlt : j < pre.length := by
      by_contra hc
      rw [List.getElem?_eq_none (by omega)] at hj
      cases hj
    rw [List.getElem?_append_left hlt]
    exact hj
  have getInv : ∀ (j : Nat) (q : ProductPattern), j < pre.length → (pre ++ [pattern])[j]? = some q → pre[j]? = some q := by
    intro j q hlt hj
    rw [List.getElem?_append_left hlt] at hj
    exact hj
  have getOldMem : ∀ (j : Nat) (q : ProductPattern), pre[j]? = some q → q ∈ pre := by
    intro j q hj
    exact List.getElem?_mem hj
  have getLt : ∀ (j : Nat) (q : ProductPattern), pre[j]? = some q → j < pre.length := by
    intro j q hj
    by_contra hc
    rw [List.getElem?_eq_none (by omega)] at hj
    cases hj
  rcases h with ⟨hb, hall⟩ | ⟨i, p, hi, hb, hpos, hmax, hfirst⟩
  · subst hb
    by_cases hs : calculatePatternScore normalized pattern > 0
    · simp only [hs, if_true]
      right
      refine ⟨pre.length, pattern, by simp, rfl, hs, ?_, ?_⟩
      · intro q hq
        rcases List.mem_append.1 hq with h | h
        · exact le_trans (hall q h) (le_of_lt hs)
        · simp at h
          rw [h]
      · intro j q hj hq
        exact lt_of_le_of_lt (hall q (getOldMem j q (getInv j q hj hq))) hs
    · simp only [hs, if_false]
      left
      refine ⟨rfl, ?_⟩
      intro q hq
      rcases List.mem_append.1 hq with h | h
      · exact hall q h
      · simp at h
        rw [h]
        exact not_lt.1 hs
  · subst hb
    by_cases hs : calculatePatternScore normalized pattern > calculatePatternScore normalized p
    · simp only [hs, if_true]
      right
      refine ⟨pre.length, pattern, by simp, rfl, lt_trans hpos hs, ?_, ?_⟩
      · intro q hq
        rcases List.mem_append.1 hq with h | h
        · exact le_trans (hmax q h) (le_of_lt hs)
        · simp at h
          rw [h]
      · intro j q hj hq
        exact lt_of_le_of_lt (hmax q (getOldMem j q (getInv j q hj hq))) hs
    · simp only [hs, if_false]
      right
      refine ⟨i, p, getOld i p hi, rfl, hpos, ?_, ?_⟩
      · intro q hq
        rcases List.mem_append.1 hq with h | h
        · exact hmax q h
        · simp at h
          rw [h]
          exact not_lt.1 hs
      · intro j q hj hq
        have hil := getLt i p hi
        exact hfirst j q hj (getInv j q (by omega) hq)

theorem foldl_BestOf (normalized : Str) :
    ∀ (l pre : List ProductPattern) (best : NormalizedProduct × ℚ),
      BestOf normalized pre best →
      BestOf normalized (pre ++ l)
        (l.foldl
          (fun best pattern =>
            if calculatePatternScore normalized pattern > best.2 then
              (patternProduct pattern (calculatePatternScore normalized pattern),
                calculatePatternScore normalized pattern)
            else best) best) := by
  intro l
  induction l with
  | nil => intro pre best h; simpa using h
  | cons a t ih =>
    intro pre best h
    have := ih (pre ++ [a]) _ (BestOf_step normalized pre best a h)
    simpa using this

theorem matchKnownPattern_BestOf (n : Normalizer) (normalized : Str) :
    BestOf normalized n.patterns (n.matchKnownPattern normalized) := by
  have h0 : BestOf normalized [] (NormalizedProduct.empty, 0) := Or.inl ⟨rfl, by simp⟩
  have := foldl_BestOf normalized n.patterns [] (NormalizedProduct.empty, 0) h0
  simpa [Normalizer.matchKnownPattern] using this


theorem genericCategory_spec (normalized : Str) :
    ∀ (types : List (String × List String)) (s0 : ℚ),
      (genericCategory normalized types ("", s0)).2
        = (if types.any (fun e =>
            e.2.any (fun keyword => Contains normalized (ToLower keyword.toList)))
           then 0.5 else s0) ∧
      (types.any (fun e =>
          e.2.any (fun keyword => Contains normalized (ToLower keyword.toList))) = false →
        (genericCategory normalized types ("", s0)).1 = "") := by
  intro types
  induction types with
  | nil => intro s0; simp [genericCategory]
  | cons e rest ih =>
    intro s0
    obtain ⟨category, keywords⟩ := e
    rw [genericCategory]
    by_cases hk : keywords.any (fun keyword => Contains normalized (ToLower keyword.toList)) = true
    · simp only [hk, if_true, List.any_cons, Bool.true_or]
      by_cases hc : category = ""
      · subst hc
        simp only [ne_eq, not_true_eq_false, if_false]
        refine ⟨?_, fun h => by simp at h⟩
        rw [(ih 0.5).1]
        split <;> rfl
      · simp only [ne_eq, hc, not_false_eq_true, if_true]
        exact ⟨trivial, fun h => by simp at h⟩
    · have hk2 : keywords.any (fun keyword => Contains normalized (ToLower keyword.toList))
          = false := by simpa using hk
      simp only [hk2, List.any_cons, Bool.false_or, Bool.false_eq_true, if_false, ne_eq,
        not_true_eq_false]
      exact ih s0

theorem any_perm {α : Type} (p : α → Bool) {l1 l2 : List α} (h : l1.Perm l2) :
    l1.any p = l2.any p := by
  rw [Bool.eq_iff_iff, List.any_eq_true, List.any_eq_true]
  constructor
  · rintro ⟨x, hx, hp⟩
    exact ⟨x, h.mem_iff.1 hx, hp⟩
  · rintro ⟨x, hx, hp⟩
    exact ⟨x, h.mem_iff.2 hx, hp⟩

theorem genericSet_isSome (normalized : Str) (sets : List (String × Re)) :
    (genericSet normalized sets).isSome = sets.any (fun e => MatchString e.2 normalized) := by
  unfold genericSet
  rw [Option.isSome_map']
  induction sets with
  | nil => rfl
  | cons e rest ih =>
    by_cases h : MatchString e.2 normalized = true
    · simp [List.find?, h]
    · have h2 : MatchString e.2 normalized = false := by simpa using h
      simp [List.find?, h2, ih]

theorem genericMatch_confidence (n : Normalizer) (order : MapOrder)
    (normalized originalTitle : Str)
    (htypes : order.types.Perm n.typePatterns) (hsets : order.sets.Perm n.setPatterns) :
    (Normalizer.genericMatch order normalized originalTitle).2
      = 0.3 + (if n.typeKeywordHit normalized then 0.2 else 0)
          + (if n.setDetectorHit normalized then 0.2 else 0) ∧
    (Normalizer.genericMatch order normalized originalTitle).1.Confidence
      = (Normalizer.genericMatch order normalized originalTitle).2 ∧
    (n.typeKeywordHit normalized = false →
      (Normalizer.genericMatch order normalized originalTitle).1.Category = "single") := by
  have hc := genericCategory_spec normalized order.types 0.3
  have ht := any_perm (fun e : String × List String =>
    e.2.any (fun keyword => Contains normalized (ToLower keyword.toList))) htypes
  have hs := any_perm (fun e : String × Re => MatchString e.2 normalized) hsets
  have hset := genericSet_isSome normalized order.sets
  rw [ht] at hc
  rw [hs] at hset
  refine ⟨?_, rfl, ?_⟩
  · simp only [Normalizer.genericMatch, hset, hc.1, Normalizer.typeKeywordHit,
      Normalizer.setDetectorHit]
    split <;> split <;> norm_num
  · intro hno
    have := hc.2 hno
    simp [Normalizer.genericMatch, this]

theorem containsExcluded_of_no_word (n : Normalizer) (text : Str)
    (h : ∀ word ∈ n.excludeWords, Contains text word.toList = false) :
    n.containsExcluded text = false := by
  unfold Normalizer.containsExcluded
  rw [List.any_eq_false]
  intro word hw
  simpa using h word hw

theorem Normalize_of_excluded (n : Normalizer) (order : MapOrder) (title : Str)
    (hex : n.containsExcluded (n.normalizeText title) = true) :
    n.Normalize order title = (NormalizedProduct.empty, 0) := by
  unfold Normalizer.Normalize
  simp only [hex, if_true]

theorem Normalize_of_no_pattern (n : Normalizer) (order : MapOrder) (title : Str)
    (hex : n.containsExcluded (n.normalizeText title) = false)
    (hno : ∀ q ∈ n.patterns, calculatePatternScore (n.normalizeText title) q ≤ 0) :
    n.Normalize order title = Normalizer.genericMatch order (n.normalizeText title) title := by
  rcases matchKnownPattern_BestOf n (n.normalizeText title) with ⟨hb, -⟩ |
    ⟨i, p, hi, -, hp, -, -⟩
  · unfold Normalizer.Normalize
    simp only [hex, Bool.false_eq_true, if_false, hb]
    rw [if_neg (by norm_num)]
  · exact absurd (hno p (List.getElem?_mem hi)) (not_le.2 hp)

theorem Normalize_of_single_pattern (n : Normalizer) (order : MapOrder) (title : Str)
    (p : ProductPattern) (hex : n.containsExcluded (n.normalizeText title) = false)
    (hmem : p ∈ n.patterns)
    (hpos : 0 < calculatePatternScore (n.normalizeText title) p)
    (hothers : ∀ q ∈ n.patterns,
      calculatePatternScore (n.normalizeText title) q = 0 ∨ q = p) :
    n.Normalize order title
      = (patternProduct p (calculatePatternScore (n.normalizeText title) p),
          calculatePatternScore (n.normalizeText title) p) := by
  rcases matchKnownPattern_BestOf n (n.normalizeText title) with ⟨-, hall⟩ |
    ⟨i, q, hi, hb, hq, -, -⟩
  · exact absurd (hall p hmem) (not_le.2 hpos)
  · rcases hothers q (List.getElem?_mem hi) with h0 | heq
    · rw [h0] at hq
      exact absurd hq (lt_irrefl _)
    · subst heq
      unfold Normalizer.Normalize
      simp only [hex, Bool.false_eq_true, if_false, hb]
      rw [if_pos hq]

theorem title151_normalized :
    NewNormalizer.normalizeText "Coffret Dresseur Pokemon 151 ETB Scellé".toList
      = "coffret dresseur pokemon 151 etb scelle".toList := by decide

theorem title151_score :
    calculatePatternScore "coffret dresseur pokemon 151 etb scelle".toList etb151Pattern
      = 0.72 := by with_unfolding_all decide

theorem title151_others :
    ∀ q ∈ NewNormalizer.patterns,
      calculatePatternScore "coffret dresseur pokemon 151 etb scelle".toList q = 0
        ∨ q = etb151Pattern := by
  intro q hq
  simp only [NewNormalizer, defaultPatterns, List.mem_cons, List.mem_singleton,
    List.not_mem_nil, or_false] at hq
  rcases hq with h | h | h | h | h | h | h | h | h | h
  all_goals first
    | (right; exact h)
    | (left; subst h; with_unfolding_all decide)

theorem title151_Normalize :
    NewNormalizer.Normalize NewNormalizer.tableOrder
        "Coffret Dresseur Pokemon 151 ETB Scellé".toList
      = (patternProduct etb151Pattern 0.72, 0.72) := by
  have h := Normalize_of_single_pattern NewNormalizer NewNormalizer.tableOrder
    "Coffret Dresseur Pokemon 151 ETB Scellé".toList etb151Pattern
    (by decide) (by simp [NewNormalizer, defaultPatterns])
    (by rw [title151_normalized, title151_score]; norm_num)
    (by rw [title151_normalized]; exact title151_others)
  rw [title151_normalized, title151_score] at h
  exact h

/-- C11, amended: when no exclusion keyword occurs in the normalised text of the title
(the title in lower case, without accents, with every character other than `a` to `z`,
`0` to `9` and white space written as a blank, runs of blanks collapsed) and some
curated pattern scores above 0, `Normalize` returns the product of a pattern of the
table whose score is the highest of all and strictly above that of every pattern before
it (the first one attaining the maximum): its canonical name, category, set name, set
code and MSRP, with that score as confidence. For the title
`Coffret Dresseur Pokemon 151 ETB Scellé` and the default table this is the 151 ETB
pattern with confidence 0.72, above 0.5, and its canonical name holds `151`. -/
theorem Normalize_best_pattern (n : Normalizer) (order : MapOrder) (title : Str)
    (hex : ∀ word ∈ n.excludeWords, Contains (n.normalizeText title) word.toList = false)
    (hpos : ∃ q ∈ n.patterns, 0 < calculatePatternScore (n.normalizeText title) q) :
    (∃ (i : Nat) (p : ProductPattern), n.patterns[i]? = some p ∧
      (∀ q ∈ n.patterns, calculatePatternScore (n.normalizeText title) q
        ≤ calculatePatternScore (n.normalizeText title) p) ∧
      (∀ (j : Nat) (q : ProductPattern), j < i → n.patterns[j]? = some q →
        calculatePatternScore (n.normalizeText title) q
          < calculatePatternScore (n.normalizeText title) p) ∧
      n.Normalize order title
        = ({ NormalizedName := utf8 p.NormalizedName.toList, Category := p.Category,
             SetName := p.SetName, SetCode := p.SetCode, MSRP := some p.MSRP,
             Confidence := calculatePatternScore (n.normalizeText title) p },
           calculatePatternScore (n.normalizeText title) p)) ∧
    (NewNormalizer.Normalize NewNormalizer.tableOrder
        "Coffret Dresseur Pokemon 151 ETB Scellé".toList
      = (patternProduct etb151Pattern 0.72, 0.72) ∧
    (0.5 : ℚ) < 0.72 ∧
    utf8 "151".toList <:+: (patternProduct etb151Pattern 0.72).NormalizedName) := by
  refine ⟨?_, title151_Normalize, by norm_num, by decide⟩
  have hex1 := containsExcluded_of_no_word n (n.normalizeText title) hex
  rcases matchKnownPattern_BestOf n (n.normalizeText title) with ⟨-, hall⟩ |
    ⟨i, p, hi, hb, hp, hmax, hfirst⟩
  · obtain ⟨q, hq, hqpos⟩ := hpos
    exact absurd (hall q hq) (not_le.2 hqpos)
  · refine ⟨i, p, hi, hmax, hfirst, ?_⟩
    unfold Normalizer.Normalize
    simp only [hex1, Bool.false_eq_true, if_false, hb]
    rw [if_pos hp]
    rfl

/-- C13, amended: when no exclusion keyword occurs in the normalised text of the title
(the title in lower case, without accents, with every character other than `a` to `z`,
`0` to `9` and white space written as a blank, runs of blanks collapsed) and no curated
pattern scores above 0, the confidence is 0.3, plus 0.2 when some generic type keyword
occurs, plus 0.2 when some set detector matches, whatever the order in which the two
maps are traversed; it is one of 0.3, 0.5, 0.7, hence at least 0.3; and without a type
keyword the category is `single`. -/
theorem Normalize_generic_confidence (n : Normalizer) (order : MapOrder) (title : Str)
    (hex : ∀ word ∈ n.excludeWords, Contains (n.normalizeText title) word.toList = false)
    (hno : ∀ q ∈ n.patterns, calculatePatternScore (n.normalizeText title) q ≤ 0)
    (htypes : order.types.Perm n.typePatterns) (hsets : order.sets.Perm n.setPatterns) :
    (n.Normalize order title).2
      = 0.3 + (if n.typeKeywordHit (n.normalizeText title) then 0.2 else 0)
          + (if n.setDetectorHit (n.normalizeText title) then 0.2 else 0) ∧
    ((n.Normalize order title).2 = 0.3 ∨ (n.Normalize order title).2 = 0.5 ∨
      (n.Normalize order title).2 = 0.7) ∧
    0.3 ≤ (n.Normalize order title).2 ∧
    (n.typeKeywordHit (n.normalizeText title) = false →
      (n.Normalize order title).1.Category = "single") := by
  have hgen := Normalize_of_no_pattern n order title
    (containsExcluded_of_no_word n (n.normalizeText title) hex) hno
  obtain ⟨h1, -, h3⟩ := genericMatch_confidence n order (n.normalizeText title) title htypes hsets
  rw [hgen]
  refine ⟨h1, ?_, ?_, h3⟩
  · rw [h1]
    split <;> split <;> norm_num
  · rw [h1]
    split <;> split <;> norm_num

/-- C14: for every title, every pattern table and every traversal order, the confidence
`Normalize` returns lies between 0 and 0.9 (so within [0, 1]) and is the `Confidence`
field of the product returned; and whenever the score of a pattern divides by the
length of a keyword list, that list is not empty. -/
theorem Normalize_confidence_range (n : Normalizer) (order : MapOrder) (title : Str) :
    0 ≤ (n.Normalize order title).2 ∧ (n.Normalize order title).2 ≤ 0.9 ∧
    (n.Normalize order title).2 ≤ 1 ∧
    (n.Normalize order title).1.Confidence = (n.Normalize order title).2 ∧
    (∀ p ∈ n.patterns,
      (keywordMatches (n.normalizeText title) p.SetKeywords ≠ 0 → p.SetKeywords.length ≠ 0) ∧
      (keywordMatches (n.normalizeText title) p.TypeKeywords ≠ 0 →
        p.TypeKeywords.length ≠ 0)) := by
  have main : 0 ≤ (n.Normalize order title).2 ∧ (n.Normalize order title).2 ≤ 0.9 ∧
      (n.Normalize order title).1.Confidence = (n.Normalize order title).2 := by
    unfold Normalizer.Normalize
    simp only
    split
    · refine ⟨le_refl _, by norm_num, rfl⟩
    · rcases matchKnownPattern_BestOf n (n.normalizeText title) with ⟨hb, -⟩ |
        ⟨i, p, hi, hb, hp, -, -⟩
      · rw [hb, if_neg (by norm_num)]
        have hst := genericCategory_spec (n.normalizeText title) order.types 0.3
        refine ⟨?_, ?_, rfl⟩
        · simp only [Normalizer.genericMatch, hst.1]
          split <;> split <;> norm_num
        · simp only [Normalizer.genericMatch, hst.1]
          split <;> split <;> norm_num
      · rw [hb, if_pos hp]
        have hbd := calculatePatternScore_bounds (n.normalizeText title) p
        exact ⟨hbd.1, hbd.2, rfl⟩
  refine ⟨main.1, main.2.1, le_trans main.2.1 (by norm_num), main.2.2, ?_⟩
  intro p _
  have l1 := keywordMatches_le (n.normalizeText title) p.SetKeywords
  have l2 := keywordMatches_le (n.normalizeText title) p.TypeKeywords
  constructor <;> intro h <;> omega


/-- C11, amended, at the title of the specification: no exclusion keyword occurs in its
normalised text, the 151 ETB pattern scores above 0, and the pattern returned is the
first one with the highest score. -/
theorem Normalize_best_pattern_witness :
    (∀ word ∈ NewNormalizer.excludeWords,
      Contains (NewNormalizer.normalizeText "Coffret Dresseur Pokemon 151 ETB Scellé".toList)
        word.toList = false) ∧
    ((∃ (i : Nat) (p : ProductPattern), NewNormalizer.patterns[i]? = some p ∧
      (∀ q ∈ NewNormalizer.patterns,
        calculatePatternScore
            (NewNormalizer.normalizeText "Coffret Dresseur Pokemon 151 ETB Scellé".toList) q
          ≤ calculatePatternScore
            (NewNormalizer.normalizeText "Coffret Dresseur Pokemon 151 ETB Scellé".toList) p) ∧
      (∀ (j : Nat) (q : ProductPattern), j < i → NewNormalizer.patterns[j]? = some q →
        calculatePatternScore
            (NewNormalizer.normalizeText "Coffret Dresseur Pokemon 151 ETB Scellé".toList) q
          < calculatePatternScore
            (NewNormalizer.normalizeText "Coffret Dresseur Pokemon 151 ETB Scellé".toList) p) ∧
      NewNormalizer.Normalize NewNormalizer.tableOrder
          "Coffret Dresseur Pokemon 151 ETB Scellé".toList
        = ({ NormalizedName := utf8 p.NormalizedName.toList, Category := p.Category,
             SetName := p.SetName, SetCode := p.SetCode, MSRP := some p.MSRP,
             Confidence := calculatePatternScore
               (NewNormalizer.normalizeText "Coffret Dresseur Pokemon 151 ETB Scellé".toList) p },
           calculatePatternScore
             (NewNormalizer.normalizeText "Coffret Dresseur Pokemon 151 ETB Scellé".toList) p)) ∧
    (NewNormalizer.Normalize NewNormalizer.tableOrder
        "Coffret Dresseur Pokemon 151 ETB Scellé".toList
      = (patternProduct etb151Pattern 0.72, 0.72) ∧
    (0.5 : ℚ) < 0.72 ∧
    utf8 "151".toList <:+: (patternProduct etb151Pattern 0.72).NormalizedName)) :=
  ⟨by decide,
    Normalize_best_pattern NewNormalizer NewNormalizer.tableOrder
      "Coffret Dresseur Pokemon 151 ETB Scellé".toList (by decide)
      ⟨etb151Pattern, by simp [NewNormalizer, defaultPatterns],
        by rw [title151_normalized, title151_score]; norm_num⟩⟩

theorem yugioh_hyphen_no_pattern :
    ∀ q ∈ NewNormalizer.patterns,
      calculatePatternScore (NewNormalizer.normalizeText "Yu-Gi-Oh booster box".toList) q
        ≤ 0 := by
  with_unfolding_all decide

/-- C12: the title `Yu-Gi-Oh booster box` holds the exclusion keyword `yu-gi-oh`, but
`normalizeText` turns the hyphens into blanks before the keywords are looked for, so the
title is not rejected: it comes back as a display with confidence 0.5. The title
`Yugioh booster box` is rejected with the empty product and confidence 0. -/
theorem hyphenated_exclusion_keyword_never_matches :
    "yu-gi-oh" ∈ NewNormalizer.excludeWords ∧
    Contains (ToLower "Yu-Gi-Oh booster box".toList) "yu-gi-oh".toList = true ∧
    NewNormalizer.normalizeText "Yu-Gi-Oh booster box".toList = "yu gi oh booster box".toList ∧
    NewNormalizer.containsExcluded (NewNormalizer.normalizeText "Yu-Gi-Oh booster box".toList)
      = false ∧
    (NewNormalizer.Normalize NewNormalizer.tableOrder "Yu-Gi-Oh booster box".toList).2 = 0.5 ∧
    (NewNormalizer.Normalize NewNormalizer.tableOrder "Yu-Gi-Oh booster box".toList).1.Category
      = "display" ∧
    NewNormalizer.Normalize NewNormalizer.tableOrder "Yugioh booster box".toList
      = (NormalizedProduct.empty, 0) := by
  have hg := Normalize_of_no_pattern NewNormalizer NewNormalizer.tableOrder
    "Yu-Gi-Oh booster box".toList (by decide) yugioh_hyphen_no_pattern
  have hn : NewNormalizer.normalizeText "Yu-Gi-Oh booster box".toList
      = "yu gi oh booster box".toList := by decide
  rw [hn] at hg
  refine ⟨by simp [NewNormalizer, defaultExcludeWords], by decide, hn, by decide, ?_, ?_, ?_⟩
  · rw [hg]
    with_unfolding_all decide
  · rw [hg]
    with_unfolding_all decide
  · have hx : NewNormalizer.containsExcluded
        (NewNormalizer.normalizeText "Yugioh booster box".toList) = true := by decide
    unfold Normalizer.Normalize
    simp only [hx, if_true]

/-- C13, amended, at the title `Pikachu rare`: no exclusion keyword in its normalised
text, no curated pattern, no type keyword and no set detector: confidence 0.3 and
category `single`. -/
theorem Normalize_generic_confidence_witness :
    (∀ word ∈ NewNormalizer.excludeWords,
      Contains (NewNormalizer.normalizeText "Pikachu rare".toList) word.toList = false) ∧
    NewNormalizer.typeKeywordHit (NewNormalizer.normalizeText "Pikachu rare".toList) = false ∧
    NewNormalizer.setDetectorHit (NewNormalizer.normalizeText "Pikachu rare".toList) = false ∧
    (NewNormalizer.Normalize NewNormalizer.tableOrder "Pikachu rare".toList).2 = 0.3 ∧
    (NewNormalizer.Normalize NewNormalizer.tableOrder "Pikachu rare".toList).1.Category
      = "single" := by
  have h := Normalize_generic_confidence NewNormalizer NewNormalizer.tableOrder
    "Pikachu rare".toList (by decide) (by with_unfolding_all decide) (List.Perm.refl _)
    (List.Perm.refl _)
  have ht : NewNormalizer.typeKeywordHit (NewNormalizer.normalizeText "Pikachu rare".toList)
      = false := by decide
  have hs : NewNormalizer.setDetectorHit (NewNormalizer.normalizeText "Pikachu rare".toList)
      = false := by decide
  refine ⟨by decide, ht, hs, ?_, h.2.2.2 ht⟩
  rw [h.1, ht, hs]
  norm_num

/-- C11, counterexample: the title `Display 151 Dragon-Ball` holds none of the exclusion
keywords, in any letter case, and the first pattern of the table scores 27/50 on it;
but `normalizeText` writes the hyphen as a blank, the result holds the keyword
`dragon ball`, and `Normalize` returns the empty product with confidence 0. -/
theorem hyphenated_title_is_excluded_despite_pattern :
    (∀ kw ∈ NewNormalizer.excludeWords,
      Contains (ToLower "Display 151 Dragon-Ball".toList) (ToLower kw.toList) = false) ∧
    NewNormalizer.normalizeText "Display 151 Dragon-Ball".toList
      = "display 151 dragon ball".toList ∧
    (∃ q, NewNormalizer.patterns[0]? = some q ∧
      calculatePatternScore (NewNormalizer.normalizeText "Display 151 Dragon-Ball".toList) q
        = 27 / 50) ∧
    (∀ order : MapOrder, NewNormalizer.Normalize order "Display 151 Dragon-Ball".toList
      = (NormalizedProduct.empty, 0)) := by
  refine ⟨by decide, by decide, ?_, ?_⟩
  · refine ⟨_, rfl, ?_⟩
    with_unfolding_all decide
  · intro order
    exact Normalize_of_excluded _ _ _ (by decide)

theorem onePiece_no_pattern :
    ∀ q ∈ NewNormalizer.patterns,
      calculatePatternScore (NewNormalizer.normalizeText "Pikachu One-Piece".toList) q ≤ 0 := by
  with_unfolding_all decide

/-- C13, counterexample: the title `Pikachu One-Piece` holds none of the exclusion
keywords, in any letter case, and no curated pattern scores above 0 on it; but
`normalizeText` writes the hyphen as a blank, the result holds the keyword `one piece`,
and `Normalize` returns confidence 0, below 0.3. -/
theorem hyphenated_title_gets_no_generic_confidence :
    (∀ kw ∈ NewNormalizer.excludeWords,
      Contains (ToLower "Pikachu One-Piece".toList) (ToLower kw.toList) = false) ∧
    NewNormalizer.normalizeText "Pikachu One-Piece".toList = "pikachu one piece".toList ∧
    (∀ q ∈ NewNormalizer.patterns,
      calculatePatternScore (NewNormalizer.normalizeText "Pikachu One-Piece".toList) q ≤ 0) ∧
    (∀ order : MapOrder,
      (NewNormalizer.Normalize order "Pikachu One-Piece".toList).2 = 0 ∧
      (NewNormalizer.Normalize order "Pikachu One-Piece".toList).2 < 0.3) := by
  refine ⟨by decide, by decide, onePiece_no_pattern, ?_⟩
  intro order
  rw [Normalize_of_excluded _ _ _ (by decide)]
  exact ⟨rfl, by norm_num⟩

/-! ### The retryer on an operation that fails a number of times -/

theorem DoLoop_failingOp (r : Retryer) (rnd : Nat → ℚ) (ctx : Context) (k : Nat)
    (errs : Nat → Err) (dur : Nat → Int) (hctx : ctx.doneAt = none)
    (hretry : r.config.allRetryable) :
    ∀ (d j left : Nat) (lastErr : Option Err) (now : Int), j + d = k → d < left →
      ((j + d : Nat) : Int) ≤ r.config.MaxRetries →
      (Retryer.DoLoop r rnd ctx (failingOp k errs dur) left j lastErr now j).1 = none ∧
      (Retryer.DoLoop r rnd ctx (failingOp k errs dur) left j lastErr now j).2.2 = k + 1 := by
  have hdone : ∀ t, ctx.Done t = false := by
    intro t
    simp [Context.Done, hctx]
  intro d
  induction d with
  | zero =>
    intro j left lastErr now hj hl _
    obtain ⟨left, rfl⟩ : ∃ l, left = l + 1 := ⟨left - 1, by omega⟩
    have hjk : j = k := by omega
    subst hjk
    simp [Retryer.DoLoop, hdone, failingOp]
  | succ d ih =>
    intro j left lastErr now hj hl hmax
    obtain ⟨left, rfl⟩ : ∃ l, left = l + 1 := ⟨left - 1, by omega⟩
    have hle : j + 1 ≤ k := by omega
    have hne : ¬ ((j : Int) = r.config.MaxRetries) := by
      intro h
      rw [← h] at hmax
      omega
    have hs : ∀ t dd, sleepOrDone ctx t dd = (false, t + max dd 0) := by
      intro t dd
      simp [sleepOrDone, hctx]
    have := ih (j + 1) left (some (errs (j + 1)))
      (now + dur (j + 1) + max (r.calculateDelay (rnd j) j) 0) (by omega) (by omega)
      (by rw [show j + 1 + d = j + (d + 1) by omega]; exact hmax)
    unfold RetryConfig.allRetryable at hretry
    cases hc : r.config.RetryableCheck with
    | none =>
      simp only [Retryer.DoLoop, hdone, failingOp, hle, if_true, hc, hne, if_false, hs,
        Bool.false_eq_true]
      exact this
    | some check =>
      rw [hc] at hretry
      simp only [Retryer.DoLoop, hdone, failingOp, hle, if_true, hc, hne, if_false, hs,
        Bool.false_eq_true, hretry, Bool.not_true]
      exact this

/-- C20: with a context that is never cancelled and every error retryable, `Do` on an
operation that fails on its first `k` calls and then succeeds, `k ≤ MaxRetries`,
returns nil and has called the operation exactly `k + 1` times. -/
theorem Do_fails_k_times_then_succeeds (r : Retryer) (rnd : Nat → ℚ) (ctx : Context)
    (k : Nat) (errs : Nat → Err) (dur : Nat → Int) (now : Int)
    (hk : (k : Int) ≤ r.config.MaxRetries) (hctx : ctx.doneAt = none)
    (hretry : r.config.allRetryable) :
    (r.Do rnd ctx (failingOp k errs dur) now 0).1 = none ∧
    (r.Do rnd ctx (failingOp k errs dur) now 0).2.2 = k + 1 := by
  unfold Retryer.Do
  exact DoLoop_failingOp r rnd ctx k errs dur hctx hretry k 0
    (r.config.MaxRetries + 1).toNat none now (by omega) (by omega) (by simpa using hk)

/-- C20 at the run of `TestRetryerRetryOnError`: three retries allowed, the operation
fails twice, is called three times and `Do` returns nil. -/
theorem Do_fails_k_times_then_succeeds_witness :
    ((2 : Nat) : Int) ≤ testRetryer.config.MaxRetries ∧ background.doneAt = none ∧
    testRetryer.config.allRetryable ∧
    (testRetryer.Do (fun _ => 0) background
        (failingOp 2 (fun _ => .msg "transient error") (fun _ => 1000)) 0 0).1 = none ∧
    (testRetryer.Do (fun _ => 0) background
        (failingOp 2 (fun _ => .msg "transient error") (fun _ => 1000)) 0 0).2.2 = 2 + 1 :=
  ⟨by decide, rfl, trivial,
    Do_fails_k_times_then_succeeds testRetryer (fun _ => 0) background 2
      (fun _ => .msg "transient error") (fun _ => 1000) 0 (by decide) rfl trivial⟩

/-! ### The analyzer: `Run` and the status slot -/

theorem ask_va (env : AnalyzerEnv) (m : Machine) (c : Call) : (m.ask env c).2.va = m.va := rfl

theorem createRecord_va (env : AnalyzerEnv) (opts : AnalyzeOptions) (m : Machine) :
    (createRecord env opts m).2.va = m.va := rfl

/-- C16: when the status slot holds a running status, `Run` returns the already-running
error and no result, and leaves the analyzer and the world as they were: no call is
logged (no record created, no scraper call, no progress callback) and the status slot
is the same. -/
theorem Run_while_running (env : AnalyzerEnv) (ctx : Context) (opts : AnalyzeOptions)
    (m : Machine) (h : m.va.IsRunning = true) :
    (Run env ctx opts m).1 = ⟨none, some (.msg "analysis already running")⟩ ∧
    (Run env ctx opts m).2 = m ∧
    (Run env ctx opts m).2.calls = m.calls ∧
    (Run env ctx opts m).2.va.currentStatus = m.va.currentStatus := by
  unfold Run
  rw [if_pos h]
  exact ⟨rfl, rfl, rfl, rfl⟩

/-- C16 at an analyzer whose slot holds the status of run 1. -/
theorem Run_while_running_witness :
    busyMachine.va.IsRunning = true ∧
    ((Run (sampleWorld [sampleSale]) background (sampleAnalyzeOptions 1) busyMachine).1
        = ⟨none, some (.msg "analysis already running")⟩ ∧
      (Run (sampleWorld [sampleSale]) background (sampleAnalyzeOptions 1) busyMachine).2
        = busyMachine ∧
      (Run (sampleWorld [sampleSale]) background (sampleAnalyzeOptions 1) busyMachine).2.calls
        = busyMachine.calls ∧
      (Run (sampleWorld [sampleSale]) background
          (sampleAnalyzeOptions 1) busyMachine).2.va.currentStatus
        = busyMachine.va.currentStatus) :=
  ⟨by decide, Run_while_running (sampleWorld [sampleSale]) background (sampleAnalyzeOptions 1)
    busyMachine (by decide)⟩

/-- C17: a call of `Run` made while no run is active leaves `IsRunning` false, whatever
the world answers: when the record cannot be created the slot was never set, and every
later return goes through the deferred `clearStatus`. -/
theorem Run_leaves_not_running (env : AnalyzerEnv) (ctx : Context) (opts : AnalyzeOptions)
    (m : Machine) (h : m.va.IsRunning = false) :
    (Run env ctx opts m).2.va.IsRunning = false := by
  unfold Run
  rw [if_neg (by simp [h])]
  split
  · rw [createRecord_va]
    exact h
  · rfl

set_option maxRecDepth 20000 in
/-- C17 at five runs from rest: the record cannot be created; the scraper refuses an
empty query; the scraper finds no sale; the deadline passes during the fetch and stops
phase 2; one sale is saved. After each of them `IsRunning` is false. -/
theorem Run_leaves_not_running_witness :
    idleMachine.va.IsRunning = false ∧
    ((Run (databaseDown []) background (sampleAnalyzeOptions 1) idleMachine).1
        = ⟨none, some (.wrap "failed to create analysis record" (.msg "connection lost"))⟩ ∧
      (Run (databaseDown []) background
        (sampleAnalyzeOptions 1) idleMachine).2.va.IsRunning = false) ∧
    ((Run (sampleWorld []) background { sampleAnalyzeOptions 1 with Query := "" } idleMachine).1
        = ⟨none, some (.wrap "scraping failed" (.msg "query is required"))⟩ ∧
      (Run (sampleWorld []) background
        { sampleAnalyzeOptions 1 with Query := "" } idleMachine).2.va.IsRunning = false) ∧
    ((Run (sampleWorld []) background (sampleAnalyzeOptions 1) idleMachine).1
        = ⟨some { AnalysisID := 1, ProductsCount := 0, SalesCount := 0, Duration := 15 },
            none⟩ ∧
      (Run (sampleWorld []) background
        (sampleAnalyzeOptions 1) idleMachine).2.va.IsRunning = false) ∧
    ((Run (sampleWorld [fakeSale]) (deadline 13) (sampleAnalyzeOptions 1) idleMachine).1
        = ⟨none, some (.wrap "processing sales failed" .deadlineExceeded)⟩ ∧
      (Run (sampleWorld [fakeSale]) (deadline 13)
        (sampleAnalyzeOptions 1) idleMachine).2.va.IsRunning = false) ∧
    ((Run (sampleWorld [sampleSale]) background (sampleAnalyzeOptions 1) idleMachine).1
        = ⟨some { AnalysisID := 1, ProductsCount := 1, SalesCount := 1, Duration := 35 },
            none⟩ ∧
      (Run (sampleWorld [sampleSale]) background
        (sampleAnalyzeOptions 1) idleMachine).2.va.IsRunning = false) :=
  ⟨by decide,
    ⟨by with_unfolding_all decide,
      Run_leaves_not_running (databaseDown []) background (sampleAnalyzeOptions 1) idleMachine
        (by decide)⟩,
    ⟨by with_unfolding_all decide,
      Run_leaves_not_running (sampleWorld []) background
        { sampleAnalyzeOptions 1 with Query := "" } idleMachine (by decide)⟩,
    ⟨by with_unfolding_all decide,
      Run_leaves_not_running (sampleWorld []) background (sampleAnalyzeOptions 1) idleMachine
        (by decide)⟩,
    ⟨by with_unfolding_all decide,
      Run_leaves_not_running (sampleWorld [fakeSale]) (deadline 13) (sampleAnalyzeOptions 1)
        idleMachine (by decide)⟩,
    ⟨by with_unfolding_all decide,
      Run_leaves_not_running (sampleWorld [sampleSale]) background (sampleAnalyzeOptions 1)
        idleMachine (by decide)⟩⟩

/-- C19: two calls of `Run` on an analyzer at rest, scheduled so that the second call
tests `IsRunning` before the first has set the status: both pass the test, both set the
status and both crawl at once, none gets the already-running error; the slot holds
the status of the call that set it last, and when the first call returns its deferred
`clearStatus` empties the slot while the second still crawls. Run one after the other,
the second call is rejected. -/
theorem concurrent_runs_both_pass_the_check :
    (race ⟨2024, 6, 15, 0⟩ (fun _ => true) [0, 1, 0, 1, 0, 1] ⟨none, [.entry, .entry]⟩).pcs
      = [.crawling, .crawling] ∧
    (race ⟨2024, 6, 15, 0⟩ (fun _ => true) [0, 1, 0, 1, 0, 1]
        ⟨none, [.entry, .entry]⟩).currentStatus
      = some (statusOf ⟨2024, 6, 15, 0⟩ 1) ∧
    race ⟨2024, 6, 15, 0⟩ (fun _ => true) [0, 1, 0, 1, 0, 1, 0] ⟨none, [.entry, .entry]⟩
      = ⟨none, [.returned, .crawling]⟩ ∧
    (race ⟨2024, 6, 15, 0⟩ (fun _ => true) [0, 0, 0, 1] ⟨none, [.entry, .entry]⟩).pcs
      = [.crawling, .rejected] := by
  decide

/-! ### The analyzer: `processSales` and runs without a qualifying sale -/

theorem reportProgress_normalizer (env : AnalyzerEnv) (b : Bool) (p : AnalysisProgress)
    (m : Machine) : (reportProgress env b p m).va.normalizer = m.va.normalizer := by
  unfold reportProgress VolumeAnalyzer.updateProgress
  cases b <;> cases h : m.va.currentStatus <;> simp [h]

theorem reportProgress_batches (env : AnalyzerEnv) (b : Bool) (p : AnalysisProgress)
    (m : Machine) : batchesOf (reportProgress env b p m).calls = batchesOf m.calls := by
  unfold reportProgress
  cases b <;> simp [batchesOf, List.filterMap_append]

theorem reportProgress_updates (env : AnalyzerEnv) (b : Bool) (p : AnalysisProgress)
    (m : Machine) : updatesOf (reportProgress env b p m).calls = updatesOf m.calls := by
  unfold reportProgress
  cases b <;> simp [updatesOf, List.filterMap_append]

theorem findProduct_spec (env : AnalyzerEnv) (normalized : NormalizedProduct) (l : SalesLoop)
    (m : Machine) :
    (findProduct env normalized l m).2.2.va = m.va ∧
    batchesOf (findProduct env normalized l m).2.2.calls = batchesOf m.calls ∧
    (findProduct env normalized l m).2.1.salesToCreate = l.salesToCreate := by
  unfold findProduct
  split
  · exact ⟨rfl, rfl, rfl⟩
  · simp only
    split
    · refine ⟨rfl, ?_, rfl⟩
      simp [Machine.ask, batchesOf, List.filterMap_append]
    · split
      · refine ⟨rfl, ?_, rfl⟩
        simp [Machine.ask, NewProduct, Machine.newUUID, batchesOf, List.filterMap_append]
      · refine ⟨rfl, ?_, rfl⟩
        simp [Machine.ask, NewProduct, Machine.newUUID, batchesOf, List.filterMap_append]

theorem processSale_low (env : AnalyzerEnv) (analysisID : Nat) (onProgress : Bool)
    (total i : Nat) (raw : RawSale) (l : SalesLoop) (m : Machine)
    (h : confidenceOf env m.va.normalizer i raw < 0.3) :
    processSale env analysisID onProgress total i raw l m
      = (l, { m with now := m.now + env.compute i }) := by
  unfold processSale
  unfold confidenceOf at h
  simp only [h, if_true]

theorem processSale_spec (env : AnalyzerEnv) (analysisID : Nat) (onProgress : Bool)
    (total i : Nat) (raw : RawSale) (l : SalesLoop) (m : Machine) :
    (processSale env analysisID onProgress total i raw l m).2.va.normalizer
      = m.va.normalizer ∧
    batchesOf (processSale env analysisID onProgress total i raw l m).2.calls
      = batchesOf m.calls ∧
    ((processSale env analysisID onProgress total i raw l m).1.salesToCreate = l.salesToCreate ∨
      ∃ sale, (processSale env analysisID onProgress total i raw l m).1.salesToCreate
          = l.salesToCreate ++ [sale] ∧
        madeFrom analysisID raw sale ∧ 0.3 ≤ confidenceOf env m.va.normalizer i raw) := by
  unfold processSale
  simp only
  split
  · exact ⟨rfl, rfl, Or.inl rfl⟩
  · rename_i hconf
    have hge : 0.3 ≤ confidenceOf env m.va.normalizer i raw := not_lt.1 hconf
    have hf := findProduct_spec env
      (m.va.normalizer.Normalize (env.order i) raw.Title.toList).1 l
      { m with now := m.now + env.compute i }
    split
    · rename_i l1 m1 heq
      rw [heq] at hf
      exact ⟨by rw [hf.1], hf.2.1, Or.inl hf.2.2⟩
    · rename_i product l1 m1 heq
      rw [heq] at hf
      simp only at hf
      have hmade : ∀ (s : Sale), s = (NewSale env m1 product.ID raw.Title raw.Price
          raw.SoldAt).1.SetAnalysisID analysisID →
          madeFrom analysisID raw (if raw.URL ≠ "" then s.SetURL raw.URL else s) := by
        intro s hs
        subst hs
        split <;> exact ⟨rfl, rfl, rfl, rfl, rfl⟩
      split
      · refine ⟨?_, ?_, Or.inr ⟨_, ?_, hmade _ rfl, hge⟩⟩
        · rw [reportProgress_normalizer]
          simp [NewSale, Machine.newUUID, hf.1]
        · rw [reportProgress_batches]
          simpa [NewSale, Machine.newUUID] using hf.2.1
        · simp [hf.2.2]
      · refine ⟨?_, ?_, Or.inr ⟨_, ?_, hmade _ rfl, hge⟩⟩
        · simp [NewSale, Machine.newUUID, hf.1]
        · simpa [NewSale, Machine.newUUID] using hf.2.1
        · simp [hf.2.2]

theorem processLoop_spec (env : AnalyzerEnv) (ctx : Context) (analysisID : Nat)
    (onProgress : Bool) (total : Nat) (rawSales : List RawSale) (n0 : Normalizer) :
    ∀ (rest : List RawSale) (i : Nat) (l : SalesLoop) (m : Machine) (idx : List Nat),
      (∀ j, rest[j]? = rawSales[i + j]?) → m.va.normalizer = n0 →
      FromQualifying env n0 analysisID rawSales l.salesToCreate idx → (∀ k ∈ idx, k < i) →
      (processLoop env ctx analysisID onProgress total i rest l m).2.2.va.normalizer = n0 ∧
      batchesOf (processLoop env ctx analysisID onProgress total i rest l m).2.2.calls
        = batchesOf m.calls ∧
      ∃ idx1, FromQualifying env n0 analysisID rawSales
        (processLoop env ctx analysisID onProgress total i rest l m).2.1.salesToCreate idx1 := by
  intro rest
  induction rest with
  | nil =>
    intro i l m idx _ hn hq _
    exact ⟨hn, rfl, idx, hq⟩
  | cons raw rest ih =>
    intro i l m idx hrest hn hq hlt
    unfold processLoop
    split
    · exact ⟨hn, rfl, idx, hq⟩
    · have hstep := processSale_spec env analysisID onProgress total i raw l m
      have hraw : rawSales[i]? = some raw := by
        have := hrest 0
        simpa using this.symm
      have hrest1 : ∀ j, rest[j]? = rawSales[i + 1 + j]? := by
        intro j
        have := hrest (j + 1)
        rw [show i + (j + 1) = i + 1 + j by omega] at this
        simpa using this
      rcases hstep.2.2 with hsame | ⟨sale, happ, hmade, hge⟩
      · have := ih (i + 1) (processSale env analysisID onProgress total i raw l m).1
          (processSale env analysisID onProgress total i raw l m).2 idx hrest1
          (by rw [hstep.1, hn]) (by rw [hsame]; exact hq)
          (fun k hk => Nat.lt_succ_of_lt (hlt k hk))
        exact ⟨this.1, by rw [this.2.1, hstep.2.1], this.2.2⟩
      · have hq1 : FromQualifying env n0 analysisID rawSales
            (processSale env analysisID onProgress total i raw l m).1.salesToCreate
            (idx ++ [i]) := by
          rw [happ]
          refine ⟨?_, ?_⟩
          · rw [List.pairwise_append]
            refine ⟨hq.1, List.pairwise_singleton _ _, ?_⟩
            intro a ha b hb
            rw [List.mem_singleton] at hb
            subst hb
            exact hlt a ha
          · refine List.rel_append hq.2 ?_
            refine List.Forall₂.cons ⟨raw, hraw, hmade, ?_⟩ List.Forall₂.nil
            rw [← hn]
            exact hge
        have := ih (i + 1) (processSale env analysisID onProgress total i raw l m).1
          (processSale env analysisID onProgress total i raw l m).2 (idx ++ [i]) hrest1
          (by rw [hstep.1, hn]) hq1
          (by
            intro k hk
            rw [List.mem_append, List.mem_singleton] at hk
            rcases hk with hk | hk
            · exact Nat.lt_succ_of_lt (hlt k hk)
            · omega)
        exact ⟨this.1, by rw [this.2.1, hstep.2.1], this.2.2⟩

/-- C15, amended: in `processSales`, an iteration on a raw sale normalised with a
confidence below 0.3 leaves the loop variables, the log of calls and the analyzer as
they were and only lets its own time pass (no product lookup, no product creation, no
sale record); the sales gathered by the loop were made, in order, from raw sales at
increasing positions, each with a confidence of at least 0.3; the only batch
`processSales` hands to `BulkCreate` is that list; when `processSales` returns a nil
error the sale count it returns is the length of that list, and when it returns an
error the sale count is 0. -/
theorem processSales_confidence_floor (env : AnalyzerEnv) (ctx : Context) (analysisID : Nat)
    (rawSales : List RawSale) (onProgress : Bool) (m : Machine) :
    (∀ (total i : Nat) (raw : RawSale) (l : SalesLoop) (m1 : Machine),
      confidenceOf env m1.va.normalizer i raw < 0.3 →
      processSale env analysisID onProgress total i raw l m1
        = (l, { m1 with now := m1.now + env.compute i })) ∧
    (∃ idx, FromQualifying env m.va.normalizer analysisID rawSales
      (salesBatch env ctx analysisID rawSales onProgress m) idx) ∧
    (batchesOf (processSales env ctx analysisID rawSales onProgress m).2.calls
        = batchesOf m.calls ∨
      batchesOf (processSales env ctx analysisID rawSales onProgress m).2.calls
        = batchesOf m.calls ++ [salesBatch env ctx analysisID rawSales onProgress m]) ∧
    ((processSales env ctx analysisID rawSales onProgress m).1.err = none →
      (processSales env ctx analysisID rawSales onProgress m).1.salesCount
        = (salesBatch env ctx analysisID rawSales onProgress m).length) ∧
    ((processSales env ctx analysisID rawSales onProgress m).1.err ≠ none →
      (processSales env ctx analysisID rawSales onProgress m).1.salesCount = 0) := by
  have hloop := processLoop_spec env ctx analysisID onProgress rawSales.length rawSales
    m.va.normalizer rawSales 0 ⟨[], [], 0⟩ m [] (by intro j; simp) rfl
    ⟨List.Pairwise.nil, List.Forall₂.nil⟩ (by simp)
  refine ⟨fun total i raw l m1 h => processSale_low env analysisID onProgress total i raw l m1 h,
    hloop.2.2, ?_, ?_, ?_⟩
  · unfold processSales salesBatch
    split
    · rename_i err l1 m1 heq
      rw [heq] at hloop
      exact Or.inl hloop.2.1
    · rename_i l1 m1 heq
      rw [heq] at hloop
      split
      · split
        · right
          rw [heq]
          simp only [Machine.ask, batchesOf, List.filterMap_append]
          simpa [batchesOf] using hloop.2.1
        · right
          rw [heq]
          simp only [Machine.ask, batchesOf, List.filterMap_append]
          simpa [batchesOf] using hloop.2.1
      · exact Or.inl hloop.2.1
  · unfold processSales salesBatch
    split
    · intro h
      cases h
    · rename_i l1 m1 heq
      rw [heq]
      split
      · split
        · intro h
          cases h
        · intro _
          rfl
      · intro _
        rfl
  · unfold processSales
    split
    · intro _
      rfl
    · split
      · split
        · intro _
          rfl
        · intro h
          exact absurd rfl h
      · intro h
        exact absurd rfl h

set_option maxRecDepth 20000 in
/-- C15, amended, at a run of `processSales` on two raw sales, the first normalised with
confidence 0 and the second with a confidence of at least 0.3: the batch holds the one
sale made from the second, and the count returned is its length. -/
theorem processSales_confidence_floor_witness :
    confidenceOf (sampleWorld []) idleMachine.va.normalizer 0 fakeSale < 0.3 ∧
    0.3 ≤ confidenceOf (sampleWorld []) idleMachine.va.normalizer 1 sampleSale ∧
    (processSales (sampleWorld []) background 1 [fakeSale, sampleSale] true
      idleMachine).1.err = none ∧
    (salesBatch (sampleWorld []) background 1 [fakeSale, sampleSale] true idleMachine).map
      (fun sale => sale.Title) = ["Display 151"] ∧
    (processSales (sampleWorld []) background 1 [fakeSale, sampleSale] true
      idleMachine).1.salesCount
      = (salesBatch (sampleWorld []) background 1 [fakeSale, sampleSale] true
          idleMachine).length :=
  ⟨by with_unfolding_all decide, by with_unfolding_all decide, by with_unfolding_all decide,
    by with_unfolding_all decide,
    (processSales_confidence_floor (sampleWorld []) background 1 [fakeSale, sampleSale] true
      idleMachine).2.2.2.1 (by with_unfolding_all decide)⟩

set_option maxRecDepth 20000 in
/-- C15, counterexample: one raw sale, normalised with a confidence of at least 0.3, and
a `BulkCreate` that fails. The batch handed to `BulkCreate` holds one sale, yet the sale
count `processSales` returns is 0, with the error, and `Run` fails. -/
theorem failed_BulkCreate_returns_count_zero :
    0.3 ≤ confidenceOf (bulkCreateDown [sampleSale]) idleMachine.va.normalizer 0 sampleSale ∧
    (batchesOf (processSales (bulkCreateDown [sampleSale]) background 1 [sampleSale] true
      idleMachine).2.calls).map List.length = [1] ∧
    (salesBatch (bulkCreateDown [sampleSale]) background 1 [sampleSale] true
      idleMachine).length = 1 ∧
    (processSales (bulkCreateDown [sampleSale]) background 1 [sampleSale] true idleMachine).1
      = ⟨0, 0, some (.wrap "failed to bulk create sales" (.msg "connection lost"))⟩ ∧
    (Run (bulkCreateDown [sampleSale]) background (sampleAnalyzeOptions 1) idleMachine).1
      = ⟨none, some (.wrap "processing sales failed"
          (.wrap "failed to bulk create sales" (.msg "connection lost")))⟩ := by
  refine ⟨?_, ?_, ?_, ?_, ?_⟩
  · with_unfolding_all decide
  · with_unfolding_all decide
  · with_unfolding_all decide
  · with_unfolding_all decide
  · with_unfolding_all decide

theorem processLoop_all_low (env : AnalyzerEnv) (ctx : Context) (analysisID : Nat)
    (onProgress : Bool) (total : Nat) :
    ∀ (rest : List RawSale) (i : Nat) (l : SalesLoop) (m : Machine),
      (∀ k, k < rest.length → ctx.Done (m.now + skipTime env i k) = false) →
      (∀ (j : Nat) (raw : RawSale), rest[j]? = some raw →
        confidenceOf env m.va.normalizer (i + j) raw < 0.3) →
      processLoop env ctx analysisID onProgress total i rest l m
        = (none, l, { m with now := m.now + skipTime env i rest.length }) := by
  intro rest
  induction rest with
  | nil =>
    intro i l m _ _
    simp [processLoop, skipTime]
  | cons raw rest ih =>
    intro i l m hctx hlow
    have h0 : confidenceOf env m.va.normalizer i raw < 0.3 := by
      have := hlow 0 raw (by simp)
      simpa using this
    have hd : ctx.Done m.now = false := by
      have := hctx 0 (by simp)
      simpa [skipTime] using this
    unfold processLoop
    rw [if_neg (by simp [hd]), processSale_low env analysisID onProgress total i raw l m h0]
    rw [ih (i + 1) l { m with now := m.now + env.compute i }]
    · simp [skipTime, add_assoc]
    · intro k hk
      have := hctx (k + 1) (by simpa using hk)
      simpa [skipTime, add_assoc] using this
    · intro j r hj
      have := hlow (j + 1) r (by simpa using hj)
      rw [show i + (j + 1) = i + 1 + j by omega] at this
      exact this

theorem processSales_all_low (env : AnalyzerEnv) (ctx : Context) (analysisID : Nat)
    (rawSales : List RawSale) (onProgress : Bool) (m : Machine)
    (hctx : ∀ k, k < rawSales.length → ctx.Done (m.now + skipTime env 0 k) = false)
    (hlow : ∀ (j : Nat) (raw : RawSale), rawSales[j]? = some raw →
      confidenceOf env m.va.normalizer j raw < 0.3) :
    processSales env ctx analysisID rawSales onProgress m
      = (⟨0, 0, none⟩, { m with now := m.now + skipTime env 0 rawSales.length }) := by
  unfold processSales
  rw [processLoop_all_low env ctx analysisID onProgress rawSales.length rawSales 0 _ m hctx
    (by intro j raw h; simpa using hlow j raw h)]
  simp

theorem processSales_done (env : AnalyzerEnv) (ctx : Context) (analysisID : Nat)
    (raw : RawSale) (rest : List RawSale) (onProgress : Bool) (m : Machine)
    (hctx : ctx.Done m.now = true) :
    processSales env ctx analysisID (raw :: rest) onProgress m
      = (⟨0, 0, some ctx.cause⟩, m) := by
  unfold processSales processLoop
  simp [hctx, Context.Err]

theorem scraped_normalizer (env : AnalyzerEnv) (ctx : Context) (opts : AnalyzeOptions)
    (m : Machine) : (scrapedBy env ctx opts m).2.va.normalizer = m.va.normalizer := by
  unfold scrapedBy runScrape callScraper
  simp only [reportProgress_normalizer]
  rfl

theorem scraped_updates (env : AnalyzerEnv) (ctx : Context) (opts : AnalyzeOptions)
    (m : Machine) : updatesOf (scrapedBy env ctx opts m).2.calls = updatesOf m.calls := by
  unfold scrapedBy runScrape callScraper
  simp only
  have h1 : ∀ (cs : List Call) (o : ScrapeOptions),
      updatesOf (cs ++ [.scrape o]) = updatesOf cs := by
    intro cs o
    simp [updatesOf, List.filterMap_append]
  rw [h1, reportProgress_updates]
  simp [enterRun, createRecord, Machine.ask, NewAnalysis, Machine.newUUID, updatesOf,
    List.filterMap_append]

theorem ask_update (env : AnalyzerEnv) (m : Machine) (a : Analysis) :
    updatesOf (m.ask env (.analysisUpdate a)).2.calls = updatesOf m.calls ++ [a] := by
  simp [Machine.ask, updatesOf, List.filterMap_append]

theorem processLoop_low_done (env : AnalyzerEnv) (ctx : Context) (analysisID : Nat)
    (onProgress : Bool) (total : Nat) :
    ∀ (k : Nat) (rest : List RawSale) (i : Nat) (l : SalesLoop) (m : Machine),
      k < rest.length →
      (∀ j, j < k → ctx.Done (m.now + skipTime env i j) = false) →
      ctx.Done (m.now + skipTime env i k) = true →
      (∀ (j : Nat) (raw : RawSale), rest[j]? = some raw →
        confidenceOf env m.va.normalizer (i + j) raw < 0.3) →
      processLoop env ctx analysisID onProgress total i rest l m
        = (some ctx.cause, l, { m with now := m.now + skipTime env i k }) := by
  intro k
  induction k with
  | zero =>
    intro rest i l m hk _ hdone _
    obtain ⟨raw, rest1, rfl⟩ : ∃ raw rest1, rest = raw :: rest1 := by
      cases rest with
      | nil => simp at hk
      | cons raw rest1 => exact ⟨raw, rest1, rfl⟩
    have hd : ctx.Done m.now = true := by simpa [skipTime] using hdone
    unfold processLoop
    simp [hd, Context.Err, skipTime]
  | succ k ih =>
    intro rest i l m hk hlive hdone hlow
    obtain ⟨raw, rest1, rfl⟩ : ∃ raw rest1, rest = raw :: rest1 := by
      cases rest with
      | nil => simp at hk
      | cons raw rest1 => exact ⟨raw, rest1, rfl⟩
    have h0 : confidenceOf env m.va.normalizer i raw < 0.3 := by
      have := hlow 0 raw (by simp)
      simpa using this
    have hd : ctx.Done m.now = false := by
      have := hlive 0 (by omega)
      simpa [skipTime] using this
    unfold processLoop
    rw [if_neg (by simp [hd]), processSale_low env analysisID onProgress total i raw l m h0]
    rw [ih rest1 (i + 1) l { m with now := m.now + env.compute i }]
    · simp [skipTime, add_assoc]
    · simpa using hk
    · intro j hj
      have := hlive (j + 1) (by omega)
      simpa [skipTime, add_assoc] using this
    · simpa [skipTime, add_assoc] using hdone
    · intro j r hj
      have := hlow (j + 1) r (by simpa using hj)
      rw [show i + (j + 1) = i + 1 + j by omega] at this
      exact this

theorem processSales_low_done (env : AnalyzerEnv) (ctx : Context) (analysisID : Nat)
    (rawSales : List RawSale) (onProgress : Bool) (m : Machine) (k : Nat)
    (hk : k < rawSales.length)
    (hlive : ∀ j, j < k → ctx.Done (m.now + skipTime env 0 j) = false)
    (hdone : ctx.Done (m.now + skipTime env 0 k) = true)
    (hlow : ∀ (j : Nat) (raw : RawSale), rawSales[j]? = some raw →
      confidenceOf env m.va.normalizer j raw < 0.3) :
    processSales env ctx analysisID rawSales onProgress m
      = (⟨0, 0, some ctx.cause⟩, { m with now := m.now + skipTime env 0 k }) := by
  unfold processSales
  rw [processLoop_low_done env ctx analysisID onProgress rawSales.length k rawSales 0 _ m hk
    hlive hdone (by intro j raw h; simpa using hlow j raw h)]

/-- C18, amended: a call of `Run` on an analyzer at rest whose record is created, whose
scraper returns no error, and whose raw sales are all normalised with a confidence
below 0.3 (there may be none). When the context is not done at any of the instants at
which `processSales` tests it, `Run` returns a nil error and a result with counts 0
and 0, and hands to `analysisRepo.Update` exactly one record, marked completed with
counts 0 and 0. When the context is done at one of these instants, `Run` returns the
error of the context under `processing sales failed` and the one record it hands to
`analysisRepo.Update` is marked failed. `processSales` tests the context once for each
raw sale `k`: at the instant `Run` enters `processSales` (the scraper has returned and
the two progress reports are over) plus the time the iterations on the raw sales
before `k` have taken. -/
theorem Run_without_qualifying_sales (env : AnalyzerEnv) (ctx : Context)
    (opts : AnalyzeOptions) (m : Machine)
    (hidle : m.va.IsRunning = false)
    (hcreate : (createRecord env (withDefaults opts) m).1.err = none)
    (hscrape : (scrapedBy env ctx opts m).1.err = none)
    (hlow : ∀ (i : Nat) (raw : RawSale), (scrapedSales env ctx opts m)[i]? = some raw →
      confidenceOf env m.va.normalizer i raw < 0.3) :
    ((∀ k, k < (scrapedSales env ctx opts m).length →
        ctx.Done ((enteringProcessSales env ctx opts m).now + skipTime env 0 k) = false) →
      (Run env ctx opts m).1.err = none ∧
      (∃ r, (Run env ctx opts m).1.result = some r ∧ r.ProductsCount = 0 ∧
        r.SalesCount = 0) ∧
      (∃ a, updatesOf (Run env ctx opts m).2.calls = updatesOf m.calls ++ [a] ∧
        a.ID = (newRecord env (withDefaults opts) m).ID ∧ a.Status = StatusCompleted ∧
        a.ProductsCount = 0 ∧ a.SalesCount = 0)) ∧
    (∀ k, k < (scrapedSales env ctx opts m).length →
      (∀ j, j < k →
        ctx.Done ((enteringProcessSales env ctx opts m).now + skipTime env 0 j) = false) →
      ctx.Done ((enteringProcessSales env ctx opts m).now + skipTime env 0 k) = true →
      (Run env ctx opts m).1 = ⟨none, some (.wrap "processing sales failed" ctx.cause)⟩ ∧
      (∃ a, updatesOf (Run env ctx opts m).2.calls = updatesOf m.calls ++ [a] ∧
        a.ID = (newRecord env (withDefaults opts) m).ID ∧ a.Status = StatusFailed ∧
        a.ErrorMessage = some ctx.cause.Error)) := by
  have hn : ∀ (i : Nat) (raw : RawSale), (scrapedSales env ctx opts m)[i]? = some raw →
      confidenceOf env (enteringProcessSales env ctx opts m).va.normalizer i raw < 0.3 := by
    unfold enteringProcessSales
    simp only [reportProgress_normalizer, scraped_normalizer]
    exact hlow
  have hs : (runScrape env ctx (withDefaults opts) (enterRun env (withDefaults opts) m))
      = scrapedBy env ctx opts m := rfl
  constructor
  · intro hctx
    unfold Run
    rw [if_neg (by simp [hidle])]
    simp only [hcreate]
    unfold runGuarded
    simp only [hs, hscrape]
    by_cases hzero : ((scrapedBy env ctx opts m).1.result.getD NewScrapeResult).SaleCount = 0
    · rw [if_pos hzero]
      unfold completeEmpty
      refine ⟨?_, ?_, ?_⟩
      · rfl
      · exact ⟨_, rfl, rfl, rfl⟩
      · simp only [ask_update, reportProgress_updates, scraped_updates]
        exact ⟨_, rfl, rfl, rfl, rfl, rfl⟩
    · rw [if_neg hzero]
      have hps := processSales_all_low env ctx (newRecord env (withDefaults opts) m).ID
        (scrapedSales env ctx opts m) (withDefaults opts).OnProgress
        (enteringProcessSales env ctx opts m) hctx hn
      unfold processAndComplete
      unfold scrapedSales enteringProcessSales at hps
      simp only [hps]
      refine ⟨?_, ?_, ?_⟩
      · trivial
      · exact ⟨_, rfl, rfl, rfl⟩
      · simp only [ask_update, reportProgress_updates, scraped_updates]
        exact ⟨_, rfl, rfl, rfl, rfl, rfl⟩
  · intro k hk hlive hdone
    have hzero : ¬ ((scrapedBy env ctx opts m).1.result.getD NewScrapeResult).SaleCount = 0 := by
      intro h
      unfold scrapedSales at hk
      simp only [ScrapeResult.SaleCount] at h
      omega
    have hps := processSales_low_done env ctx (newRecord env (withDefaults opts) m).ID
      (scrapedSales env ctx opts m) (withDefaults opts).OnProgress
      (enteringProcessSales env ctx opts m) k hk hlive hdone hn
    unfold Run
    rw [if_neg (by simp [hidle])]
    simp only [hcreate]
    unfold runGuarded
    simp only [hs, hscrape]
    rw [if_neg hzero]
    unfold processAndComplete
    unfold scrapedSales enteringProcessSales at hps
    simp only [hps]
    refine ⟨trivial, ?_⟩
    unfold failAnalysis
    simp only [ask_update, reportProgress_updates, scraped_updates]
    exact ⟨_, rfl, rfl, rfl, rfl⟩

set_option maxRecDepth 20000 in
/-- C18, counterexample: the only sale scraped is normalised with confidence 0 and the
scraper returns no error, but the context is done when phase 2 tests it before its
first raw sale: `Run` returns an error and marks the record failed. In the first run
the deadline (instant 13) passes while the page is fetched (instants 10 to 15). In the
second the deadline (instant 18) lies after the return of the scraper (instant 17) and
passes during the progress reports; `processSales` is entered at instant 21. -/
theorem run_without_qualifying_sales_fails_on_expired_context :
    idleMachine.va.IsRunning = false ∧
    (createRecord (sampleWorld [fakeSale]) (withDefaults (sampleAnalyzeOptions 1))
      idleMachine).1.err = none ∧
    (scrapedBy (sampleWorld [fakeSale]) (deadline 13) (sampleAnalyzeOptions 1)
      idleMachine).1.err = none ∧
    scrapedSales (sampleWorld [fakeSale]) (deadline 13) (sampleAnalyzeOptions 1) idleMachine
      = [fakeSale] ∧
    confidenceOf (sampleWorld [fakeSale]) idleMachine.va.normalizer 0 fakeSale = 0 ∧
    (scrapedBy (sampleWorld [fakeSale]) (deadline 13) (sampleAnalyzeOptions 1)
      idleMachine).2.now = 15 ∧
    (Run (sampleWorld [fakeSale]) (deadline 13) (sampleAnalyzeOptions 1) idleMachine).1
      = ⟨none, some (.wrap "processing sales failed" .deadlineExceeded)⟩ ∧
    (updatesOf (Run (sampleWorld [fakeSale]) (deadline 13) (sampleAnalyzeOptions 1)
      idleMachine).2.calls).map (fun a => (a.Status, a.ErrorMessage))
      = [(StatusFailed, some "context deadline exceeded")] ∧
    ((createRecord (slowWorld [fakeSale]) (withDefaults (sampleAnalyzeOptions 1))
        idleMachine).1.err = none ∧
      (scrapedBy (slowWorld [fakeSale]) (deadline 18) (sampleAnalyzeOptions 1)
        idleMachine).1.err = none ∧
      scrapedSales (slowWorld [fakeSale]) (deadline 18) (sampleAnalyzeOptions 1) idleMachine
        = [fakeSale] ∧
      confidenceOf (slowWorld [fakeSale]) idleMachine.va.normalizer 0 fakeSale = 0 ∧
      (scrapedBy (slowWorld [fakeSale]) (deadline 18) (sampleAnalyzeOptions 1)
        idleMachine).2.now = 17 ∧
      (deadline 18).Done 17 = false ∧
      (enteringProcessSales (slowWorld [fakeSale]) (deadline 18) (sampleAnalyzeOptions 1)
        idleMachine).now = 21 ∧
      (Run (slowWorld [fakeSale]) (deadline 18) (sampleAnalyzeOptions 1) idleMachine).1
        = ⟨none, some (.wrap "processing sales failed" .deadlineExceeded)⟩ ∧
      (updatesOf (Run (slowWorld [fakeSale]) (deadline 18) (sampleAnalyzeOptions 1)
        idleMachine).2.calls).map (fun a => (a.Status, a.ErrorMessage))
        = [(StatusFailed, some "context deadline exceeded")]) := by
  refine ⟨by decide, by decide, ?_, ?_, ?_, ?_, ?_, ?_, by decide, ?_, ?_, ?_, ?_, by decide,
    ?_, ?_, ?_⟩
  · with_unfolding_all decide
  · with_unfolding_all decide
  · with_unfolding_all decide
  · with_unfolding_all decide
  · with_unfolding_all decide
  · with_unfolding_all decide
  · with_unfolding_all decide
  · with_unfolding_all decide
  · with_unfolding_all decide
  · with_unfolding_all decide
  · with_unfolding_all decide
  · with_unfolding_all decide
  · with_unfolding_all decide

set_option maxRecDepth 20000 in
theorem fakeSales_low :
    ∀ (i : Nat) (raw : RawSale), [fakeSale, fakeSale][i]? = some raw →
      confidenceOf (slowWorld [fakeSale, fakeSale]) idleMachine.va.normalizer i raw
        < 0.3 := by
  intro i raw h
  have hraw : raw = fakeSale := by
    match i, h with
    | 0, h => simpa using h.symm
    | 1, h => simpa using h.symm
    | k + 2, h => simp at h
  subst hraw
  show confidenceOf (sampleWorld []) idleMachine.va.normalizer 0 fakeSale < 0.3
  with_unfolding_all decide

set_option maxRecDepth 20000 in
theorem fakeSales_scraped :
    scrapedSales (slowWorld [fakeSale, fakeSale]) (deadline 23) (sampleAnalyzeOptions 1)
      idleMachine = [fakeSale, fakeSale] := by
  with_unfolding_all decide

set_option maxRecDepth 20000 in
/-- C18, amended, at a run whose two sales are both normalised with confidence 0, whose
progress reports take 2 ns and whose iterations take 1 ns: `processSales` is entered
at instant 21 and tests the context at instants 21 and 22; with a deadline at instant
23 the run completes with counts 0 and 0. -/
theorem Run_without_qualifying_sales_witness :
    idleMachine.va.IsRunning = false ∧
    (createRecord (slowWorld [fakeSale, fakeSale]) (withDefaults (sampleAnalyzeOptions 1))
      idleMachine).1.err = none ∧
    (scrapedBy (slowWorld [fakeSale, fakeSale]) (deadline 23) (sampleAnalyzeOptions 1)
      idleMachine).1.err = none ∧
    scrapedSales (slowWorld [fakeSale, fakeSale]) (deadline 23) (sampleAnalyzeOptions 1)
      idleMachine = [fakeSale, fakeSale] ∧
    (enteringProcessSales (slowWorld [fakeSale, fakeSale]) (deadline 23)
      (sampleAnalyzeOptions 1) idleMachine).now = 21 ∧
    skipTime (slowWorld [fakeSale, fakeSale]) 0 1 = 1 ∧
    ((Run (slowWorld [fakeSale, fakeSale]) (deadline 23) (sampleAnalyzeOptions 1)
        idleMachine).1.err = none ∧
      (∃ r, (Run (slowWorld [fakeSale, fakeSale]) (deadline 23) (sampleAnalyzeOptions 1)
          idleMachine).1.result = some r ∧ r.ProductsCount = 0 ∧ r.SalesCount = 0) ∧
      (∃ a, updatesOf (Run (slowWorld [fakeSale, fakeSale]) (deadline 23)
            (sampleAnalyzeOptions 1) idleMachine).2.calls
          = updatesOf idleMachine.calls ++ [a] ∧
        a.ID = (newRecord (slowWorld [fakeSale, fakeSale])
          (withDefaults (sampleAnalyzeOptions 1)) idleMachine).ID ∧
        a.Status = StatusCompleted ∧ a.ProductsCount = 0 ∧ a.SalesCount = 0)) :=
  ⟨by decide, by decide, by with_unfolding_all decide, fakeSales_scraped,
    by with_unfolding_all decide, by decide,
    (Run_without_qualifying_sales (slowWorld [fakeSale, fakeSale]) (deadline 23)
      (sampleAnalyzeOptions 1) idleMachine (by decide) (by decide)
      (by with_unfolding_all decide)
      (by rw [fakeSales_scraped]; exact fakeSales_low)).1
      (by
        rw [fakeSales_scraped]
        intro k hk
        have hk2 : k < 2 := hk
        interval_cases k
        · with_unfolding_all decide
        · with_unfolding_all decide)⟩

/-! ### The retryer: exhaustion, delays, error text and cancellation -/

theorem DoLoop_alwaysFails (r : Retryer) (rnd : Nat → ℚ) (ctx : Context)
    (errs : Nat → Err) (dur : Nat → Int) (hctx : ctx.doneAt = none)
    (hretry : r.config.allRetryable) (M : Nat) (hM : (M : Int) = r.config.MaxRetries) :
    ∀ (d j left : Nat) (lastErr : Option Err) (now : Int), j + d = M → d < left →
      (Retryer.DoLoop r rnd ctx (alwaysFails errs dur) left j lastErr now j).1
        = some (.retry (r.config.MaxRetries + 1) (errs (M + 1))) ∧
      (Retryer.DoLoop r rnd ctx (alwaysFails errs dur) left j lastErr now j).2.2 = M + 1 := by
  have hdone : ∀ t, ctx.Done t = false := fun t => Done_never ctx t hctx
  have hs : ∀ t dd, sleepOrDone ctx t dd = (false, t + max dd 0) := by
    intro t dd
    simp [sleepOrDone, hctx]
  intro d
  induction d with
  | zero =>
    intro j left lastErr now hj hl
    obtain ⟨left, rfl⟩ : ∃ l, left = l + 1 := ⟨left - 1, by omega⟩
    have hjM : j = M := by omega
    subst hjM
    unfold RetryConfig.allRetryable at hretry
    cases hc : r.config.RetryableCheck with
    | none =>
      simp only [Retryer.DoLoop, hdone, alwaysFails, hc, hM, if_true, if_false,
        Bool.false_eq_true, RetryError]
      exact ⟨trivial, trivial⟩
    | some check =>
      rw [hc] at hretry
      simp only [Retryer.DoLoop, hdone, alwaysFails, hc, hM, if_true, if_false,
        Bool.false_eq_true, RetryError, hretry, Bool.not_true]
      exact ⟨trivial, trivial⟩
  | succ d ih =>
    intro j left lastErr now hj hl
    obtain ⟨left, rfl⟩ : ∃ l, left = l + 1 := ⟨left - 1, by omega⟩
    have hne : ¬ ((j : Int) = r.config.MaxRetries) := by
      rw [← hM]
      omega
    have := ih (j + 1) left (some (errs (j + 1)))
      (now + dur (j + 1) + max (r.calculateDelay (rnd j) j) 0) (by omega) (by omega)
    unfold RetryConfig.allRetryable at hretry
    cases hc : r.config.RetryableCheck with
    | none =>
      simp only [Retryer.DoLoop, hdone, alwaysFails, hc, hne, if_false, hs,
        Bool.false_eq_true]
      exact this
    | some check =>
      rw [hc] at hretry
      simp only [Retryer.DoLoop, hdone, alwaysFails, hc, hne, if_false, hs,
        Bool.false_eq_true, hretry, Bool.not_true]
      exact this

/-- C21: with `MaxRetries` at least 0, a context that is never cancelled and every error
retryable, `Do` on an operation that always fails calls it exactly `MaxRetries + 1`
times and returns a `RetryError`, recognised by `IsRetryError`, whose `Attempts` is
`MaxRetries + 1` and whose `Unwrap` is the error of the last call. -/
theorem Do_exhausts_retries (r : Retryer) (rnd : Nat → ℚ) (ctx : Context)
    (errs : Nat → Err) (dur : Nat → Int) (now : Int)
    (hmax : 0 ≤ r.config.MaxRetries) (hctx : ctx.doneAt = none)
    (hretry : r.config.allRetryable) :
    (r.Do rnd ctx (alwaysFails errs dur) now 0).2.2 = r.config.MaxRetries.toNat + 1 ∧
    ∃ e, (r.Do rnd ctx (alwaysFails errs dur) now 0).1 = some e ∧ IsRetryError e = true ∧
      e.Attempts = some (r.config.MaxRetries + 1) ∧
      e.Unwrap = some (errs (r.config.MaxRetries.toNat + 1)) := by
  have h := DoLoop_alwaysFails r rnd ctx errs dur hctx hretry r.config.MaxRetries.toNat
    (by omega) r.config.MaxRetries.toNat 0 (r.config.MaxRetries + 1).toNat none now
    (by omega) (by omega)
  unfold Retryer.Do
  exact ⟨h.2, _, h.1, rfl, rfl, rfl⟩

/-- C21 at the run of `TestRetryerMaxRetriesExceeded`: two retries allowed, three calls,
and a `RetryError` with `Attempts` 3 around the persistent error. -/
theorem Do_exhausts_retries_witness :
    (0 : Int) ≤ exhaustedRetryer.config.MaxRetries ∧ background.doneAt = none ∧
    exhaustedRetryer.config.allRetryable ∧
    ((exhaustedRetryer.Do (fun _ => 0) background
        (alwaysFails (fun _ => .msg "persistent error") (fun _ => 1000)) 0 0).2.2
        = exhaustedRetryer.config.MaxRetries.toNat + 1 ∧
      ∃ e, (exhaustedRetryer.Do (fun _ => 0) background
          (alwaysFails (fun _ => .msg "persistent error") (fun _ => 1000)) 0 0).1 = some e ∧
        IsRetryError e = true ∧ e.Attempts = some (exhaustedRetryer.config.MaxRetries + 1) ∧
        e.Unwrap = some (.msg "persistent error")) :=
  ⟨by decide, rfl, trivial,
    Do_exhausts_retries exhaustedRetryer (fun _ => 0) background
      (fun _ => .msg "persistent error") (fun _ => 1000) 0 (by decide) rfl trivial⟩

theorem runeString_digit (n : Int) (h0 : 0 ≤ n) (h9 : n ≤ 9) :
    runeString (n + 48) = Itoa n := by
  interval_cases n <;> decide

/-- C23: the text of a `RetryError` with 11 attempts holds the single character `;`
where the count is expected, not `11`: `Error` converts `Attempts + 48` to a rune and
the rune to a string. For a count from 0 to 9 the text does hold the count in
decimal. -/
theorem RetryError_text_is_not_decimal :
    (Err.retry 11 (.msg "persistent error")).Error
      = "max retries exceeded after ; attempts: persistent error" ∧
    (Err.retry 11 (.msg "persistent error")).Error
      ≠ "max retries exceeded after " ++ Itoa 11 ++ " attempts: "
          ++ (Err.msg "persistent error").Error ∧
    Itoa 11 = "11" ∧
    (∀ (n : Int) (e : Err), 0 ≤ n → n ≤ 9 →
      (Err.retry n e).Error
        = "max retries exceeded after " ++ Itoa n ++ " attempts: " ++ e.Error) := by
  refine ⟨by decide, by decide, by decide, ?_⟩
  intro n e h0 h9
  simp only [Err.Error, runeString_digit n h0 h9]

/-! ### The delays of the retryer: `float64` and `calculateDelay` -/

theorem pow2_eq (e : Int) : pow2 e = (2 : ℚ) ^ e := by
  unfold pow2
  split
  · rename_i h
    obtain ⟨n, rfl⟩ := Int.eq_ofNat_of_zero_le h
    simp
  · rename_i h
    obtain ⟨n, rfl⟩ : ∃ n : ℕ, e = -(n : ℤ) := ⟨(-e).toNat, by omega⟩
    simp [zpow_neg]

theorem pow2_pos (e : Int) : 0 < pow2 e := by
  rw [pow2_eq]
  positivity

theorem bitLength_spec : ∀ (fuel n : Nat), n ≤ fuel → 0 < n →
    2 ^ (bitLength fuel n - 1) ≤ n ∧ n < 2 ^ bitLength fuel n ∧ 1 ≤ bitLength fuel n := by
  intro fuel
  induction fuel with
  | zero =>
    intro n h1 h2
    omega
  | succ fuel ih =>
    intro n hle hpos
    rw [bitLength, if_neg (by omega)]
    by_cases h2 : n / 2 = 0
    · have h1 : n = 1 := by omega
      subst h1
      have h0 : bitLength fuel (1 / 2) = 0 := by
        cases fuel <;> simp [bitLength]
      rw [h0]
      simp
    · obtain ⟨h3, h4, h5⟩ := ih (n / 2) (by omega) (by omega)
      obtain ⟨c, hc⟩ : ∃ c, bitLength fuel (n / 2) = c + 1 :=
        ⟨bitLength fuel (n / 2) - 1, by omega⟩
      rw [hc] at h3 h4
      rw [hc]
      simp only [Nat.add_sub_cancel] at h3 ⊢
      have e1 : 2 ^ (c + 1) = 2 * 2 ^ c := by rw [pow_succ, Nat.mul_comm]
      have e2 : 2 ^ (c + 1 + 1) = 4 * 2 ^ c := by rw [pow_succ, pow_succ]; omega
      rw [e1] at h4
      rw [e1, e2]
      generalize 2 ^ c = X at h3 h4 ⊢
      omega

theorem floorLog2_spec (q : ℚ) (hq : 0 < q) :
    (2 : ℚ) ^ floorLog2 q ≤ q ∧ q < (2 : ℚ) ^ (floorLog2 q + 1) := by
  have hnum : 0 < q.num := Rat.num_pos.2 hq
  have hden : 0 < q.den := q.den_pos
  obtain ⟨a, ha⟩ : ∃ a : ℕ, q.num = (a : ℤ) := ⟨q.num.natAbs, by omega⟩
  have ha0 : 0 < a := by omega
  have hna : q.num.natAbs = a := by omega
  have hqa : q = (a : ℚ) / (q.den : ℚ) := by
    have := Rat.num_div_den q
    rw [ha] at this
    simpa using this.symm
  obtain ⟨a1, a2, a3⟩ := bitLength_spec a a (le_refl _) ha0
  obtain ⟨b1, b2, b3⟩ := bitLength_spec q.den q.den (le_refl _) hden
  obtain ⟨ca, hca⟩ : ∃ c, bitLength a a = c + 1 := ⟨bitLength a a - 1, by omega⟩
  obtain ⟨cb, hcb⟩ : ∃ c, bitLength q.den q.den = c + 1 :=
    ⟨bitLength q.den q.den - 1, by omega⟩
  rw [hca] at a1 a2
  rw [hcb] at b1 b2
  simp only [Nat.add_sub_cancel] at a1 b1
  have a1q : (2 : ℚ) ^ (ca : ℤ) ≤ (a : ℚ) := by
    rw [zpow_natCast]
    exact_mod_cast a1
  have a2q : (a : ℚ) < (2 : ℚ) ^ ((ca : ℤ) + 1) := by
    rw [show ((ca : ℤ) + 1) = ((ca + 1 : ℕ) : ℤ) by push_cast; ring, zpow_natCast]
    exact_mod_cast a2
  have b1q : (2 : ℚ) ^ (cb : ℤ) ≤ (q.den : ℚ) := by
    rw [zpow_natCast]
    exact_mod_cast b1
  have b2q : (q.den : ℚ) < (2 : ℚ) ^ ((cb : ℤ) + 1) := by
    rw [show ((cb : ℤ) + 1) = ((cb + 1 : ℕ) : ℤ) by push_cast; ring, zpow_natCast]
    exact_mod_cast b2
  have hdq : (0 : ℚ) < (q.den : ℚ) := by exact_mod_cast hden
  have two : (2 : ℚ) ≠ 0 := by norm_num
  have hd : ((bitLength q.num.natAbs q.num.natAbs : Int) - (bitLength q.den q.den : Int))
      = (ca : ℤ) - (cb : ℤ) := by
    rw [hna, hca, hcb]
    push_cast
    ring
  unfold floorLog2
  rw [hd, pow2_eq]
  split
  · rename_i h
    refine ⟨h, ?_⟩
    rw [hqa, div_lt_iff₀ hdq]
    calc (a : ℚ) < (2 : ℚ) ^ ((ca : ℤ) + 1) := a2q
      _ = (2 : ℚ) ^ ((ca : ℤ) - (cb : ℤ) + 1) * (2 : ℚ) ^ (cb : ℤ) := by
          rw [← zpow_add₀ two]
          congr 1
          ring
      _ ≤ (2 : ℚ) ^ ((ca : ℤ) - (cb : ℤ) + 1) * (q.den : ℚ) := by
          apply mul_le_mul_of_nonneg_left b1q
          positivity
  · rename_i h
    refine ⟨?_, ?_⟩
    · rw [hqa, le_div_iff₀ hdq]
      calc (2 : ℚ) ^ ((ca : ℤ) - (cb : ℤ) - 1) * (q.den : ℚ)
          ≤ (2 : ℚ) ^ ((ca : ℤ) - (cb : ℤ) - 1) * (2 : ℚ) ^ ((cb : ℤ) + 1) := by
            apply mul_le_mul_of_nonneg_left (le_of_lt b2q)
            positivity
        _ = (2 : ℚ) ^ (ca : ℤ) := by
            rw [← zpow_add₀ two]
            congr 1
            ring
        _ ≤ (a : ℚ) := a1q
    · rw [show (ca : ℤ) - (cb : ℤ) - 1 + 1 = (ca : ℤ) - (cb : ℤ) by ring]
      exact not_le.1 h

theorem roundHalfEven_bounds (m : ℚ) : ⌊m⌋ ≤ roundHalfEven m ∧ roundHalfEven m ≤ ⌈m⌉ := by
  have hne : ∀ (h : ¬ (m - ⌊m⌋ < 1 / 2)), ⌊m⌋ + 1 ≤ ⌈m⌉ := by
    intro h
    have h1 : (⌊m⌋ : ℚ) < m := by linarith
    have h2 : ⌊m⌋ < ⌈m⌉ := by
      rw [Int.lt_ceil]
      exact h1
    omega
  have hfc : ⌊m⌋ ≤ ⌈m⌉ := Int.floor_le_ceil m
  unfold roundHalfEven
  split
  · exact ⟨le_refl _, hfc⟩
  · rename_i h
    split
    · exact ⟨by omega, hne h⟩
    · split
      · exact ⟨le_refl _, hfc⟩
      · exact ⟨by omega, hne h⟩

theorem scaled_nat (c : ℕ) (ec e : ℤ) (h : e ≤ ec) :
    (((c * 2 ^ (ec - e).toNat : ℕ) : ℤ) : ℚ) * (2 : ℚ) ^ e = (c : ℚ) * (2 : ℚ) ^ ec := by
  have two : (2 : ℚ) ≠ 0 := by norm_num
  have ht : (((ec - e).toNat : ℕ) : ℤ) = ec - e := Int.toNat_of_nonneg (by omega)
  push_cast
  rw [mul_assoc, ← zpow_natCast, ← zpow_add₀ two, ht]
  congr 2
  ring

theorem two_pow_cast (n : ℕ) : (((2 ^ n : ℕ) : ℤ) : ℚ) = (2 : ℚ) ^ (n : ℤ) := by
  push_cast
  rw [zpow_natCast]

theorem below_binade (c : ℕ) (ec k : ℤ) (hc : c < 2 ^ 53) (h : ec ≤ k - 53) :
    (c : ℚ) * (2 : ℚ) ^ ec < (2 : ℚ) ^ k := by
  have two : (2 : ℚ) ≠ 0 := by norm_num
  have h1 : (c : ℚ) < (2 : ℚ) ^ (53 : ℤ) := by
    have h0 : (c : ℚ) < (((2 ^ 53 : ℕ) : ℤ) : ℚ) := by exact_mod_cast hc
    rw [two_pow_cast 53] at h0
    exact_mod_cast h0
  calc (c : ℚ) * (2 : ℚ) ^ ec < (2 : ℚ) ^ (53 : ℤ) * (2 : ℚ) ^ ec := by
        apply mul_lt_mul_of_pos_right h1
        positivity
    _ = (2 : ℚ) ^ (53 + ec) := by rw [zpow_add₀ two]
    _ ≤ (2 : ℚ) ^ k := zpow_le_zpow_right₀ (by norm_num) (by omega)

theorem roundPos_bounds (q : ℚ) (hq : 0 < q) (a b : ℕ) (ea eb : ℤ)
    (ha : a < 2 ^ 53) (hb : b < 2 ^ 53) (hea : -1074 ≤ ea) (heb : -1074 ≤ eb)
    (hfin : eb ≤ 971)
    (hA : (a : ℚ) * (2 : ℚ) ^ ea ≤ q) (hB : q ≤ (b : ℚ) * (2 : ℚ) ^ eb) :
    ∃ v, roundPos q = .fin v ∧ (a : ℚ) * (2 : ℚ) ^ ea ≤ v ∧ v ≤ (b : ℚ) * (2 : ℚ) ^ eb := by
  have two : (2 : ℚ) ≠ 0 := by norm_num
  obtain ⟨hk1, hk2⟩ := floorLog2_spec q hq
  have he1 : floorLog2 q - 52 ≤ ulpExponent q := le_max_left _ _
  have he2 : -1074 ≤ ulpExponent q := le_max_right _ _
  have he3 : ulpExponent q = floorLog2 q - 52 ∨ ulpExponent q = -1074 := by
    unfold ulpExponent
    rcases max_choice (floorLog2 q - 52) (-1074) with h | h
    · exact Or.inl h
    · exact Or.inr h
  have hs : (0 : ℚ) < (2 : ℚ) ^ ulpExponent q := by positivity
  obtain ⟨hn1, hn2⟩ := roundHalfEven_bounds (q / (2 : ℚ) ^ ulpExponent q)
  have hlow : (a : ℚ) * (2 : ℚ) ^ ea
      ≤ (roundHalfEven (q / (2 : ℚ) ^ ulpExponent q) : ℚ) * (2 : ℚ) ^ ulpExponent q := by
    by_cases hc : ulpExponent q ≤ ea
    · have hN := scaled_nat a ea (ulpExponent q) hc
      have h1 : (((a * 2 ^ (ea - ulpExponent q).toNat : ℕ) : ℤ) : ℚ)
          ≤ q / (2 : ℚ) ^ ulpExponent q := by
        rw [le_div_iff₀ hs, hN]
        exact hA
      have h2 : ((a * 2 ^ (ea - ulpExponent q).toNat : ℕ) : ℤ)
          ≤ roundHalfEven (q / (2 : ℚ) ^ ulpExponent q) := le_trans (Int.le_floor.2 h1) hn1
      have h3 : (((a * 2 ^ (ea - ulpExponent q).toNat : ℕ) : ℤ) : ℚ)
          ≤ (roundHalfEven (q / (2 : ℚ) ^ ulpExponent q) : ℚ) := by exact_mod_cast h2
      rw [← hN]
      exact mul_le_mul_of_nonneg_right h3 (le_of_lt hs)
    · have he : ulpExponent q = floorLog2 q - 52 := by
        rcases he3 with h | h
        · exact h
        · omega
      have h1 : (a : ℚ) * (2 : ℚ) ^ ea < (2 : ℚ) ^ floorLog2 q :=
        below_binade a ea (floorLog2 q) ha (by omega)
      have h2 : (((2 ^ 52 : ℕ) : ℤ) : ℚ) ≤ q / (2 : ℚ) ^ ulpExponent q := by
        rw [le_div_iff₀ hs, he]
        have : (((2 ^ 52 : ℕ) : ℤ) : ℚ) * (2 : ℚ) ^ (floorLog2 q - 52)
            = (2 : ℚ) ^ floorLog2 q := by
          rw [two_pow_cast 52, ← zpow_add₀ two]
          congr 1
          push_cast
          ring
        rw [this]
        exact hk1
      have h3 : ((2 ^ 52 : ℕ) : ℤ) ≤ roundHalfEven (q / (2 : ℚ) ^ ulpExponent q) :=
        le_trans (Int.le_floor.2 h2) hn1
      have h4 : (((2 ^ 52 : ℕ) : ℤ) : ℚ)
          ≤ (roundHalfEven (q / (2 : ℚ) ^ ulpExponent q) : ℚ) := by exact_mod_cast h3
      have h5 : (((2 ^ 52 : ℕ) : ℤ) : ℚ) * (2 : ℚ) ^ ulpExponent q
          = (2 : ℚ) ^ floorLog2 q := by
        rw [he, two_pow_cast 52, ← zpow_add₀ two]
        congr 1
        push_cast
        ring
      calc (a : ℚ) * (2 : ℚ) ^ ea ≤ (2 : ℚ) ^ floorLog2 q := le_of_lt h1
        _ = (((2 ^ 52 : ℕ) : ℤ) : ℚ) * (2 : ℚ) ^ ulpExponent q := h5.symm
        _ ≤ _ := mul_le_mul_of_nonneg_right h4 (le_of_lt hs)
  have hhigh : (roundHalfEven (q / (2 : ℚ) ^ ulpExponent q) : ℚ) * (2 : ℚ) ^ ulpExponent q
      ≤ (b : ℚ) * (2 : ℚ) ^ eb := by
    by_cases hc : ulpExponent q ≤ eb
    · have hN := scaled_nat b eb (ulpExponent q) hc
      have h1 : q / (2 : ℚ) ^ ulpExponent q
          ≤ (((b * 2 ^ (eb - ulpExponent q).toNat : ℕ) : ℤ) : ℚ) := by
        rw [div_le_iff₀ hs, hN]
        exact hB
      have h2 : roundHalfEven (q / (2 : ℚ) ^ ulpExponent q)
          ≤ ((b * 2 ^ (eb - ulpExponent q).toNat : ℕ) : ℤ) := le_trans hn2 (Int.ceil_le.2 h1)
      have h3 : (roundHalfEven (q / (2 : ℚ) ^ ulpExponent q) : ℚ)
          ≤ (((b * 2 ^ (eb - ulpExponent q).toNat : ℕ) : ℤ) : ℚ) := by exact_mod_cast h2
      rw [← hN]
      exact mul_le_mul_of_nonneg_right h3 (le_of_lt hs)
    · exfalso
      have he : ulpExponent q = floorLog2 q - 52 := by
        rcases he3 with h | h
        · exact h
        · omega
      have h1 : (b : ℚ) * (2 : ℚ) ^ eb < (2 : ℚ) ^ floorLog2 q :=
        below_binade b eb (floorLog2 q) hb (by omega)
      linarith
  have hlt : (b : ℚ) * (2 : ℚ) ^ eb < ((((2 ^ 256) ^ 4 : ℕ) : ℤ) : ℚ) := by
    have h1 := below_binade b eb 1024 hb (by omega)
    have h2 : ((((2 ^ 256) ^ 4 : ℕ) : ℤ) : ℚ) = (2 : ℚ) ^ (1024 : ℤ) := by
      have e : ((2 ^ 256) ^ 4 : ℕ) = 2 ^ 1024 := by rw [← pow_mul]
      rw [e, two_pow_cast 1024]
      simp only [Nat.cast_ofNat]
    rw [h2]
    exact h1
  refine ⟨_, ?_, hlow, hhigh⟩
  unfold roundPos
  rw [pow2_eq, if_pos (lt_of_le_of_lt hhigh hlt)]

theorem round64_bounds (q : ℚ) (a b : ℕ) (ea eb : ℤ)
    (ha : a < 2 ^ 53) (hb : b < 2 ^ 53) (hea : -1074 ≤ ea) (heb : -1074 ≤ eb)
    (hfin : eb ≤ 971)
    (hA : (a : ℚ) * (2 : ℚ) ^ ea ≤ q) (hB : q ≤ (b : ℚ) * (2 : ℚ) ^ eb) :
    ∃ v, round64 q = .fin v ∧ (a : ℚ) * (2 : ℚ) ^ ea ≤ v ∧ v ≤ (b : ℚ) * (2 : ℚ) ^ eb := by
  unfold round64
  by_cases hq : 0 < q
  · rw [if_pos hq]
    exact roundPos_bounds q hq a b ea eb ha hb hea heb hfin hA hB
  · have h0 : (0 : ℚ) ≤ (a : ℚ) * (2 : ℚ) ^ ea := by positivity
    have hq0 : q = 0 := le_antisymm (not_lt.1 hq) (le_trans h0 hA)
    subst hq0
    rw [if_neg (lt_irrefl _), if_neg (lt_irrefl _)]
    exact ⟨0, rfl, hA, hB⟩

theorem round64_nat (a : ℕ) (e : ℤ) (ha : a < 2 ^ 53) (he : -1074 ≤ e) (he1 : e ≤ 971) :
    round64 ((a : ℚ) * (2 : ℚ) ^ e) = .fin ((a : ℚ) * (2 : ℚ) ^ e) := by
  obtain ⟨v, hv, h1, h2⟩ := round64_bounds ((a : ℚ) * (2 : ℚ) ^ e) a a e e ha ha he he he1
    (le_refl _) (le_refl _)
  rw [hv, le_antisymm h2 h1]

theorem round64_neg (q : ℚ) : round64 (-q) = (round64 q).neg := by
  unfold round64
  rcases lt_trichotomy q 0 with h | h | h
  · rw [if_pos (by linarith), if_neg (by linarith), if_pos h]
    cases roundPos (-q) <;> simp [F64.neg]
  · subst h
    simp [F64.neg]
  · rw [if_neg (by linarith), if_pos (by linarith), if_pos h, neg_neg]

/-- A number with at most 53 binary digits above the exponent `e`, which lies in the
range of the `float64`, is a `float64`: rounding leaves it as it is. -/
theorem round64_exact (a : ℤ) (e : ℤ) (ha : a.natAbs < 2 ^ 53) (he : -1074 ≤ e)
    (he1 : e ≤ 971) : round64 ((a : ℚ) * (2 : ℚ) ^ e) = .fin ((a : ℚ) * (2 : ℚ) ^ e) := by
  obtain ⟨n, hn | hn⟩ := Int.eq_nat_or_neg a
  · subst hn
    have hn1 : n < 2 ^ 53 := by simpa using ha
    exact_mod_cast round64_nat n e hn1 he he1
  · subst hn
    have hn1 : n < 2 ^ 53 := by simpa using ha
    have h1 : (((-(n : ℤ) : ℤ)) : ℚ) = -(n : ℚ) := by push_cast; rfl
    rw [h1, neg_mul, round64_neg, round64_nat n e hn1 he he1]
    rfl

theorem ofInt_exact (n : Int) (h : n.natAbs < 2 ^ 53) : F64.ofInt n = .fin (n : ℚ) := by
  have := round64_exact n 0 h (by norm_num) (by norm_num)
  simpa [F64.ofInt] using this

theorem jitterFactor_bounds (rnd : ℚ) (h0 : 0 ≤ rnd) (h1 : rnd < 1) :
    ∃ j, jitterFactor rnd = .fin j ∧ 0.75 ≤ j ∧ j ≤ 1.25 := by
  obtain ⟨x, hx, x0, x1⟩ := round64_bounds (rnd * 0.5) 0 1 0 (-1) (by norm_num) (by norm_num)
    (by norm_num) (by norm_num) (by norm_num) (by norm_num; linarith)
    (by norm_num; linarith)
  obtain ⟨j, hj, j0, j1⟩ := round64_bounds (0.75 + x) 3 5 (-2) (-2) (by norm_num)
    (by norm_num) (by norm_num) (by norm_num) (by norm_num)
    (by norm_num at x0 ⊢; linarith) (by norm_num at x1 ⊢; linarith)
  refine ⟨j, ?_, by norm_num at j0 ⊢; linarith, by norm_num at j1 ⊢; linarith⟩
  unfold jitterFactor
  simp only [F64.mul, hx, F64.add, hj]

theorem wholePart_int (z : Int) : wholePart (z : ℚ) = z := by
  unfold wholePart
  split <;> simp

theorem wholePart_le (x : ℚ) (m : Int) (h : x ≤ (m : ℚ)) : wholePart x ≤ m := by
  unfold wholePart
  split
  · have h1 : ((⌊x⌋ : Int) : ℚ) ≤ x := Int.floor_le x
    exact_mod_cast le_trans h1 h
  · exact Int.ceil_le.2 h

theorem le_wholePart (x : ℚ) (m : Int) (h : (m : ℚ) ≤ x) : m ≤ wholePart x := by
  unfold wholePart
  split
  · exact Int.le_floor.2 h
  · have h1 : x ≤ ((⌈x⌉ : Int) : ℚ) := Int.le_ceil x
    exact_mod_cast le_trans h h1

theorem toInt64_fin (rt : Runtime) (q : ℚ) (h1 : (-9223372036854775808 : ℚ) ≤ q)
    (h2 : q ≤ 9007199254740992) : (F64.fin q).toInt64 rt = wholePart q := by
  have l1 : (-9223372036854775808 : Int) ≤ wholePart q :=
    le_wholePart q _ (by exact_mod_cast h1)
  have l2 : wholePart q ≤ (9007199254740992 : Int) := wholePart_le q _ (by exact_mod_cast h2)
  simp only [F64.toInt64]
  rw [if_pos ⟨l1, by omega⟩]

theorem calculateDelay_of_fin (r : Retryer) (rnd : ℚ) (attempt : Nat) (d : ℚ)
    (hM : r.config.MaxDelay.natAbs < 2 ^ 53) (hu : r.uncapped rnd attempt = .fin d)
    (hd : (-9223372036854775808 : ℚ) ≤ d) :
    r.calculateDelay rnd attempt = wholePart (min (r.config.MaxDelay : ℚ) d) := by
  have hMq : (r.config.MaxDelay : ℚ) ≤ 9007199254740992 := by
    have : r.config.MaxDelay ≤ 9007199254740992 := by omega
    exact_mod_cast this
  have hMq1 : (-9223372036854775808 : ℚ) ≤ (r.config.MaxDelay : ℚ) := by
    have : (-9223372036854775808 : Int) ≤ r.config.MaxDelay := by omega
    exact_mod_cast this
  unfold Retryer.calculateDelay
  simp only [hu, ofInt_exact _ hM, F64.gt]
  by_cases h : (r.config.MaxDelay : ℚ) < d
  · simp only [h, decide_True, if_true]
    rw [min_eq_left (le_of_lt h), toInt64_fin _ _ hMq1 hMq]
  · simp only [h, decide_False, Bool.false_eq_true, if_false]
    rw [min_eq_right (not_lt.1 h), toInt64_fin _ _ hd (le_trans (not_lt.1 h) hMq)]

theorem calculateDelay_of_inf (r : Retryer) (rnd : ℚ) (attempt : Nat)
    (hM : r.config.MaxDelay.natAbs < 2 ^ 53) (hu : r.uncapped rnd attempt = .inf false) :
    r.calculateDelay rnd attempt = r.config.MaxDelay := by
  have hMq : (r.config.MaxDelay : ℚ) ≤ 9007199254740992 := by
    have : r.config.MaxDelay ≤ 9007199254740992 := by omega
    exact_mod_cast this
  have hMq1 : (-9223372036854775808 : ℚ) ≤ (r.config.MaxDelay : ℚ) := by
    have : (-9223372036854775808 : Int) ≤ r.config.MaxDelay := by omega
    exact_mod_cast this
  unfold Retryer.calculateDelay
  simp only [hu, ofInt_exact _ hM, F64.gt, Bool.not_false, if_true]
  rw [toInt64_fin _ _ hMq1 hMq, wholePart_int]

/-- C22, amended: the delay `calculateDelay` gives for attempt `attempt` (the sleep
before retry `attempt + 1`), for a `MaxDelay` below `2 ^ 53` ns in absolute value. It is
computed on `float64`: when the value reached before the comparison with `MaxDelay` is
a finite number `d` not below `-2 ^ 63`, the delay is the whole part of
`min(MaxDelay, d)` and does not exceed `MaxDelay`; when that value is `+Inf` the delay
is `MaxDelay`. Without jitter that value is the product of `float64(InitialDelay)` and
`math.Pow(BackoffFactor, attempt)`, and when this product is the real number
`InitialDelay * BackoffFactor ^ attempt` and `min(MaxDelay, InitialDelay *
BackoffFactor ^ attempt)` is a whole number, the delay is that number; the product is
that real number when `math.Pow` returns the power itself and the product has at most
53 binary digits. With jitter, for a draw in [0, 1), the product is multiplied, on
`float64`, by a factor between 0.75 and 1.25 before the comparison. -/
theorem calculateDelay_backoff (r : Retryer) (rnd : ℚ) (attempt : Nat)
    (hM : r.config.MaxDelay.natAbs < 2 ^ 53) :
    (∀ d : ℚ, r.uncapped rnd attempt = .fin d → (-9223372036854775808 : ℚ) ≤ d →
      r.calculateDelay rnd attempt = wholePart (min (r.config.MaxDelay : ℚ) d) ∧
      r.calculateDelay rnd attempt ≤ r.config.MaxDelay) ∧
    (r.uncapped rnd attempt = .inf false →
      r.calculateDelay rnd attempt = r.config.MaxDelay) ∧
    (r.config.Jitter = false →
      r.uncapped rnd attempt = r.backoff attempt ∧
      (r.backoff attempt
          = .fin ((r.config.InitialDelay : ℚ) * r.config.BackoffFactor ^ attempt) →
        ∀ z : Int, min (r.config.MaxDelay : ℚ)
            ((r.config.InitialDelay : ℚ) * r.config.BackoffFactor ^ attempt) = (z : ℚ) →
          -9223372036854775808 ≤ z → r.calculateDelay rnd attempt = z)) ∧
    (r.config.InitialDelay.natAbs < 2 ^ 53 →
      r.runtime.Pow r.config.BackoffFactor attempt = .fin (r.config.BackoffFactor ^ attempt) →
      (∃ (a e : Int), a.natAbs < 2 ^ 53 ∧ -1074 ≤ e ∧ e ≤ 971 ∧
        (r.config.InitialDelay : ℚ) * r.config.BackoffFactor ^ attempt
          = (a : ℚ) * (2 : ℚ) ^ e) →
      r.backoff attempt
        = .fin ((r.config.InitialDelay : ℚ) * r.config.BackoffFactor ^ attempt)) ∧
    (r.config.Jitter = true → 0 ≤ rnd → rnd < 1 →
      ∃ j : ℚ, 0.75 ≤ j ∧ j ≤ 1.25 ∧ jitterFactor rnd = .fin j ∧
        r.uncapped rnd attempt = (r.backoff attempt).mul (.fin j) ∧
        ∀ p : ℚ, r.backoff attempt = .fin p → r.uncapped rnd attempt = round64 (p * j)) := by
  refine ⟨?_, ?_, ?_, ?_, ?_⟩
  · intro d hu hd
    have h := calculateDelay_of_fin r rnd attempt d hM hu hd
    exact ⟨h, by rw [h]; exact wholePart_le _ _ (min_le_left _ _)⟩
  · exact calculateDelay_of_inf r rnd attempt hM
  · intro hj
    have hu : r.uncapped rnd attempt = r.backoff attempt := by
      unfold Retryer.uncapped
      rw [hj]
      rfl
    refine ⟨hu, ?_⟩
    intro hb z hz hz0
    have hd : (-9223372036854775808 : ℚ)
        ≤ (r.config.InitialDelay : ℚ) * r.config.BackoffFactor ^ attempt := by
      have h1 : ((-9223372036854775808 : ℤ) : ℚ) ≤ (z : ℚ) := by exact_mod_cast hz0
      have h2 : (z : ℚ) ≤ (r.config.InitialDelay : ℚ) * r.config.BackoffFactor ^ attempt := by
        rw [← hz]
        exact min_le_right _ _
      have h3 := le_trans h1 h2
      exact_mod_cast h3
    rw [calculateDelay_of_fin r rnd attempt _ hM (hu.trans hb) hd, hz, wholePart_int]
  · intro hI hp ⟨a, e, ha, he, he1, hprod⟩
    unfold Retryer.backoff
    rw [ofInt_exact _ hI, hp]
    simp only [F64.mul]
    rw [hprod]
    exact round64_exact a e ha he he1
  · intro hj h0 h1
    obtain ⟨j, hjf, j0, j1⟩ := jitterFactor_bounds rnd h0 h1
    have hu : r.uncapped rnd attempt = (r.backoff attempt).mul (.fin j) := by
      unfold Retryer.uncapped
      rw [hj, hjf]
      rfl
    refine ⟨j, j0, j1, hjf, hu, ?_⟩
    intro p hp
    rw [hu, hp]
    rfl

theorem backoffRetryer_product : backoffRetryer.backoff 3
    = .fin ((backoffRetryer.config.InitialDelay : ℚ)
        * backoffRetryer.config.BackoffFactor ^ 3) := by
  with_unfolding_all rfl

/-- C22, amended, at the configuration of `TestRetryerExponentialBackoff` (20 ms
doubling up to 200 ms): the delays before retries 1 to 5 are 20, 40, 80, 160 and
200 ms, and the one before retry 4 is `min(MaxDelay, InitialDelay * BackoffFactor ^ 3)`;
and with jitter a draw of 0.5 gives the factor 1. -/
theorem calculateDelay_backoff_witness :
    backoffRetryer.config.MaxDelay.natAbs < 2 ^ 53 ∧
    (List.range 5).map (fun attempt => backoffRetryer.calculateDelay 0 attempt)
      = [20000000, 40000000, 80000000, 160000000, 200000000] ∧
    min (backoffRetryer.config.MaxDelay : ℚ)
        ((backoffRetryer.config.InitialDelay : ℚ) * backoffRetryer.config.BackoffFactor ^ 3)
      = ((160000000 : Int) : ℚ) ∧
    backoffRetryer.calculateDelay 0 3 = 160000000 ∧
    jitterFactor (1 / 2) = .fin 1 :=
  ⟨by decide, by with_unfolding_all decide, by norm_num [backoffRetryer],
    (((calculateDelay_backoff backoffRetryer 0 3 (by decide)).2.2.1 rfl).2
      backoffRetryer_product 160000000 (by norm_num [backoffRetryer]) (by norm_num)),
    by with_unfolding_all rfl⟩

theorem growingRetryer_first (rt : Runtime) (initialDelay : Int) (factor : ℚ) :
    (growingRetryer rt initialDelay factor).uncapped 0 1
      = (F64.ofInt initialDelay).mul (.fin factor) := by
  unfold Retryer.uncapped Retryer.backoff growingRetryer
  simp only [rt.Pow_one]
  rfl

set_option maxRecDepth 4000 in
/-- C22, counterexample: without jitter, on every runtime. A delay of 1 ns growing by
the factor 1.5 gives 1 ns before retry 2, where `min(200 ms, 1 ns * 1.5)` is 1.5 ns. With
the factor written 1.15 in Go, a `float64` just below 1.15, a delay of 100 ns gives
114 ns where `min(200 ms, 100 ns * 1.15)` is 115 ns; and a delay of 20 ns gives 23 ns,
because the `float64` product is rounded up to 23, where the whole part of the product
with that `float64` is 22 ns. -/
theorem calculateDelay_is_not_the_minimum :
    (∀ rt : Runtime, (growingRetryer rt 1 (3 / 2)).calculateDelay 0 1 = 1) ∧
    min (200000000 : ℚ) (1 * (3 / 2) ^ 1) = 3 / 2 ∧
    round64 (23 / 20) = .fin float115 ∧
    (∀ rt : Runtime, (growingRetryer rt 100 float115).calculateDelay 0 1 = 114) ∧
    min (200000000 : ℚ) (100 * (23 / 20) ^ 1) = 115 ∧
    (∀ rt : Runtime, (growingRetryer rt 20 float115).calculateDelay 0 1 = 23) ∧
    wholePart (20 * float115 ^ 1) = 22 := by
  refine ⟨?_, by norm_num, by with_unfolding_all rfl, ?_, by norm_num, ?_,
    by with_unfolding_all decide⟩
  · intro rt
    have hu : (growingRetryer rt 1 (3 / 2)).uncapped 0 1 = .fin (3 / 2) := by
      rw [growingRetryer_first]
      with_unfolding_all rfl
    rw [calculateDelay_of_fin _ _ _ _
      (by show (200000000 : Int).natAbs < 2 ^ 53; decide) hu (by norm_num)]
    simp only [growingRetryer]
    with_unfolding_all decide
  · intro rt
    have hu : (growingRetryer rt 100 float115).uncapped 0 1
        = .fin (((8092405580431359 : ℤ) : ℚ) / ((70368744177664 : ℤ) : ℚ)) := by
      rw [growingRetryer_first]
      with_unfolding_all rfl
    rw [calculateDelay_of_fin _ _ _ _
      (by show (200000000 : Int).natAbs < 2 ^ 53; decide) hu (by norm_num)]
    simp only [growingRetryer]
    with_unfolding_all decide
  · intro rt
    have hu : (growingRetryer rt 20 float115).uncapped 0 1 = .fin 23 := by
      rw [growingRetryer_first]
      with_unfolding_all rfl
    rw [calculateDelay_of_fin _ _ _ _
      (by show (200000000 : Int).natAbs < 2 ^ 53; decide) hu (by norm_num)]
    simp only [growingRetryer]
    with_unfolding_all decide

theorem sleepOrDone_spec (ctx : Context) (now d : Int) :
    ((sleepOrDone ctx now d).1 = true → ctx.Err (sleepOrDone ctx now d).2 = some ctx.cause) ∧
    ((sleepOrDone ctx now d).1 = false → (sleepOrDone ctx now d).2 = now + max d 0) := by
  unfold sleepOrDone
  cases hd : ctx.doneAt with
  | none => simp
  | some T =>
    simp only
    split
    · simp [Context.Err, Context.Done, hd]
    · simp

theorem DoLoop_done {σ : Type} (r : Retryer) (rnd : Nat → ℚ) (ctx : Context)
    (fn : Int → σ → Option Err × Int × σ) (left attempt : Nat) (lastErr : Option Err)
    (now : Int) (st : σ) (h : ctx.Done now = true) :
    Retryer.DoLoop r rnd ctx fn (left + 1) attempt lastErr now st = (some ctx.cause, now, st) := by
  simp [Retryer.DoLoop, h, Context.Err]

theorem DoLoop_fails_step {σ : Type} (r : Retryer) (rnd : Nat → ℚ) (ctx : Context)
    (fn : Int → σ → Option Err × Int × σ) (left attempt : Nat) (lastErr : Option Err)
    (now : Int) (st : σ) (err : Err) (now1 : Int) (st1 : σ)
    (hd : ctx.Done now = false) (hfn : fn now st = (some err, now1, st1)) :
    Retryer.DoLoop r rnd ctx fn (left + 1) attempt lastErr now st
      = if r.config.retryable err = false then (some err, now1, st1)
        else if (attempt : Int) = r.config.MaxRetries then
          (some (RetryError (r.config.MaxRetries + 1) (some err)), now1, st1)
        else if (sleepOrDone ctx now1 (r.calculateDelay (rnd attempt) attempt)).1 = true then
          (ctx.Err (sleepOrDone ctx now1 (r.calculateDelay (rnd attempt) attempt)).2,
            (sleepOrDone ctx now1 (r.calculateDelay (rnd attempt) attempt)).2, st1)
        else Retryer.DoLoop r rnd ctx fn left (attempt + 1) (some err)
          (sleepOrDone ctx now1 (r.calculateDelay (rnd attempt) attempt)).2 st1 := by
  unfold RetryConfig.retryable
  rw [Retryer.DoLoop]
  simp only [hd, Bool.false_eq_true, if_false, hfn]
  cases hc : r.config.RetryableCheck with
  | none =>
    simp only [Bool.true_eq_false, if_false, Bool.false_eq_true]
    split
    · rfl
    · rcases hs : sleepOrDone ctx now1 (r.calculateDelay (rnd attempt) attempt) with ⟨b, t⟩
      cases b <;> simp
  | some check =>
    simp only
    by_cases hk : check err = true
    · simp only [hk, Bool.not_true, Bool.false_eq_true, if_false, Bool.true_eq_false]
      split
      · rfl
      · rcases hs : sleepOrDone ctx now1 (r.calculateDelay (rnd attempt) attempt) with ⟨b, t⟩
        cases b <;> simp
    · have hk0 : check err = false := by simpa using hk
      simp [hk0]

theorem DoLoop_cancelled_calls (r : Retryer) (rnd : Nat → ℚ) (ctx : Context)
    (errs : Nat → Err) (dur : Nat → Int) (now T : Int) (hctx : ctx.doneAt = some T)
    (M : Nat) (hM : (M : Int) = r.config.MaxRetries)
    (hT : T ≤ attemptAt r rnd dur now M) :
    ∀ (d j left : Nat) (lastErr : Option Err), j + d = M → d < left →
      (Retryer.DoLoop r rnd ctx (alwaysFails errs dur) left j lastErr
          (attemptAt r rnd dur now j) j).2.2 ≤ M ∧
      (r.config.allRetryable →
        (Retryer.DoLoop r rnd ctx (alwaysFails errs dur) left j lastErr
          (attemptAt r rnd dur now j) j).1 = some ctx.cause) := by
  intro d
  induction d with
  | zero =>
    intro j left lastErr hj hl
    obtain ⟨left, rfl⟩ : ∃ l, left = l + 1 := ⟨left - 1, by omega⟩
    have hjM : j = M := by omega
    subst hjM
    rw [DoLoop_done r rnd ctx _ left j lastErr _ j (by simp [Context.Done, hctx, hT])]
    exact ⟨le_refl _, fun _ => rfl⟩
  | succ d ih =>
    intro j left lastErr hj hl
    obtain ⟨left, rfl⟩ : ∃ l, left = l + 1 := ⟨left - 1, by omega⟩
    by_cases hd : ctx.Done (attemptAt r rnd dur now j) = true
    · rw [DoLoop_done r rnd ctx _ left j lastErr _ j hd]
      exact ⟨show j ≤ M by omega, fun _ => rfl⟩
    · have hne : ¬ ((j : Int) = r.config.MaxRetries) := by
        rw [← hM]
        omega
      have hrec := ih (j + 1) left (some (errs (j + 1))) (by omega) (by omega)
      have hd1 : ctx.Done (attemptAt r rnd dur now j) = false := by simpa using hd
      rw [DoLoop_fails_step r rnd ctx (alwaysFails errs dur) left j lastErr
        (attemptAt r rnd dur now j) j (errs (j + 1)) (attemptAt r rnd dur now j + dur (j + 1))
        (j + 1) hd1 rfl]
      simp only [hne, if_false]
      have hs := sleepOrDone_spec ctx (attemptAt r rnd dur now j + dur (j + 1))
        (r.calculateDelay (rnd j) j)
      by_cases hk : r.config.retryable (errs (j + 1)) = false
      · rw [if_pos hk]
        refine ⟨show j + 1 ≤ M by omega, ?_⟩
        intro hall
        exfalso
        unfold RetryConfig.allRetryable at hall
        unfold RetryConfig.retryable at hk
        cases hc : r.config.RetryableCheck with
        | none => simp [hc] at hk
        | some check =>
          rw [hc] at hall hk
          simp [hall] at hk
      · rw [if_neg hk]
        by_cases hw : (sleepOrDone ctx (attemptAt r rnd dur now j + dur (j + 1))
            (r.calculateDelay (rnd j) j)).1 = true
        · rw [if_pos hw]
          exact ⟨show j + 1 ≤ M by omega, fun _ => hs.1 hw⟩
        · rw [if_neg hw]
          have hw0 : (sleepOrDone ctx (attemptAt r rnd dur now j + dur (j + 1))
              (r.calculateDelay (rnd j) j)).1 = false := by simpa using hw
          rw [hs.2 hw0]
          exact hrec

/-- C24, amended: for a retryer with `MaxRetries` at least 0. When the context is done
at the call, `Do` does not invoke the operation and returns the error of the context,
which is no `RetryError`; the same holds at the test that opens any later attempt; and
when the context ends the sleep after a failed attempt, `Do` returns the error of the
context without another call. On an operation that always fails, under a context done
no later than the instant at which the last attempt would be entered, the operation is
called fewer than `MaxRetries + 1` times, and when every error is retryable `Do`
returns the error of the context. -/
theorem Do_respects_cancellation (r : Retryer) (rnd : Nat → ℚ) (ctx : Context)
    (errs : Nat → Err) (dur : Nat → Int) (now : Int)
    (hmax : 0 ≤ r.config.MaxRetries) :
    (∀ (σ : Type) (fn : Int → σ → Option Err × Int × σ) (st : σ), ctx.Done now = true →
      r.Do rnd ctx fn now st = (some ctx.cause, now, st)) ∧
    (∀ (σ : Type) (fn : Int → σ → Option Err × Int × σ) (left attempt : Nat)
      (lastErr : Option Err) (t : Int) (st : σ), ctx.Done t = true →
      Retryer.DoLoop r rnd ctx fn (left + 1) attempt lastErr t st = (some ctx.cause, t, st)) ∧
    (∀ (σ : Type) (fn : Int → σ → Option Err × Int × σ) (left attempt : Nat)
      (lastErr : Option Err) (t : Int) (st : σ) (err : Err) (t1 : Int) (st1 : σ),
      ctx.Done t = false → fn t st = (some err, t1, st1) →
      r.config.retryable err = true → (attempt : Int) ≠ r.config.MaxRetries →
      (sleepOrDone ctx t1 (r.calculateDelay (rnd attempt) attempt)).1 = true →
      Retryer.DoLoop r rnd ctx fn (left + 1) attempt lastErr t st
        = (some ctx.cause, (sleepOrDone ctx t1 (r.calculateDelay (rnd attempt) attempt)).2,
            st1)) ∧
    (IsRetryError .canceled = false ∧ IsRetryError .deadlineExceeded = false) ∧
    (∀ T : Int, ctx.doneAt = some T →
      T ≤ attemptAt r rnd dur now r.config.MaxRetries.toNat →
      (r.Do rnd ctx (alwaysFails errs dur) now 0).2.2 < r.config.MaxRetries.toNat + 1 ∧
      (r.config.allRetryable →
        (r.Do rnd ctx (alwaysFails errs dur) now 0).1 = some ctx.cause)) := by
  refine ⟨?_, ?_, ?_, ⟨rfl, rfl⟩, ?_⟩
  · intro σ fn st h
    obtain ⟨n, hn⟩ : ∃ n, (r.config.MaxRetries + 1).toNat = n + 1 :=
      ⟨r.config.MaxRetries.toNat, by omega⟩
    rw [Retryer.Do, hn]
    exact DoLoop_done r rnd ctx fn n 0 none now st h
  · intro σ fn left attempt lastErr t st h
    exact DoLoop_done r rnd ctx fn left attempt lastErr t st h
  · intro σ fn left attempt lastErr t st err t1 st1 hd hfn hk hne hw
    rw [DoLoop_fails_step r rnd ctx fn left attempt lastErr t st err t1 st1 hd hfn]
    simp only [hk, Bool.true_eq_false, if_false, hne, hw, if_true]
    rw [(sleepOrDone_spec ctx t1 (r.calculateDelay (rnd attempt) attempt)).1 hw]
  · intro T hctx hT
    have h := DoLoop_cancelled_calls r rnd ctx errs dur now T hctx r.config.MaxRetries.toNat
      (by omega) hT r.config.MaxRetries.toNat 0 (r.config.MaxRetries + 1).toNat none
      (by omega) (by omega)
    unfold Retryer.Do
    exact ⟨Nat.lt_succ_of_le h.1, h.2⟩

set_option maxRecDepth 20000 in
/-- C24 at the run of `TestRetryerContextCancellation`: the context times out after
50 ms, during the first sleep of 100 ms, and the operation is called once. -/
theorem Do_respects_cancellation_witness :
    (0 : Int) ≤ cancelledRetryer.config.MaxRetries ∧ cancelledRetryer.config.allRetryable ∧
    (deadline 50000000).doneAt = some 50000000 ∧
    (50000000 : Int) ≤ attemptAt cancelledRetryer (fun _ => 0) (fun _ => 1000) 0
      cancelledRetryer.config.MaxRetries.toNat ∧
    (cancelledRetryer.Do (fun _ => 0) (deadline 50000000)
      (alwaysFails (fun _ => .msg "always fails") (fun _ => 1000)) 0 0)
      = (some .deadlineExceeded, 50000000, 1) ∧
    ((cancelledRetryer.Do (fun _ => 0) (deadline 50000000)
        (alwaysFails (fun _ => .msg "always fails") (fun _ => 1000)) 0 0).2.2
        < cancelledRetryer.config.MaxRetries.toNat + 1 ∧
      (cancelledRetryer.config.allRetryable →
        (cancelledRetryer.Do (fun _ => 0) (deadline 50000000)
          (alwaysFails (fun _ => .msg "always fails") (fun _ => 1000)) 0 0).1
          = some (deadline 50000000).cause)) :=
  ⟨by decide, trivial, rfl, by with_unfolding_all decide, by with_unfolding_all decide,
    (Do_respects_cancellation cancelledRetryer (fun _ => 0) (deadline 50000000)
      (fun _ => .msg "always fails") (fun _ => 1000) 0 (by decide)).2.2.2.2 50000000 rfl
      (by with_unfolding_all decide)⟩

/-- C24, counterexample: with `MaxRetries` -1 the loop of `Do` is never entered, the
context is never tested, and `Do`, called with a context that is already done, returns
a `RetryError` with `Attempts` 0 and a nil `Err` instead of the error of the context. -/
theorem Do_with_negative_MaxRetries_ignores_the_context :
    (deadline 0).Done 0 = true ∧ (deadline 0).Err 0 = some .deadlineExceeded ∧
    negativeRetryer.Do (fun _ => 0) (deadline 0)
        (alwaysFails (fun _ => .msg "always fails") (fun _ => 1000)) 0 0
      = (some (.retryNil 0), 0, 0) ∧
    IsRetryError (.retryNil 0) = true ∧ (Err.retryNil 0).Attempts = some 0 ∧
    (Err.retryNil 0).Unwrap = none := by
  decide

/-! ### The fixed-delay limiter -/

theorem Wait_delay (rl : RateLimiter) (ctx : Context) (now : Int) :
    (rl.Wait ctx now).2.1.delay = rl.delay := by
  unfold RateLimiter.Wait
  split
  · rfl
  · simp only
    split
    · split <;> rfl
    · rfl

theorem Wait_first (rl : RateLimiter) (ctx : Context) (now : Int) (h : rl.lastCall = none) :
    rl.Wait ctx now = (none, { rl with lastCall := some now }, now) := by
  unfold RateLimiter.Wait
  rw [h]

theorem Wait_later (rl : RateLimiter) (ctx : Context) (now last : Int)
    (h : rl.lastCall = some last) (hok : (rl.Wait ctx now).1 = none) :
    (rl.Wait ctx now).2.1.lastCall = some (rl.Wait ctx now).2.2 ∧
    last + rl.delay ≤ (rl.Wait ctx now).2.2 ∧ now ≤ (rl.Wait ctx now).2.2 := by
  unfold RateLimiter.Wait at hok ⊢
  rw [h] at hok ⊢
  simp only at hok ⊢
  split
  · rename_i hlt
    rw [if_pos hlt] at hok
    have hs := sleepOrDone_spec ctx now (rl.delay - (now - last))
    rcases hsd : sleepOrDone ctx now (rl.delay - (now - last)) with ⟨b, t⟩
    rw [hsd] at hok hs
    cases b with
    | true =>
      simp only at hok
      rw [hs.1 rfl] at hok
      cases hok
    | false =>
      have ht : t = now + max (rl.delay - (now - last)) 0 := hs.2 rfl
      refine ⟨rfl, ?_, ?_⟩
      · show last + rl.delay ≤ t
        have := le_max_left (rl.delay - (now - last)) 0
        omega
      · show now ≤ t
        have := le_max_right (rl.delay - (now - last)) 0
        omega
  · rename_i hge
    refine ⟨rfl, ?_, le_refl _⟩
    show last + rl.delay ≤ now
    omega

theorem waitAll_later (ctx : Context) (d : Int) :
    ∀ (gaps : List Int) (rl : RateLimiter) (now last : Int) (prev : Option Err × Int × Int),
      rl.lastCall = some last → rl.delay = d → prev.2.2 = last →
      (∀ c ∈ waitAll ctx gaps rl now, c.1 = none) →
      List.Chain (Spaced d) prev (waitAll ctx gaps rl now) ∧
      ∀ c, (waitAll ctx gaps rl now).getLast? = some c → last + gaps.length * d ≤ c.2.2 := by
  intro gaps
  induction gaps with
  | nil =>
    intro rl now last prev _ _ _ _
    exact ⟨List.Chain.nil, by simp [waitAll]⟩
  | cons gap gaps ih =>
    intro rl now last prev hl hd hp hok
    have hok0 : (rl.Wait ctx (now + gap)).1 = none :=
      hok ((rl.Wait ctx (now + gap)).1, now + gap, (rl.Wait ctx (now + gap)).2.2)
        (by simp [waitAll])
    have hw := Wait_later rl ctx (now + gap) last hl hok0
    have hrec := ih (rl.Wait ctx (now + gap)).2.1 (rl.Wait ctx (now + gap)).2.2
      (rl.Wait ctx (now + gap)).2.2
      ((rl.Wait ctx (now + gap)).1, now + gap, (rl.Wait ctx (now + gap)).2.2)
      hw.1 (by rw [Wait_delay, hd]) rfl
      (fun c h => hok c (by simp only [waitAll]; exact List.mem_cons_of_mem _ h))
    rw [hd] at hw
    refine ⟨?_, ?_⟩
    · simp only [waitAll]
      refine List.Chain.cons ?_ hrec.1
      show prev.2.2 + d ≤ (rl.Wait ctx (now + gap)).2.2
      rw [hp]
      exact hw.2.1
    · intro c hc
      simp only [waitAll] at hc
      cases hrest : waitAll ctx gaps (rl.Wait ctx (now + gap)).2.1 (rl.Wait ctx (now + gap)).2.2 with
      | nil =>
        rw [hrest] at hc
        simp only [List.getLast?_singleton, Option.some.injEq] at hc
        subst hc
        have hlen : gaps.length = 0 := by
          cases gaps with
          | nil => rfl
          | cons g gs => simp [waitAll] at hrest
        simp only [List.length_cons, hlen]
        have := hw.2.1
        simp only [zero_add, Nat.cast_one, one_mul]
        exact this
      | cons x xs =>
        rw [hrest] at hc
        rw [List.getLast?_cons_cons] at hc
        have := hrec.2 c (by rw [hrest]; exact hc)
        have h1 := hw.2.1
        simp only [List.length_cons, Nat.cast_add, Nat.cast_one]
        nlinarith

/-- C25: in sequential calls of `Wait` on a fresh limiter with delay `d` that all
succeed, the first call returns at the instant it is entered, each later call returns
at least `d` after the call before it returned, and the last call returns at least
`(N - 1) * d` after the first was entered, `N` being the number of calls. -/
theorem Wait_spaces_calls (ctx : Context) (d : Int) (gaps : List Int) (now : Int)
    (hok : ∀ c ∈ waitAll ctx gaps (NewRateLimiter d) now, c.1 = none) :
    (∀ c, (waitAll ctx gaps (NewRateLimiter d) now).head? = some c → c.2.2 = c.2.1) ∧
    List.Chain' (Spaced d) (waitAll ctx gaps (NewRateLimiter d) now) ∧
    (∀ first last, (waitAll ctx gaps (NewRateLimiter d) now).head? = some first →
      (waitAll ctx gaps (NewRateLimiter d) now).getLast? = some last →
      ((gaps.length : Int) - 1) * d ≤ last.2.2 - first.2.1) := by
  cases gaps with
  | nil => simp [waitAll]
  | cons gap gaps =>
    have hfirst := Wait_first (NewRateLimiter d) ctx (now + gap) rfl
    simp only [waitAll, hfirst] at hok ⊢
    have hrec := waitAll_later ctx d gaps { NewRateLimiter d with lastCall := some (now + gap) }
      (now + gap) (now + gap) (none, now + gap, now + gap) rfl rfl rfl
      (fun c h => hok c (List.mem_cons_of_mem _ h))
    refine ⟨?_, ?_, ?_⟩
    · intro c hc
      simp only [List.head?_cons, Option.some.injEq] at hc
      subst hc
      rfl
    · exact hrec.1
    · intro first last hf hlast
      simp only [List.head?_cons, Option.some.injEq] at hf
      subst hf
      simp only [List.length_cons, Nat.cast_add, Nat.cast_one, add_sub_cancel_right]
      cases hrest : waitAll ctx gaps { NewRateLimiter d with lastCall := some (now + gap) }
          (now + gap) with
      | nil =>
        rw [hrest] at hlast
        simp only [List.getLast?_singleton, Option.some.injEq] at hlast
        subst hlast
        have hlen : gaps.length = 0 := by
          cases gaps with
          | nil => rfl
          | cons g gs => simp [waitAll] at hrest
        simp [hlen]
      | cons x xs =>
        rw [hrest, List.getLast?_cons_cons] at hlast
        have := hrec.2 last (by rw [hrest]; exact hlast)
        linarith

/-- C25 at the run of `TestScraperRateLimiter`: five calls in a row on a limiter of 50 ms
return at 0, 50, 100, 150 and 200 ms. -/
theorem Wait_spaces_calls_witness :
    (waitAll background [0, 0, 0, 0, 0] (NewRateLimiter 50000000) 0).map (fun c => c.2.2)
      = [0, 50000000, 100000000, 150000000, 200000000] ∧
    ((∀ c, (waitAll background [0, 0, 0, 0, 0] (NewRateLimiter 50000000) 0).head? = some c →
        c.2.2 = c.2.1) ∧
      List.Chain' (Spaced 50000000)
        (waitAll background [0, 0, 0, 0, 0] (NewRateLimiter 50000000) 0) ∧
      (∀ first last,
        (waitAll background [0, 0, 0, 0, 0] (NewRateLimiter 50000000) 0).head? = some first →
        (waitAll background [0, 0, 0, 0, 0] (NewRateLimiter 50000000) 0).getLast? = some last →
        ((([0, 0, 0, 0, 0] : List Int).length : Int) - 1) * 50000000
          ≤ last.2.2 - first.2.1)) :=
  ⟨by decide,
    Wait_spaces_calls background 50000000 [0, 0, 0, 0, 0] 0 (by decide)⟩

/-! ### The per-user command limiter -/

theorem mapRead_mapWrite_same {α : Type} (m : List (String × α)) (key : String) (value : α) :
    discord.mapRead (discord.mapWrite m key value) key = some value := by
  induction m with
  | nil => simp [discord.mapWrite, discord.mapRead]
  | cons e rest ih =>
    unfold discord.mapWrite
    by_cases h : (e.1 == key) = true
    · simp [h, discord.mapRead]
    · simp only [h, if_false, Bool.false_eq_true]
      unfold discord.mapRead at ih ⊢
      rw [List.find?_cons]
      simp only [h]
      exact ih

theorem mapRead_mapWrite_other {α : Type} (m : List (String × α)) (key other : String)
    (value : α) (hne : other ≠ key) :
    discord.mapRead (discord.mapWrite m key value) other = discord.mapRead m other := by
  induction m with
  | nil =>
    have : (key == other) = false := by simpa using Ne.symm hne
    simp [discord.mapWrite, discord.mapRead, this]
  | cons e rest ih =>
    unfold discord.mapWrite
    by_cases h : (e.1 == key) = true
    · have hk : e.1 = key := by simpa using h
      have h1 : (key == other) = false := by simpa using Ne.symm hne
      have h2 : (e.1 == other) = false := by rw [hk]; exact h1
      simp [h, discord.mapRead, List.find?_cons, h1, h2]
    · simp only [h, if_false, Bool.false_eq_true]
      unfold discord.mapRead at ih ⊢
      rw [List.find?_cons, List.find?_cons]
      cases (e.1 == other)
      · exact ih
      · rfl

theorem record_entry_same (rl : discord.RateLimiter) (u c : String) (v : discord.userLimit) :
    (rl.record u c v).entry u c = some v := by
  simp [discord.RateLimiter.record, discord.RateLimiter.entry, mapRead_mapWrite_same]

theorem record_entry_other (rl : discord.RateLimiter) (u c u1 c1 : String)
    (v : discord.userLimit) (hne : ¬ (u1 = u ∧ c1 = c)) :
    (rl.record u1 c1 v).entry u c = rl.entry u c := by
  unfold discord.RateLimiter.record discord.RateLimiter.entry
  by_cases hu : u = u1
  · subst hu
    have hc : c ≠ c1 := fun h => hne ⟨rfl, h.symm⟩
    simp only [mapRead_mapWrite_same]
    show discord.mapRead (discord.mapWrite
        ((discord.mapRead rl.limits u).getD { commands := [] }).commands c1 v) c = _
    rw [mapRead_mapWrite_other _ _ _ _ hc]
    cases discord.mapRead rl.limits u with
    | none => simp [discord.mapRead]
    | some ul => simp
  · simp only
    rw [mapRead_mapWrite_other _ _ _ _ hu]

theorem entry_eq (rl : discord.RateLimiter) (u c : String) :
    discord.mapRead ((discord.mapRead rl.limits u).getD ⟨[]⟩).commands c = rl.entry u c := by
  unfold discord.RateLimiter.entry
  cases discord.mapRead rl.limits u with
  | none => simp [discord.mapRead]
  | some ul => simp

theorem Allow_limits (rl : discord.RateLimiter) (u c : String) (now : Int) (command : String) :
    (rl.Allow u c now).2.getCommandLimits command = rl.getCommandLimits command := by
  unfold discord.RateLimiter.Allow
  split
  · rfl
  · split
    · rfl
    · split <;> rfl

theorem Allow_entry_other (rl : discord.RateLimiter) (u c u1 c1 : String) (now : Int)
    (hne : ¬ (u1 = u ∧ c1 = c)) : (rl.Allow u1 c1 now).2.entry u c = rl.entry u c := by
  unfold discord.RateLimiter.Allow
  split
  · exact record_entry_other rl u c u1 c1 _ hne
  · split
    · exact record_entry_other rl u c u1 c1 _ hne
    · split
      · exact record_entry_other rl u c u1 c1 _ hne
      · rfl

theorem Allow_opens (rl : discord.RateLimiter) (u c : String) (now : Int)
    (h : rl.entry u c = none ∨
      ∃ e, rl.entry u c = some e ∧ now - e.window ≥ (rl.getCommandLimits c).2) :
    (rl.Allow u c now).1 = true ∧
    (rl.Allow u c now).2.entry u c = some { lastUsed := now, count := 1, window := now } := by
  unfold discord.RateLimiter.Allow
  rw [entry_eq]
  rcases h with h | ⟨e, h, hw⟩
  · rw [h]
    exact ⟨rfl, record_entry_same rl u c _⟩
  · rw [h]
    simp only [hw, if_true]
    exact ⟨trivial, record_entry_same rl u c _⟩

theorem Allow_within (rl : discord.RateLimiter) (u c : String) (now : Int)
    (e : discord.userLimit) (h : rl.entry u c = some e)
    (hw : now - e.window < (rl.getCommandLimits c).2) :
    (rl.Allow u c now).1 = decide (e.count < (rl.getCommandLimits c).1) ∧
    ∃ e1, (rl.Allow u c now).2.entry u c = some e1 ∧ e1.window = e.window ∧
      e1.count = if e.count < (rl.getCommandLimits c).1 then e.count + 1 else e.count := by
  unfold discord.RateLimiter.Allow
  rw [entry_eq, h]
  simp only [ge_iff_le, not_le.2 hw, if_false]
  split
  · rename_i hlt
    exact ⟨by simp [hlt], _, record_entry_same rl u c _, rfl, rfl⟩
  · rename_i hge
    exact ⟨by simp [hge], e, h, rfl, rfl⟩

theorem answersTo_within (u c : String) (t0 : Int) (L W : Int) :
    ∀ (calls : List (String × String × Int)) (rl : discord.RateLimiter) (k : Int),
      rl.getCommandLimits c = (L, W) →
      (∃ e, rl.entry u c = some e ∧ e.window = t0 ∧ e.count = k) →
      (∀ call ∈ calls, call.1 = u → call.2.1 = c → call.2.2 - t0 < W) →
      (discord.answersTo u c calls rl).1
        = (List.range (discord.callsOf u c calls)).map
            (fun (i : Nat) => decide (k + (i : Int) < L)) ∧
      (discord.answersTo u c calls rl).2.getCommandLimits c = (L, W) ∧
      ∃ e, (discord.answersTo u c calls rl).2.entry u c = some e ∧ e.window = t0 := by
  intro calls
  induction calls with
  | nil =>
    intro rl k hl ⟨e, he, hwin, _⟩ _
    exact ⟨rfl, hl, e, he, hwin⟩
  | cons call rest ih =>
    intro rl k hl ⟨e, he, hwin, hcnt⟩ hin
    obtain ⟨u1, c1, t⟩ := call
    have hrest : ∀ x ∈ rest, x.1 = u → x.2.1 = c → x.2.2 - t0 < W :=
      fun x hx => hin x (List.mem_cons_of_mem _ hx)
    have hl1 : (rl.Allow u1 c1 t).2.getCommandLimits c = (L, W) := by
      rw [Allow_limits, hl]
    unfold discord.answersTo
    by_cases hp : u1 = u ∧ c1 = c
    · simp only [hp, and_self, if_true]
      obtain ⟨hu, hc⟩ := hp
      subst hu hc
      have hw : t - e.window < (rl.getCommandLimits c1).2 := by
        rw [hwin, hl]
        exact hin (u1, c1, t) (List.mem_cons_self _ _) rfl rfl
      obtain ⟨hans, e1, he1, hwin1, hcnt1⟩ := Allow_within rl u1 c1 t e he hw
      rw [hl, hcnt] at hans hcnt1
      simp only at hans hcnt1
      have hrec := ih (rl.Allow u1 c1 t).2 (if k < L then k + 1 else k) hl1
        ⟨e1, he1, by rw [hwin1, hwin], hcnt1⟩ hrest
      have hcalls : discord.callsOf u1 c1 ((u1, c1, t) :: rest)
          = discord.callsOf u1 c1 rest + 1 := by
        simp [discord.callsOf]
      refine ⟨?_, hrec.2.1, hrec.2.2⟩
      rw [hcalls, List.range_succ_eq_map, List.map_cons, List.map_map, hrec.1, hans]
      congr 1
      · simp
      · apply List.map_congr_left
        intro i _
        simp only [Function.comp, Nat.succ_eq_add_one, Nat.cast_add, Nat.cast_one]
        by_cases hk : k < L
        · rw [if_pos hk]
          have : (k + 1 + (i : Int) < L) ↔ (k + ((i : Int) + 1) < L) := by
            constructor <;> intro h <;> omega
          simp only [this]
        · rw [if_neg hk]
          have h1 : ¬ (k + (i : Int) < L) := by omega
          have h2 : ¬ (k + ((i : Int) + 1) < L) := by omega
          simp [h1, h2]
    · simp only [hp, if_false]
      have hrec := ih (rl.Allow u1 c1 t).2 k hl1
        ⟨e, by rw [Allow_entry_other rl u c u1 c1 t hp]; exact he, hwin, hcnt⟩ hrest
      have hcalls : discord.callsOf u c ((u1, c1, t) :: rest) = discord.callsOf u c rest := by
        simp [discord.callsOf, hp]
      rw [hcalls]
      exact hrec

/-- C26: for a pair of user and command with limit `L` at least 1 and window `W`, a call
of `Allow` at `t0` that opens a window (the pair has no entry, or its window started `W`
or more before `t0`), followed by any run of calls of `Allow`, also by other users and
for other commands, in which the calls of the pair are made less than `W` after `t0`:
of the calls of the pair, the first included, call number `j` (from 0) returns true
exactly when `j < L`, so the first `L` return true and every later one false; and a
call of the pair made `W` or more after `t0` then returns true. -/
theorem Allow_first_L_per_window (rl : discord.RateLimiter) (u c : String) (t0 tN : Int)
    (calls : List (String × String × Int))
    (hL : 1 ≤ (rl.getCommandLimits c).1)
    (hopen : rl.entry u c = none ∨
      ∃ e, rl.entry u c = some e ∧ t0 - e.window ≥ (rl.getCommandLimits c).2)
    (hin : ∀ call ∈ calls, call.1 = u → call.2.1 = c →
      call.2.2 - t0 < (rl.getCommandLimits c).2) :
    (rl.Allow u c t0).1 :: (discord.answersTo u c calls (rl.Allow u c t0).2).1
      = (List.range (discord.callsOf u c calls + 1)).map
          (fun (j : Nat) => decide ((j : Int) < (rl.getCommandLimits c).1)) ∧
    (tN - t0 ≥ (rl.getCommandLimits c).2 →
      ((discord.answersTo u c calls (rl.Allow u c t0).2).2.Allow u c tN).1 = true) := by
  obtain ⟨h1, h2⟩ := Allow_opens rl u c t0 hopen
  have hrun := answersTo_within u c t0 (rl.getCommandLimits c).1 (rl.getCommandLimits c).2
    calls (rl.Allow u c t0).2 1 (by rw [Allow_limits]) ⟨_, h2, rfl, rfl⟩ hin
  refine ⟨?_, ?_⟩
  · rw [h1, hrun.1, List.range_succ_eq_map, List.map_cons, List.map_map]
    congr 1
    · simp only [Nat.cast_zero]
      exact (decide_eq_true (by omega)).symm
    · apply List.map_congr_left
      intro i _
      simp only [Function.comp, Nat.succ_eq_add_one, Nat.cast_add, Nat.cast_one]
      have : (1 + (i : Int) < (rl.getCommandLimits c).1)
          ↔ ((i : Int) + 1 < (rl.getCommandLimits c).1) := by
        constructor <;> intro h <;> omega
      simp only [this]
  · intro hN
    obtain ⟨e, he, hwin⟩ := hrun.2.2
    exact (Allow_opens _ u c tN (Or.inr ⟨e, he, by rw [hwin, hrun.2.1]; exact hN⟩)).1

/-- C26 at a fresh limiter with the configuration of `TestRateLimiterBasic`: of five
calls of `results` by one user within 100 ms the first three are allowed, and a call at
100 ms is allowed again. -/
theorem Allow_first_L_per_window_witness :
    (1 : Int) ≤ ((discord.NewRateLimiter discord.testConfig).getCommandLimits "results").1 ∧
    (discord.NewRateLimiter discord.testConfig).entry "test_user_123" "results" = none ∧
    ((discord.NewRateLimiter discord.testConfig).Allow "test_user_123" "results" 0).1 ::
        (discord.answersTo "test_user_123" "results" discord.sampleCalls
          ((discord.NewRateLimiter discord.testConfig).Allow "test_user_123" "results" 0).2).1
      = [true, true, true, false, false] ∧
    (((discord.NewRateLimiter discord.testConfig).Allow "test_user_123" "results" 0).1 ::
        (discord.answersTo "test_user_123" "results" discord.sampleCalls
          ((discord.NewRateLimiter discord.testConfig).Allow "test_user_123" "results" 0).2).1
      = (List.range (discord.callsOf "test_user_123" "results" discord.sampleCalls + 1)).map
          (fun (j : Nat) => decide ((j : Int)
            < ((discord.NewRateLimiter discord.testConfig).getCommandLimits "results").1)) ∧
    ((100000000 : Int) - 0
        ≥ ((discord.NewRateLimiter discord.testConfig).getCommandLimits "results").2 →
      ((discord.answersTo "test_user_123" "results" discord.sampleCalls
        ((discord.NewRateLimiter discord.testConfig).Allow "test_user_123" "results" 0).2).2.Allow
          "test_user_123" "results" 100000000).1 = true)) :=
  ⟨by decide, by decide, by decide,
    Allow_first_L_per_window (discord.NewRateLimiter discord.testConfig) "test_user_123"
      "results" 0 100000000 discord.sampleCalls (by decide) (Or.inl (by decide)) (by decide)⟩

/-- C27: at every state of the limiter, for every user, command and instant, `Check`
leaves the limiter as it is and returns the answer `Allow` returns at that state and
instant. -/
theorem Check_previews_Allow (rl : discord.RateLimiter) (userID command : String)
    (now : Int) :
    (rl.Check userID command now).2 = rl ∧
    (rl.Check userID command now).1 = (rl.Allow userID command now).1 := by
  unfold discord.RateLimiter.Check discord.RateLimiter.Allow
  cases hu : discord.mapRead rl.limits userID with
  | none => simp [discord.mapRead]
  | some userLimits =>
    simp only [Option.getD_some]
    cases hc : discord.mapRead userLimits.commands command with
    | none => simp
    | some cmdLimit =>
      simp only
      split
      · simp
      · split <;> simp [*]

/-! ### Map order, the search URL and the statistics query -/

theorem obsidian_no_pattern :
    ∀ q ∈ NewNormalizer.patterns,
      calculatePatternScore
        (NewNormalizer.normalizeText "Coffret dresseur Flammes Obsidiennes".toList) q ≤ 0 := by
  with_unfolding_all decide

theorem paldea151_no_pattern :
    ∀ q ∈ NewNormalizer.patterns,
      calculatePatternScore (NewNormalizer.normalizeText "Pikachu 151 paldea".toList) q ≤ 0 := by
  with_unfolding_all decide

set_option maxRecDepth 20000 in
/-- C28: the result of `Normalize` depends on the order in which the two maps are
traversed. The title `Coffret dresseur Flammes Obsidiennes` holds a keyword of the
group `etb` and one of the group `collection`: traversed in the order of the table it
comes back as `etb`, named `ETB Flammes Obsidiennes`, and in the reverse order as
`collection`, named `Coffret Flammes Obsidiennes`. The title `Pikachu 151 paldea`
matches two set detectors and gets the set code `sv-151` in the one order and
`sv-paldean-fates` in the other. Both orders are permutations of the tables, and the
confidence is the same in both. -/
theorem Normalize_depends_on_map_order :
    NewNormalizer.reverseOrder.types.Perm NewNormalizer.typePatterns ∧
    NewNormalizer.reverseOrder.sets.Perm NewNormalizer.setPatterns ∧
    (NewNormalizer.Normalize NewNormalizer.tableOrder
        "Coffret dresseur Flammes Obsidiennes".toList).1.Category = "etb" ∧
    (NewNormalizer.Normalize NewNormalizer.reverseOrder
        "Coffret dresseur Flammes Obsidiennes".toList).1.Category = "collection" ∧
    (NewNormalizer.Normalize NewNormalizer.tableOrder
        "Coffret dresseur Flammes Obsidiennes".toList).1.NormalizedName
      = utf8 "ETB Flammes Obsidiennes".toList ∧
    (NewNormalizer.Normalize NewNormalizer.reverseOrder
        "Coffret dresseur Flammes Obsidiennes".toList).1.NormalizedName
      = utf8 "Coffret Flammes Obsidiennes".toList ∧
    (NewNormalizer.Normalize NewNormalizer.tableOrder "Pikachu 151 paldea".toList).1.SetCode
      = "sv-151" ∧
    (NewNormalizer.Normalize NewNormalizer.reverseOrder "Pikachu 151 paldea".toList).1.SetCode
      = "sv-paldean-fates" ∧
    (NewNormalizer.Normalize NewNormalizer.tableOrder
        "Coffret dresseur Flammes Obsidiennes".toList).2
      = (NewNormalizer.Normalize NewNormalizer.reverseOrder
        "Coffret dresseur Flammes Obsidiennes".toList).2 := by
  have h1 := fun o => Normalize_of_no_pattern NewNormalizer o
    "Coffret dresseur Flammes Obsidiennes".toList (by decide) obsidian_no_pattern
  have h2 := fun o => Normalize_of_no_pattern NewNormalizer o
    "Pikachu 151 paldea".toList (by decide) paldea151_no_pattern
  have n1 : NewNormalizer.normalizeText "Coffret dresseur Flammes Obsidiennes".toList
      = "coffret dresseur flammes obsidiennes".toList := by decide
  have n2 : NewNormalizer.normalizeText "Pikachu 151 paldea".toList
      = "pikachu 151 paldea".toList := by decide
  simp only [h1, h2, n1, n2]
  refine ⟨List.reverse_perm _, List.reverse_perm _, ?_, ?_, ?_, ?_, ?_, ?_, ?_⟩
  · with_unfolding_all decide
  · with_unfolding_all decide
  · with_unfolding_all decide
  · with_unfolding_all decide
  · with_unfolding_all decide
  · with_unfolding_all decide
  · with_unfolding_all decide

theorem getCategoryID_const (category : String) : getCategoryID category = "183454" := by
  unfold getCategoryID
  split
  · rename_i e he
    have hm := List.mem_of_find?_eq_some he
    simp only [categoryMap, EbayPokemonTCGCatID, List.mem_cons, List.mem_singleton,
      List.not_mem_nil, or_false] at hm
    rcases hm with h | h | h | h | h | h | h | h <;> rw [h]
  · rfl

theorem searchParams_eq (query category : String) :
    searchParams query category
      = [("_nkw", query), ("LH_Complete", "1"), ("LH_Sold", "1"), ("_sop", "13"),
         ("_ipg", "100"), ("_sacat", "183454")] := by
  unfold searchParams
  simp only [getCategoryID_const]
  by_cases hc : category = ""
  · simp [hc, Values.Set, ParamKeyword, ParamCompleted, ParamSold, ParamSort,
      ParamItemsPerPage, ParamCategory, SortEndDateRecent, EbayPokemonTCGCatID]
  · simp [hc, Values.Set, ParamKeyword, ParamCompleted, ParamSold, ParamSort,
      ParamItemsPerPage, ParamCategory, SortEndDateRecent]

theorem param_order :
    (("_ipg" : String) ≤ "_sacat") ∧ ¬ (("_sop" : String) ≤ "_ipg") ∧
    ¬ (("_sop" : String) ≤ "_sacat") ∧ (("LH_Sold" : String) ≤ "_ipg") ∧
    (("LH_Complete" : String) ≤ "LH_Sold") ∧ ¬ (("_nkw" : String) ≤ "LH_Complete") ∧
    ¬ (("_nkw" : String) ≤ "LH_Sold") ∧ ¬ (("_nkw" : String) ≤ "_ipg") ∧
    (("_nkw" : String) ≤ "_sacat") ∧ ¬ (("_sacat" : String) ≤ "_pgn") ∧
    (("_ipg" : String) ≤ "_pgn") ∧ ¬ (("_sop" : String) ≤ "_pgn") ∧
    (("_nkw" : String) ≤ "_pgn") := by
  with_unfolding_all decide

theorem sort_first_page (query : String) :
    List.insertionSort (fun (a b : String × String) => a.1 ≤ b.1)
      [("_nkw", query), ("LH_Complete", "1"), ("LH_Sold", "1"), ("_sop", "13"),
         ("_ipg", "100"), ("_sacat", "183454")]
      = [("LH_Complete", "1"), ("LH_Sold", "1"), ("_ipg", "100"), ("_nkw", query),
          ("_sacat", "183454"), ("_sop", "13")] := by
  obtain ⟨h1, h2, h3, h4, h5, h6, h7, h8, h9, -⟩ := param_order
  simp only [List.insertionSort, List.orderedInsert, h1, h2, h3, h4, h5, h6, h7, h8, h9,
    if_true, if_false]

theorem sort_later_page (query number : String) :
    List.insertionSort (fun (a b : String × String) => a.1 ≤ b.1)
      [("_nkw", query), ("LH_Complete", "1"), ("LH_Sold", "1"), ("_sop", "13"),
         ("_ipg", "100"), ("_sacat", "183454"), ("_pgn", number)]
      = [("LH_Complete", "1"), ("LH_Sold", "1"), ("_ipg", "100"), ("_nkw", query),
          ("_pgn", number), ("_sacat", "183454"), ("_sop", "13")] := by
  obtain ⟨-, h2, h3, h4, h5, h6, h7, h8, -, h10, h11, h12, h13⟩ := param_order
  simp only [List.insertionSort, List.orderedInsert, h2, h3, h4, h5, h6, h7, h8, h10, h11,
    h12, h13, if_true, if_false]

theorem escaped_names :
    String.mk (QueryEscape "LH_Complete") = "LH_Complete" ∧
    String.mk (QueryEscape "LH_Sold") = "LH_Sold" ∧ String.mk (QueryEscape "_ipg") = "_ipg" ∧
    String.mk (QueryEscape "_nkw") = "_nkw" ∧ String.mk (QueryEscape "_pgn") = "_pgn" ∧
    String.mk (QueryEscape "_sacat") = "_sacat" ∧ String.mk (QueryEscape "_sop") = "_sop" ∧
    String.mk (QueryEscape "1") = "1" ∧ String.mk (QueryEscape "100") = "100" ∧
    String.mk (QueryEscape "13") = "13" ∧ String.mk (QueryEscape "183454") = "183454" := by
  decide

theorem Encode_first_page (query : String) :
    Values.Encode [("_nkw", query), ("LH_Complete", "1"), ("LH_Sold", "1"), ("_sop", "13"),
         ("_ipg", "100"), ("_sacat", "183454")]
      = "LH_Complete=1&LH_Sold=1&_ipg=100&_nkw=" ++ String.mk (QueryEscape query)
          ++ "&_sacat=183454&_sop=13" := by
  unfold Values.Encode
  rw [sort_first_page]
  obtain ⟨e1, e2, e3, e4, e5, e6, e7, e8, e9, e10, e11⟩ := escaped_names
  simp only [List.map, e1, e2, e3, e4, e6, e7, e8, e9, e10, e11, String.intercalate,
    String.intercalate.go]
  apply String.ext
  simp only [String.data_append, List.append_assoc]
  rfl

theorem Encode_later_page (query number : String) :
    Values.Encode [("_nkw", query), ("LH_Complete", "1"), ("LH_Sold", "1"), ("_sop", "13"),
         ("_ipg", "100"), ("_sacat", "183454"), ("_pgn", number)]
      = "LH_Complete=1&LH_Sold=1&_ipg=100&_nkw=" ++ String.mk (QueryEscape query)
          ++ "&_pgn=" ++ String.mk (QueryEscape number) ++ "&_sacat=183454&_sop=13" := by
  unfold Values.Encode
  rw [sort_later_page]
  obtain ⟨e1, e2, e3, e4, e5, e6, e7, e8, e9, e10, e11⟩ := escaped_names
  simp only [List.map, e1, e2, e3, e4, e5, e6, e7, e8, e9, e10, e11, String.intercalate,
    String.intercalate.go]
  apply String.ext
  simp only [String.data_append, List.append_assoc]
  rfl

/-- C29: for every query, category and page number, `getCategoryID` gives 183454 and
`buildSearchURL` returns the address of the search page followed by the parameters
`LH_Complete=1`, `LH_Sold=1`, `_ipg=100`, the escaped keyword as `_nkw`, the page number
as `_pgn` exactly when the page is above 1, `_sacat=183454` and `_sop=13`, in this
order: the URL does not depend on the category, and the URLs of two pages differ in
the parameter `_pgn` only. -/
theorem buildSearchURL_ignores_category (query category : String) (page : Int) :
    getCategoryID category = "183454" ∧
    buildSearchURL query category page
      = "https://www.ebay.fr/sch/i.html?LH_Complete=1&LH_Sold=1&_ipg=100&_nkw="
          ++ String.mk (QueryEscape query)
          ++ (if page > 1 then "&_pgn=" ++ String.mk (QueryEscape (toString page)) else "")
          ++ "&_sacat=183454&_sop=13" ∧
    buildSearchURL query category page = buildSearchURL query "" page ∧
    searchParams query category
      = [("_nkw", query), ("LH_Complete", "1"), ("LH_Sold", "1"), ("_sop", "13"),
         ("_ipg", "100"), ("_sacat", "183454")] ∧
    (page ≤ 1 → pageParams query category page = searchParams query category) ∧
    (1 < page → pageParams query category page
      = (searchParams query category).Set "_pgn" (toString page)) := by
  have hurl : ∀ cat, buildSearchURL query cat page
      = "https://www.ebay.fr/sch/i.html?LH_Complete=1&LH_Sold=1&_ipg=100&_nkw="
          ++ String.mk (QueryEscape query)
          ++ (if page > 1 then "&_pgn=" ++ String.mk (QueryEscape (toString page)) else "")
          ++ "&_sacat=183454&_sop=13" := by
    intro cat
    unfold buildSearchURL pageParams
    rw [searchParams_eq]
    by_cases hp : page > 1
    · simp only [hp, if_true]
      have hset : Values.Set [("_nkw", query), ("LH_Complete", "1"), ("LH_Sold", "1"),
          ("_sop", "13"), ("_ipg", "100"), ("_sacat", "183454")] ParamPageNumber
          (toString page)
          = [("_nkw", query), ("LH_Complete", "1"), ("LH_Sold", "1"), ("_sop", "13"),
            ("_ipg", "100"), ("_sacat", "183454"), ("_pgn", toString page)] := by
        simp [Values.Set, ParamPageNumber]
      rw [hset, Encode_later_page]
      apply String.ext
      simp only [String.data_append, List.append_assoc, EbayFRBaseURL, EbaySearchPath]
      rfl
    · simp only [hp, if_false]
      rw [Encode_first_page]
      apply String.ext
      simp only [String.data_append, List.append_assoc, EbayFRBaseURL, EbaySearchPath]
      rfl
  refine ⟨getCategoryID_const category, hurl category, ?_, searchParams_eq query category,
    ?_, ?_⟩
  · rw [hurl category, hurl ""]
  · intro h
    unfold pageParams
    rw [if_neg (by omega)]
  · intro h
    unfold pageParams
    rw [if_pos (by omega)]
    rfl

/-- C29 at the search `pokemon 151`: the URLs of page 1 asked with the category `single`
and of page 2 asked with the category `display`. -/
theorem buildSearchURL_ignores_category_witness :
    buildSearchURL "pokemon 151" "single" 1
      = "https://www.ebay.fr/sch/i.html?LH_Complete=1&LH_Sold=1&_ipg=100&_nkw=pokemon+151&_sacat=183454&_sop=13" ∧
    buildSearchURL "pokemon 151" "display" 2
      = "https://www.ebay.fr/sch/i.html?LH_Complete=1&LH_Sold=1&_ipg=100&_nkw=pokemon+151&_pgn=2&_sacat=183454&_sop=13" ∧
    buildSearchURL "pokemon 151" "display" 2 = buildSearchURL "pokemon 151" "" 2 :=
  ⟨by with_unfolding_all decide, by with_unfolding_all decide,
    (buildSearchURL_ignores_category "pokemon 151" "display" 2).2.2.1⟩

theorem sortColumn_allowed (opts : StatsOptions) :
    sortColumn opts = "sales_count_30d" ∨ sortColumn opts = "margin_percent" ∨
      sortColumn opts = "avg_price" := by
  unfold sortColumn
  split
  · rename_i e he
    have hm := List.mem_of_find?_eq_some he
    simp only [validSortColumns, List.mem_cons, List.mem_singleton, List.not_mem_nil,
      or_false] at hm
    rcases hm with h | h | h <;> rw [h] <;> simp
  · exact Or.inl rfl

theorem statsQuery_text (opts : StatsOptions) :
    (statsQuery opts).query
      = (addGrouping opts.withDefaults (addCategory opts.withDefaults
            { query := statsSelect, args := [], argIndex := 1 })).query
          ++ orderClause (sortColumn opts.withDefaults) opts.withDefaults.SortOrder
          ++ " LIMIT $" ++ toString (addGrouping opts.withDefaults
              (addCategory opts.withDefaults
                { query := statsSelect, args := [], argIndex := 1 })).argIndex
          ++ " OFFSET $" ++ toString ((addGrouping opts.withDefaults
              (addCategory opts.withDefaults
                { query := statsSelect, args := [], argIndex := 1 })).argIndex + 1) := by
  unfold statsQuery addLimit addOrder orderClause
  split
  · rename_i h
    simp only [h, if_true, String.append_assoc]
  · rename_i h
    simp only [h, if_false, String.append_assoc, String.append_empty]

set_option maxRecDepth 100000 in
/-- C30: the `ORDER BY` column of the query of `GetProductStats` is always one of
`sales_count_30d`, `margin_percent`, `avg_price`, but the direction is `opts.SortOrder`
as the caller gave it (`desc` when empty), written into the text: with the sort order
`desc; DROP TABLE sales; --` the query ends in
`ORDER BY avg_price desc; DROP TABLE sales; -- LIMIT $1 OFFSET $2`. -/
theorem SortOrder_is_written_into_the_query :
    (∀ opts : StatsOptions, sortColumn opts.withDefaults = "sales_count_30d" ∨
      sortColumn opts.withDefaults = "margin_percent" ∨
      sortColumn opts.withDefaults = "avg_price") ∧
    (∀ opts : StatsOptions, ∃ head tail : String,
      (statsQuery opts).query
        = head ++ orderClause (sortColumn opts.withDefaults)
            (if opts.SortOrder = "" then "desc" else opts.SortOrder) ++ tail) ∧
    (statsQuery hostileOptions).query
      = statsSelect ++ " GROUP BY p.id, p.normalized_name, p.category, p.set_name, p.msrp_eur"
        ++ " ORDER BY avg_price desc; DROP TABLE sales; -- LIMIT $1 OFFSET $2" ∧
    (statsQuery hostileOptions).args = [.int 10, .int 0] ∧
    hostileOptions.withDefaults.SortOrder ≠ "asc" ∧
    hostileOptions.withDefaults.SortOrder ≠ "desc" := by
  refine ⟨fun opts => sortColumn_allowed _, ?_, ?_, by decide, by decide, by decide⟩
  swap
  · rfl
  intro opts
  have hso : opts.withDefaults.SortOrder
      = if opts.SortOrder = "" then "desc" else opts.SortOrder := by
    unfold StatsOptions.withDefaults
    simp only
    split <;> split <;> split <;> simp_all
  refine ⟨(addGrouping opts.withDefaults (addCategory opts.withDefaults
      { query := statsSelect, args := [], argIndex := 1 })).query,
    " LIMIT $" ++ toString (addGrouping opts.withDefaults
        (addCategory opts.withDefaults
          { query := statsSelect, args := [], argIndex := 1 })).argIndex
      ++ " OFFSET $" ++ toString ((addGrouping opts.withDefaults
        (addCategory opts.withDefaults
          { query := statsSelect, args := [], argIndex := 1 })).argIndex + 1), ?_⟩
  rw [statsQuery_text, hso]
  simp only [String.append_assoc]

end Pokeprofit
